import Mathlib

/-!
# demo.Observable, demo.ui.Template, demo.Util, demo.ui.Component and demo.ui.Panel

A shallow embedding of `src/js/demo/Observable.js`, `src/js/demo/ui/Template.js`,
`src/js/demo/Util.js` (`getUnique`), `src/js/demo/ui/Component.js` and
`src/js/demo/ui/Panel.js`, together with theorems about event dispatch,
(un)subscription, template construction and rendering, duplicate removal, and the
rendering, masking and collapsing of components.

Conventions of the embedding

* JavaScript values are the inductive type `Val`.  Numbers are integers (there is
  no `NaN` and no fraction), functions and objects are identified by a reference
  number, so that `===` is decidable equality on `Val`.
* Arrays are mutable and shared by reference in JavaScript.  The registry
  `this.events` therefore maps an event type to a *reference* into `State.heap`,
  the store of all binding arrays.  An array literal `[]` that is stored allocates a
  new cell at the end of the heap; the `[]` of `this.events[type] || []` that is only
  read is the empty list.
* The registry is given by its own properties.  A name that every object inherits
  from `Object.prototype`, such as `constructor`, is not an event type here.
* A handler is a function object.  Its behaviour is given by a table
  `fns : Nat → Handler`: the calls it makes back into the observable (`Cmd`) and
  the value it returns.  Handlers do not throw.
* `fireEvent` is written without `var` for `eventType` and `result`
  (the line before them ends without a comma), so both are properties of the global
  object; they are the fields `State.eventType` and `State.result`.
* Nested dispatch is bounded by a fuel argument: `fireEvent fns (n+1)` lets handlers
  call `fireEvent fns n`.
* The components reach the document through jQuery.  The document is a store of
  elements (`UI.Node`), a jQuery object a list of elements with an identity; the
  parser of markup and the selector engine of the browser are parameters (`UI.Env`).
  Handlers call the observable only, not the methods of the component.
-/

namespace Observable

/-- JavaScript values. -/
inductive Val where
  | undefined
  | null
  | bool (b : Bool)
  | num (n : Int)
  | str (s : String)
  | fn (id : Nat)
  | obj (id : Nat)
  deriving DecidableEq, Repr, Inhabited

/-- The result of `!!v` (ToBoolean). -/
def truthy : Val → Bool
  | .undefined => false
  | .null => false
  | .bool b => b
  | .num n => n != 0
  | .str s => s != ""
  | .fn _ => true
  | .obj _ => true

/-- The global object `window`, an object like any other. -/
def window : Val := .obj 0

/-- The operator `a || b`. -/
def jsOr (a b : Val) : Val := if truthy a then a else b

/-- One element `{fn: fn, scope: scope}` of a binding array. -/
structure Binding where
  fn : Val
  scope : Val
  deriving DecidableEq, Repr, Inhabited

/-- One invocation `fn.apply(thisArg, args)` of the function object `fn`, with the
value it returned. -/
structure Call where
  fn : Nat
  thisArg : Val
  args : List Val
  ret : Val
  deriving DecidableEq, Repr

/-- The calls a handler can make on the observable while it runs. -/
inductive Cmd where
  | onEvent (type : String) (fn : Val) (scope : Val)
  | off (type : String) (fn : Val)
  | addEvents (types : List String)
  | fireEvent (type : String) (args : List Val)
  deriving DecidableEq, Repr

/-- A function object used as handler: the calls it makes, in order, and the value it
returns as a function of `this` and of its arguments. -/
structure Handler where
  body : List Cmd
  ret : Val → List Val → Val

/-- The observable, the array store and the two globals written by `fireEvent`. -/
structure State where
  /-- every binding array ever allocated; a reference is an index -/
  heap : List (List Binding)
  /-- the object `this.events`: own properties in insertion order -/
  events : List (String × Nat)
  /-- the global `eventType`: `some r` for the array `r` of the registry, `none` before
  the first dispatch or for the fresh `[]` of an unregistered type -/
  eventType : Option Nat
  /-- the global `result` -/
  result : Bool
  /-- the handler invocations so far, oldest first -/
  log : List Call
  deriving DecidableEq, Repr

/-- What a call that may throw gives. -/
inductive Outcome (α : Type) where
  | ok (a : α)
  | typeError
  | outOfFuel
  deriving DecidableEq, Repr

/-- The value of a call that ended normally. -/
def Outcome.value? {α : Type} : Outcome α → Option α
  | .ok a => some a
  | .typeError => none
  | .outOfFuel => none

/-- The assignment `o[k] = v` on an object: an existing property keeps its place. -/
def setKey {α : Type} (o : List (String × α)) (k : String) (v : α) : List (String × α) :=
  match o with
  | [] => [(k, v)]
  | (k', v') :: rest => if k' = k then (k, v) :: rest else (k', v') :: setKey rest k v

/-- The array behind a reference. -/
def deref (s : State) (r : Nat) : List Binding := s.heap.getD r []

/-- The bindings of `this.events[type]`, or `none` when the property is absent. -/
def bindingsOf (s : State) (type : String) : Option (List Binding) :=
  (s.events.lookup type).map (deref s)

/-- The array `this.events[type] || []` as seen by a reader: an unregistered type gives
a fresh empty array that nothing else refers to. -/
def arrayOf (s : State) (r : Option Nat) : List Binding :=
  match r with
  | some a => deref s a
  | none => []

/-- Source `on(type, fn, scope)` (the word `on` is reserved in Lean):
`var eventType = this.events[type] = this.events[type] || []; eventType.push(…)`. -/
def onEvent (type : String) (fn scope : Val) (s : State) : State :=
  match s.events.lookup type with
  | some r =>
    { s with events := setKey s.events type r,
             heap := s.heap.set r (deref s r ++ [⟨fn, scope⟩]) }
  | none =>
    { s with events := setKey s.events type s.heap.length,
             heap := s.heap ++ [[⟨fn, scope⟩]] }

/-- Source `removeAllEvents(type)`. -/
def removeAllEvents (type : String) (s : State) : State × Bool :=
  let eventTypeBindings := arrayOf s (s.events.lookup type)
  let wereAnyRemoved := decide (eventTypeBindings.length > 0)
  ({ s with events := setKey s.events type s.heap.length, heap := s.heap ++ [[]] },
   wereAnyRemoved)

/-- The loop of `eventTypeBindings.some(…)` in `off`: the callback splices the first
element whose `fn` is identical to the argument out of the array and returns `true`,
which ends `some`. -/
def someSplice (fn : Val) : List Binding → List Binding × Bool
  | [] => ([], false)
  | b :: rest =>
    if fn = b.fn then (rest, true)
    else ((b :: (someSplice fn rest).1), (someSplice fn rest).2)

/-- Source `off(type, fn)`; an omitted `fn` is `undefined`. -/
def off (type : String) (fn : Val) (s : State) : State × Bool :=
  let shouldRemoveAll := !truthy fn
  if shouldRemoveAll then removeAllEvents type s
  else
    match s.events.lookup type with
    | none => (s, false)
    | some r =>
      ({ s with heap := s.heap.set r (someSplice fn (deref s r)).1 },
       (someSplice fn (deref s r)).2)

/-- One step of `addEvents`: `this.events[eventType] = this.events[eventType] || []`. -/
def addEvent (s : State) (eventType : String) : State :=
  match s.events.lookup eventType with
  | some r => { s with events := setKey s.events eventType r }
  | none => { s with events := setKey s.events eventType s.heap.length,
                     heap := s.heap ++ [[]] }

/-- Source `addEvents(...eventTypes)`. -/
def addEvents (eventTypes : List String) (s : State) : State :=
  eventTypes.foldl addEvent s

/-- Runs one call of a handler body; `fire` is the dispatch available to handlers. -/
def runCmd (fire : String → List Val → State → Outcome (State × Bool)) (c : Cmd)
    (s : State) : Outcome State :=
  match c with
  | .onEvent type fn scope => .ok (onEvent type fn scope s)
  | .off type fn => .ok (off type fn s).1
  | .addEvents types => .ok (addEvents types s)
  | .fireEvent type args =>
    match fire type args s with
    | .ok r => .ok r.1
    | .typeError => .typeError
    | .outOfFuel => .outOfFuel

/-- Runs a handler body. -/
def runBody (fire : String → List Val → State → Outcome (State × Bool)) :
    List Cmd → State → Outcome State
  | [], s => .ok s
  | c :: rest, s =>
    match runCmd fire c s with
    | .ok s' => runBody fire rest s'
    | .typeError => .typeError
    | .outOfFuel => .outOfFuel

/-- The call `currentBinding.fn.apply(currentBinding.scope, args)`; applying what is
not a function throws a TypeError. -/
def applyBinding (fns : Nat → Handler)
    (fire : String → List Val → State → Outcome (State × Bool))
    (b : Binding) (args : List Val) (s : State) : Outcome (State × Val) :=
  match b.fn with
  | .fn i =>
    let fnResult := (fns i).ret b.scope args
    match runBody fire (fns i).body
        { s with log := s.log ++ [⟨i, b.scope, args, fnResult⟩] } with
    | .ok s' => .ok (s', fnResult)
    | .typeError => .typeError
    | .outOfFuel => .outOfFuel
  | _ => .typeError

/-- The loop of `Array.prototype.forEach` on the array `r`: the length is read once
(`n` more indices from `k` on), and index `k` is visited when the array, as it is at
that moment, still has an element there.  The callback ends with
`result = result && fnResult !== false` on the global `result`. -/
def forEachLoop (fns : Nat → Handler)
    (fire : String → List Val → State → Outcome (State × Bool))
    (r : Option Nat) (args : List Val) : Nat → Nat → State → Outcome State
  | 0, _, s => .ok s
  | n + 1, k, s =>
    match (arrayOf s r)[k]? with
    | none => forEachLoop fns fire r args n (k + 1) s
    | some currentBinding =>
      match applyBinding fns fire currentBinding args s with
      | .ok (s', fnResult) =>
        forEachLoop fns fire r args n (k + 1)
          { s' with result := s'.result && decide (fnResult ≠ Val.bool false) }
      | .typeError => .typeError
      | .outOfFuel => .outOfFuel

/-- Source `fireEvent(type, ...args)`.  `eventType` and `result` are assigned as
globals, the array is iterated with `forEach`, and the global `result` is returned. -/
def fireEvent (fns : Nat → Handler) : Nat → String → List Val → State →
    Outcome (State × Bool)
  | 0, _, _, _ => .outOfFuel
  | fuel + 1, type, args, s =>
    let r := s.events.lookup type
    let s0 := { s with eventType := r, result := true }
    match forEachLoop fns (fireEvent fns fuel) r args (arrayOf s0 r).length 0 s0 with
    | .ok s' => .ok (s', s'.result)
    | .typeError => .typeError
    | .outOfFuel => .outOfFuel

/-- The registry refers to allocated arrays and no array is shared by two types. -/
def WF (s : State) : Prop :=
  (s.events.map Prod.snd).Nodup ∧ ∀ p ∈ s.events, p.2 < s.heap.length

instance (s : State) : Decidable (WF s) := by
  unfold WF; infer_instance

end Observable

namespace Observable

/-- Whether a value is a function object. -/
def Val.isFn : Val → Bool
  | .fn _ => true
  | _ => false

/-- Whether a handler call is a nested `fireEvent`. -/
def Cmd.isFire : Cmd → Bool
  | .fireEvent _ _ => true
  | _ => false

/-- Whether a handler call is `off(type, fn)` for the given type with a handler given,
the call that splices a binding out of the array of that type. -/
def Cmd.splicesType (type : String) : Cmd → Bool
  | .off t fn => truthy fn && decide (t = type)
  | _ => false

/-- Whether a handler call is `on(…)`, or `off(type)` without a handler. -/
def Cmd.isOnOrOffAll : Cmd → Bool
  | .onEvent _ _ _ => true
  | .off _ fn => !truthy fn
  | _ => false

/-- Whether a handler call registers only function objects. -/
def Cmd.registersFn : Cmd → Bool
  | .onEvent _ fn _ => fn.isFn
  | _ => true

/-- Every element of every binding array is a function object. -/
def Callable (s : State) : Prop := ∀ arr ∈ s.heap, ∀ b ∈ arr, b.fn.isFn = true

/-- The array `a` is allocated, it starts with the bindings `bs`, and no type other
than `type` refers to it. -/
def Owns (type : String) (a : Nat) (bs : List Binding) (s : State) : Prop :=
  a < s.heap.length ∧ (∃ t, deref s a = bs ++ t) ∧
    ∀ t' r', s.events.lookup t' = some r' → t' ≠ type → r' ≠ a

end Observable

namespace Observable

/-- jQuery's `$.extend({}, o)` for a plain object `o`, given by its properties in
enumeration order: a shallow copy that leaves out the properties whose value is
`undefined`. -/
def jqExtend (o : List (String × Val)) : List (String × Val) :=
  o.filter (fun p => decide (p.2 ≠ Val.undefined))

/-- jQuery's `$.isEmptyObject(o)`: whether `o` has no enumerable property. -/
def jqIsEmptyObject (o : List (String × Val)) : Bool := o.isEmpty

/-- The callback that `normalizeEvents` hands to `$.each`: every property except
`scope` gets a new one-element array `[{fn: fn, scope: scope}]`. -/
def normalizeEntry (scope : Val) (s : State) (p : String × Val) : State :=
  if p.1 ≠ "scope" then
    { s with events := setKey s.events p.1 s.heap.length,
             heap := s.heap ++ [[⟨p.2, scope⟩]] }
  else s

/-- Source `normalizeEvents()`, with the configured object `this.events` as argument
`cfg`.  `$.each(eventsCfg, …)` visits the properties of a plain object in order (the
callback returns nothing, so the iteration is never cut short; a configuration with
a numeric `length` property, which jQuery would treat as an array, is outside the
embedding). -/
def normalizeEvents (cfg : List (String × Val)) (s : State) : State :=
  let scope := jsOr ((cfg.lookup "scope").getD Val.undefined) window
  let eventsCfg := jqExtend cfg
  let hasUserConfiguredEvents := !jqIsEmptyObject cfg
  if !hasUserConfiguredEvents then { s with events := [] }
  else eventsCfg.foldl (normalizeEntry scope) { s with events := [] }

/-- The configuration of the class documentation: two handlers and a scope. -/
def docCfg : List (String × Val) :=
  [("change", .fn 3), ("someOtherChange", .fn 4), ("scope", .obj 9)]

end Observable

namespace Observable

/-- An observable on which nothing was registered. -/
def fresh : State := ⟨[], [], none, true, []⟩

/-- Handlers that make no call on the observable: function 0 returns `false`, function 1
returns `0`, every other function returns `undefined`. -/
def plainHandlers : Nat → Handler := fun i =>
  ⟨[], fun _ _ => if i = 0 then .bool false else if i = 1 then .num 0 else .undefined⟩

/-- Function 0 unsubscribes itself from `"t"` when it runs (a handler that wants to be
called once); the other functions make no call. All return `undefined`. -/
def onceHandlers : Nat → Handler := fun i =>
  ⟨if i = 0 then [.off "t" (.fn 0)] else [], fun _ _ => .undefined⟩

/-- Function 0 subscribes function 2 to `"t"` and then unsubscribes itself; the other
functions make no call. All return `undefined`. -/
def swapHandlers : Nat → Handler := fun i =>
  ⟨if i = 0 then [.onEvent "t" (.fn 2) .undefined, .off "t" (.fn 0)] else [],
   fun _ _ => .undefined⟩

/-- Function 0 subscribes function 2 to `"t"` and then calls `off("t")` without a handler;
the other functions make no call. All return `undefined`. -/
def resetHandlers : Nat → Handler := fun i =>
  ⟨if i = 0 then [.onEvent "t" (.fn 2) .undefined, .off "t" .undefined] else [],
   fun _ _ => .undefined⟩

/-- Function 0 returns `false`; function 1 dispatches the event `"u"` and returns
`undefined`; the other functions make no call and return `undefined`. -/
def nestedHandlers : Nat → Handler := fun i =>
  ⟨if i = 1 then [.fireEvent "u" []] else [],
   fun _ _ => if i = 0 then .bool false else .undefined⟩

/-- The observable after `on("t", f0, a)` and `on("t", f1, b)` with two scope objects. -/
def twoBound : State :=
  onEvent "t" (.fn 1) (.obj 8) (onEvent "t" (.fn 0) (.obj 7) fresh)

/-- The observable after `on("u", f0)` and `on("t", f1)`. -/
def nestedBound : State :=
  onEvent "t" (.fn 1) (.obj 8) (onEvent "u" (.fn 0) (.obj 7) fresh)

end Observable

/-!
## demo.ui.Template

JavaScript strings are lists of characters.  `render` compiles every placeholder it
found into a regular expression with `new RegExp(placeholder, 'g')`; the embedding
covers the placeholders whose text is a literal pattern and reports the others as
`Result.notLiteral`.
-/

namespace Template

/-- A JavaScript string. -/
abbrev Str := List Char

/-- What the lookup `values[property]` gives: nothing, `null` or a string. -/
inductive Value where
  | undefined
  | null
  | str (s : Str)
  deriving DecidableEq, Repr

/-- What `render` does: it returns a string, or throws a TypeError, or meets a
placeholder that is not a literal pattern. -/
inductive Result where
  | ok (html : Str)
  | typeError
  | notLiteral
  deriving DecidableEq, Repr

/-- Source `emptyValue: ''`. -/
def emptyValue : Str := []

/-- The characters that `.` does not match. -/
def isLineTerminator (c : Char) : Bool :=
  c = '\n' || c = '\r' || c = Char.ofNat 0x2028 || c = Char.ofNat 0x2029

/-- The part `(.*?)\}` of the source `regex: /\{(.*?)\}/g`, tried right after a `{`:
the shortest run of characters other than line terminators that is followed by `}`.
Gives the captured text. -/
def lazyBody : Str → Option Str
  | [] => none
  | c :: rest =>
    if c = '}' then some []
    else if isLineTerminator c then none
    else (lazyBody rest).map (fun inner => c :: inner)

/-- The matches of `/\{(.*?)\}/g` from left to right; `skip` characters still belong to
the match found last. -/
def matchesFrom : Nat → Str → List Str
  | _, [] => []
  | skip + 1, _ :: rest => matchesFrom skip rest
  | 0, c :: rest =>
    if c = '{' then
      match lazyBody rest with
      | some inner => ('{' :: (inner ++ ['}'])) :: matchesFrom (inner.length + 1) rest
      | none => matchesFrom 0 rest
    else matchesFrom 0 rest

/-- The call `this.template.match(this.regex)`: the array of all matches, or `null`
(here `none`) when there is no match. -/
def matchRegex (template : Str) : Option (List Str) :=
  match matchesFrom 0 template with
  | [] => none
  | m :: ms => some (m :: ms)

/-- The call `placeholder.replace(this.stripRegex, this.emptyValue)` with
`stripRegex: /\{|\}/g`: every brace is removed. -/
def stripBraces (placeholder : Str) : Str :=
  placeholder.filter (fun c => !(c = '{' || c = '}'))

/-- The characters with a meaning of their own in a regular expression. -/
def regexSpecials : List Char :=
  ['\\', '^', '$', '.', '*', '+', '?', '(', ')', '[', ']', '{', '}', '|']

/-- A decimal digit `0` … `9`. -/
def isDigit (c : Char) : Bool := decide (48 ≤ c.toNat) && decide (c.toNat ≤ 57)

/-- A letter `A` … `Z` or `a` … `z`. -/
def isLetter (c : Char) : Bool :=
  (decide (65 ≤ c.toNat) && decide (c.toNat ≤ 90)) ||
    (decide (97 ≤ c.toNat) && decide (c.toNat ≤ 122))

/-- Whether the text between the braces has the shape of a quantifier: `n`, `n,` or
`n,m`. -/
def quantifierShaped (inner : Str) : Bool :=
  !(inner.takeWhile isDigit).isEmpty &&
    ((inner.dropWhile isDigit).isEmpty ||
      ((inner.dropWhile isDigit).head? = some ',' &&
        ((inner.dropWhile isDigit).drop 1).all isDigit))

/-- Whether `new RegExp(placeholder, 'g')` matches exactly the text `placeholder`: the
text between the braces has no special character and is not a quantifier (braces that
are no quantifier are ordinary characters). -/
def isLiteralPattern (placeholder : Str) : Bool :=
  ((placeholder.drop 1).dropLast).all (fun c => !regexSpecials.contains c) &&
    !quantifierShaped ((placeholder.drop 1).dropLast)

/-- The replacement text of `String.prototype.replace` for a string `replaceValue`:
`$$` is `$`, `$&` the matched text, `` $` `` the text before the match and `$'` the text
after it.  A literal pattern has no group, so `$1` … stay as they are. -/
def getSubstitution (matched before after : Str) : Str → Str
  | [] => []
  | [c] => [c]
  | c :: d :: rest =>
    if c = '$' then
      if d = '$' then '$' :: getSubstitution matched before after rest
      else if d = '&' then matched ++ getSubstitution matched before after rest
      else if d = Char.ofNat 96 then before ++ getSubstitution matched before after rest
      else if d = Char.ofNat 39 then after ++ getSubstitution matched before after rest
      else c :: getSubstitution matched before after (d :: rest)
    else c :: getSubstitution matched before after (d :: rest)

/-- The call `rendered.replace(placeholderRegex, value)` for a literal pattern with the
flag `g`: every occurrence, found from left to right in the string as it was given, is
replaced.  `before` is the text already passed, `skip` characters still belong to the
occurrence found last. -/
def replaceFrom (pattern value : Str) : Nat → Str → Str → Str
  | _, _, [] => []
  | skip + 1, before, c :: rest => replaceFrom pattern value skip (before ++ [c]) rest
  | 0, before, c :: rest =>
    if pattern.isPrefixOf (c :: rest) then
      getSubstitution pattern before ((c :: rest).drop pattern.length) value ++
        replaceFrom pattern value (pattern.length - 1) (before ++ [c]) rest
    else c :: replaceFrom pattern value 0 (before ++ [c]) rest

/-- The string that `render` substitutes for a looked-up value:
`if (value === null || value === undefined) value = this.emptyValue`. -/
def valueText : Value → Str
  | .undefined => emptyValue
  | .null => emptyValue
  | .str s => s

/-- The callback of `placeholders.forEach` in `render`. -/
def renderStep (values : Str → Value) (rendered : Result) (placeholder : Str) : Result :=
  match rendered with
  | .ok r =>
    if isLiteralPattern placeholder then
      .ok (replaceFrom placeholder (valueText (values (stripBraces placeholder))) 0 [] r)
    else .notLiteral
  | .typeError => .typeError
  | .notLiteral => .notLiteral

/-- Source `render(values)` on the template text.  When the template has no match,
`placeholders` is `null` and `placeholders.forEach` throws a TypeError. -/
def render (template : Str) (values : Str → Value) : Result :=
  match matchRegex template with
  | none => .typeError
  | some placeholders => placeholders.foldl (renderStep values) (.ok template)

/-- A letter, a digit or an underscore. -/
def isIdentChar (c : Char) : Bool := isLetter c || isDigit c || c = '_'

/-- An identifier: a letter followed by letters, digits and underscores. -/
def isIdentifier : Str → Bool
  | [] => false
  | c :: rest => isLetter c && rest.all isIdentChar

/-- Whether a string has none of the characters `{`, `}` and `$`. -/
def isPlainText (s : Str) : Bool := s.all (fun c => !(c = '{' || c = '}' || c = '$'))

/-- The text of the template in which the placeholders chosen by `chosen` (a test on
the text between the braces) are replaced by their values, all at once; the
placeholders are the matches of `/\{(.*?)\}/g` as in `matchesFrom`. -/
def substituteFrom (values : Str → Value) (chosen : Str → Bool) : Nat → Str → Str
  | _, [] => []
  | skip + 1, _ :: rest => substituteFrom values chosen skip rest
  | 0, c :: rest =>
    if c = '{' then
      match lazyBody rest with
      | some inner =>
        (if chosen inner then valueText (values inner) else '{' :: (inner ++ ['}'])) ++
          substituteFrom values chosen (inner.length + 1) rest
      | none => c :: substituteFrom values chosen 0 rest
    else c :: substituteFrom values chosen 0 rest

/-- The simultaneous substitution of the spec: every occurrence of every placeholder
`{id}` replaced by `values[id]`, or by the empty string when that is missing, `null` or
`undefined`; the text outside the placeholders unchanged. -/
def substitute (values : Str → Value) (template : Str) : Str :=
  substituteFrom values (fun _ => true) 0 template

/-- The value source `{x: "Z"}`. -/
def xIsZ : Str → Value := fun k => if k = "x".toList then .str "Z".toList else .undefined

/-- The value source `{}`. -/
def noValues : Str → Value := fun _ => .undefined

end Template

namespace Template

/-- An argument of the constructor of a template: a string, or a plain object `{…}`. -/
inductive Arg where
  | str (s : Str)
  | plainObject
  deriving DecidableEq, Repr

/-- jQuery's `$.isPlainObject(lastArgument)`, where `lastArgument` is
`args[args.length - 1]`: `undefined` (here `none`) for an empty argument list. -/
def isPlainObject : Option Arg → Bool
  | some .plainObject => true
  | _ => false

/-- The string that `join` makes of an array element. -/
def argText : Arg → Str
  | .str s => s
  | .plainObject => "[object Object]".toList

/-- The call `Array.prototype.join(separator)`: the first element, then the separator
and the next element for every further index. -/
def join (separator : Str) : List Str → Str
  | [] => []
  | [x] => x
  | x :: y :: rest => x ++ separator ++ join separator (y :: rest)

/-- Source `init()` of `demo.ui.Template` on the argument list: the text stored in
`this.template`. -/
def init (args : List Arg) : Str :=
  let lastArgument := args.getLast?
  let isLastArgumentCfg := isPlainObject lastArgument
  if args.length = 0 then emptyValue
  else if args.length = 1 then
    if isLastArgumentCfg then emptyValue else (args.map argText).headD emptyValue
  else
    let templateParts := if isLastArgumentCfg then args.dropLast else args
    join ['\n'] (templateParts.map argText)

/-- The value source `{x: "{y}", y: "Q"}`: the value of `x` has the text of the
placeholder `{y}`. -/
def xNamesY : Str → Value := fun k =>
  if k = "x".toList then .str "{y}".toList
  else if k = "y".toList then .str "Q".toList
  else .undefined

/-- The value source `{x: "$&", y: "a$$b"}`: values with `$` sequences. -/
def dollarValues : Str → Value := fun k =>
  if k = "x".toList then .str "$&".toList
  else if k = "y".toList then .str "a$$b".toList
  else .undefined

end Template

/-!
## demo.Util
-/

namespace Util

open Observable (Val)

/-- The inner loop of `getUnique` on the local array `a`, for the indices `i` and `j`:
`for (…; j < a.length; ++j) if (a[i] === a[j]) a.splice(j--, 1);`.  After a splice the
same index `j` is looked at again. -/
def innerLoop (a : List Val) (i j : Nat) : List Val :=
  if j < a.length then
    if a[i]? = a[j]? then innerLoop (a.eraseIdx j) i j
    else innerLoop a i (j + 1)
  else a
termination_by a.length - j
decreasing_by
  all_goals simp_wf
  · rw [List.length_eraseIdx]
    split <;> omega
  · omega

/-- The outer loop of `getUnique`: `for (var i = 0; i < a.length; ++i)` around the
inner loop started at `j = i + 1`. -/
def outerLoop (a : List Val) (i : Nat) : List Val :=
  if i < a.length then outerLoop (innerLoop a i (i + 1)) (i + 1) else a
termination_by a.length - i
decreasing_by
  simp_wf
  have key : ∀ (n : Nat) (b : List Val) (k : Nat), b.length - k ≤ n →
      (innerLoop b i k).length ≤ b.length := by
    intro n
    induction n with
    | zero =>
      intro b k hk
      rw [innerLoop]
      split
      · omega
      · exact Nat.le_refl _
    | succ n ih =>
      intro b k hk
      rw [innerLoop]
      split
      · rename_i hlt
        split
        · have h1 : (b.eraseIdx k).length = b.length - 1 := by
            rw [List.length_eraseIdx]; simp [hlt]
          have := ih (b.eraseIdx k) k (by omega)
          omega
        · exact ih b (k + 1) (by omega)
      · exact Nat.le_refl _
  have := key (a.length - (i + 1)) a (i + 1) (Nat.le_refl _)
  omega

/-- Source `getUnique(array)` on the elements: `var a = array.concat();`, the two
loops on `a`, `return a`. -/
def getUnique (array : List Val) : List Val :=
  outerLoop (array ++ []) 0

/-- Source `getUnique(array)` with arrays held by reference in a store: `array.concat()`
allocates the new array `a` behind all others, the loops work on `a`, and the reference
to `a` is returned. -/
def getUniqueRef (store : List (List Val)) (array : Nat) : List (List Val) × Nat :=
  ((store ++ [store.getD array [] ++ []]).set store.length
      (outerLoop ((store ++ [store.getD array [] ++ []]).getD store.length []) 0),
   store.length)

/-- The elements of a list in the order of their first occurrence, every later
occurrence left out. -/
def firstOccurrences : List Val → List Val
  | [] => []
  | x :: rest => x :: (firstOccurrences rest).filter (fun y => decide (y ≠ x))

end Util

/-!
## demo.ui.Component and demo.ui.Panel

The components work on the document of the browser through jQuery.  The document is a
store of elements; an element is an index of the store, a jQuery object is a list of
elements together with the identity of the object.  Text outside the elements of a set
is not represented.  Markup is parsed by the browser, which the embedding takes as a
parameter (`Env.parse`), as it does the selector engine (`Env.select`).
-/

namespace UI

open Observable (Val)
open Template (Str Value)

/-- An element of the document, as far as the components look at it. -/
structure Node where
  /-- the names in the `class` attribute, in order -/
  classes : List Str
  /-- the child elements in document order -/
  children : List Nat
  /-- the text directly inside the element -/
  text : Str
  /-- whether `hide()` has set `display: none` -/
  hidden : Bool
  /-- the value of `css('position')` -/
  position : Str
  /-- the number of click listeners bound to `toggleCollapsed` -/
  clickListeners : Nat
  deriving DecidableEq, Repr

/-- What the browser makes of markup: new elements, whose children are given by their
place in `nodes`, the top-level elements among them, and the top-level text. -/
structure Fragment where
  nodes : List Node
  roots : List Nat
  text : Str
  deriving DecidableEq, Repr

/-- The browser: the parser of markup, and the selector engine that finds the elements
of the document matching a selector. -/
structure Env where
  parse : Str → Fragment
  select : List Node → Str → List Nat

/-- A jQuery object: its identity and the elements it holds. -/
structure JQ where
  id : Nat
  elems : List Nat
  deriving DecidableEq, Repr

/-- The jQuery object as a value, as handlers receive it. -/
def JQ.val (q : JQ) : Val := .obj q.id

/-- What a method gives: it returns, throws a TypeError, runs out of fuel in a nested
dispatch, or leaves what is embedded (a placeholder that is no literal pattern, or an
insertion into several elements at once, for which jQuery clones the content). -/
inductive Res (α : Type) where
  | ok (a : α)
  | typeError
  | outOfFuel
  | unmodelled
  deriving DecidableEq, Repr

/-- Continues with `f` after a call that returned. -/
def Res.bind {α β : Type} (r : Res α) (f : α → Res β) : Res β :=
  match r with
  | .ok a => f a
  | .typeError => .typeError
  | .outOfFuel => .outOfFuel
  | .unmodelled => .unmodelled

/-- The value of a call that returned. -/
def Res.value? {α : Type} : Res α → Option α
  | .ok a => some a
  | _ => none

/-- Whether a call threw a TypeError. -/
def Res.threw {α : Type} : Res α → Bool
  | .typeError => true
  | _ => false

/-- A component with the document it lives in. -/
structure State where
  /-- the component as `demo.Observable` -/
  obs : Observable.State
  /-- the component as a value (`this`) -/
  self : Val
  /-- whether the component is a `demo.ui.Panel` -/
  isPanel : Bool
  /-- the string properties of the component, which its templates read -/
  props : Str → Value
  /-- the text of `this.template` -/
  template : Str
  /-- the text of `this.maskTemplate` -/
  maskTemplate : Str
  /-- the text of `this.titlebarTemplate` -/
  titlebarTemplate : Str
  /-- the text of `this.bodyTemplate` -/
  bodyTemplate : Str
  /-- the property `$container`, `null` at first -/
  container : Option JQ
  /-- the property `$html`, `null` at first -/
  html : Option JQ
  /-- the property `$mask`, `null` at first -/
  mask : Option JQ
  /-- the property `$titlebar` -/
  titlebar : Option JQ
  /-- the property `$body` -/
  body : Option JQ
  /-- the property `$toggleButton` -/
  toggleButton : Option JQ
  /-- the property `rendered` -/
  rendered : Bool
  /-- the elements of the document, attached or not -/
  dom : List Node
  /-- the identity of the next jQuery object -/
  nextId : Nat
  /-- the events fired by the methods of the component, oldest first -/
  fired : List (String × List Val)

/-- The string property `this[name]`; the empty string when it is not set. -/
def prop (u : State) (name : String) : Str := Template.valueText (u.props name.toList)

/-- The assignment `this[name] = value` of a string. -/
def setProp (u : State) (name : String) (value : Str) : State :=
  { u with props := fun k => if k = name.toList then .str value else u.props k }

/-! ### jQuery on the document -/

/-- Applies `f` to the elements of the store that are in `elems`; `i` is the index of
the first element of the list. -/
def mapAt (f : Node → Node) (elems : List Nat) : Nat → List Node → List Node
  | _, [] => []
  | i, nd :: rest => (if i ∈ elems then f nd else nd) :: mapAt f elems (i + 1) rest

/-- The children of an element. -/
def childList (dom : List Node) (e : Nat) : List Nat :=
  match dom[e]? with
  | some nd => nd.children
  | none => []

/-- The class names of an element. -/
def classList (dom : List Node) (e : Nat) : List Str :=
  match dom[e]? with
  | some nd => nd.classes
  | none => []

/-- A new jQuery object for the given elements. -/
def jQuery (elems : List Nat) (u : State) : JQ × State :=
  (⟨u.nextId, elems⟩, { u with nextId := u.nextId + 1 })

/-- A node of a fragment placed in the store behind `k` elements. -/
def Node.shift (k : Nat) (nd : Node) : Node :=
  { nd with children := nd.children.map (fun c => c + k) }

/-- The call `$(markup)`: the parsed elements are new elements of the store, attached
to nothing, and the object holds the top-level ones. -/
def build (env : Env) (markup : Str) (u : State) : JQ × State :=
  jQuery ((env.parse markup).roots.map (fun c => c + u.dom.length))
    { u with dom := u.dom ++ (env.parse markup).nodes.map (Node.shift u.dom.length) }

/-- White space, which separates class names. -/
def isWhite (c : Char) : Bool :=
  c = ' ' || c = '\t' || c = '\n' || c = '\r' || c = Char.ofNat 12

/-- The class names in a string; `cur` is the name being read. -/
def classNamesFrom (cur : Str) : Str → List Str
  | [] => if cur = [] then [] else [cur]
  | c :: rest =>
    if isWhite c then
      if cur = [] then classNamesFrom [] rest else cur :: classNamesFrom [] rest
    else classNamesFrom (cur ++ [c]) rest

/-- The class names in a string, separated by white space. -/
def classNames (value : Str) : List Str := classNamesFrom [] value

/-- The class names of an element after the given names were added: a name that is
there already is not added again. -/
def addNames (names : List Str) (classes : List Str) : List Str :=
  names.foldl (fun cls n => if n ∈ cls then cls else cls ++ [n]) classes

/-- The class names of an element after the given names were removed. -/
def removeNames (names : List Str) (classes : List Str) : List Str :=
  names.foldl (fun cls n => cls.filter (fun x => decide (x ≠ n))) classes

/-- The call `addClass(value)`: every element of the set gets the names it has
not. -/
def addClass (value : Str) (elems : List Nat) (dom : List Node) : List Node :=
  mapAt (fun nd => { nd with classes := addNames (classNames value) nd.classes }) elems 0 dom

/-- The call `removeClass(value)`: every element of the set loses the names. -/
def removeClass (value : Str) (elems : List Nat) (dom : List Node) : List Node :=
  mapAt (fun nd => { nd with classes := removeNames (classNames value) nd.classes })
    elems 0 dom

/-- The call `hasClass(name)` for one class name: whether an element of the set has
it. -/
def hasClass (name : Str) (elems : List Nat) (dom : List Node) : Bool :=
  elems.any (fun e => decide (name ∈ classList dom e))

/-- The calls `show()` (`hidden = false`) and `hide()` (`hidden = true`). -/
def setHidden (hidden : Bool) (elems : List Nat) (dom : List Node) : List Node :=
  mapAt (fun nd => { nd with hidden := hidden }) elems 0 dom

/-- The call `css('position')`: the value of the first element, `undefined` (here
`none`) for an empty set. -/
def cssPosition (elems : List Nat) (dom : List Node) : Option Str :=
  match elems with
  | [] => none
  | e :: _ => (dom[e]?).map (fun nd => nd.position)

/-- The call `css({position: value})`. -/
def setPosition (value : Str) (elems : List Nat) (dom : List Node) : List Node :=
  mapAt (fun nd => { nd with position := value }) elems 0 dom

/-- The call `on('click', this.toggleCollapsed.bind(this))`. -/
def onClick (elems : List Nat) (dom : List Node) : List Node :=
  mapAt (fun nd => { nd with clickListeners := nd.clickListeners + 1 }) elems 0 dom

/-- The calls `target.append(content)` and `content.appendTo(target)`: nothing happens
for an empty target; for a target of one element the content is taken from where it
is and becomes the last children of the target; for several targets jQuery inserts
clones, which is not embedded (`none`). -/
def append (targets content : List Nat) (dom : List Node) : Option (List Node) :=
  match targets with
  | [] => some dom
  | [t] =>
    some (mapAt (fun nd => { nd with children := nd.children ++ content }) [t] 0
      (dom.map (fun nd =>
        { nd with children := nd.children.filter (fun c => decide (c ∉ content)) })))
  | _ :: _ :: _ => none

/-- The call `children('.' + name)`: the children of the elements of the set that
have the class. -/
def childrenWithClass (name : Str) (elems : List Nat) (dom : List Node) : List Nat :=
  (elems.flatMap (childList dom)).filter (fun c => decide (name ∈ classList dom c))

/-- The descendants of an element in document order, down to the given depth. -/
def descendants (dom : List Node) : Nat → Nat → List Nat
  | 0, _ => []
  | depth + 1, e => (childList dom e).flatMap (fun c => c :: descendants dom depth c)

/-- The call `find('.' + name)`: the descendants of the elements of the set that have
the class. -/
def find (name : Str) (elems : List Nat) (dom : List Node) : List Nat :=
  (elems.flatMap (descendants dom dom.length)).filter
    (fun c => decide (name ∈ classList dom c))

/-- The call `html(markup)` on one element: the parsed markup becomes the content of
the element, what it had before is no longer in it. -/
def setHtml (env : Env) (markup : Str) (dom : List Node) (e : Nat) : List Node :=
  mapAt (fun nd => { nd with
      children := (env.parse markup).roots.map (fun c => c + dom.length),
      text := (env.parse markup).text })
    [e] 0 (dom ++ (env.parse markup).nodes.map (Node.shift dom.length))

/-- The call `html(markup)` on a set: every element in turn. -/
def html (env : Env) (markup : Str) (elems : List Nat) (dom : List Node) : List Node :=
  elems.foldl (setHtml env markup) dom

/-- The elements of a property that holds a jQuery object or `null`, when passed to
`append`. -/
def elemsOf : Option JQ → List Nat
  | some q => q.elems
  | none => []

/-! ### demo.ui.Component -/

namespace Component

/-- The method `fireEvent` that the component has from `demo.Observable`, with the
event noted in `fired`. -/
def fireEvent (fns : Nat → Observable.Handler) (fuel : Nat) (type : String)
    (args : List Val) (u : State) : Res State :=
  match Observable.fireEvent fns fuel type args u.obs with
  | .ok r => .ok { u with obs := r.1, fired := u.fired ++ [(type, args)] }
  | .typeError => .typeError
  | .outOfFuel => .outOfFuel

/-- Source `insertInto($container)`. -/
def insertInto (container : JQ) (u : State) : Res State :=
  match append container.elems (elemsOf u.html) u.dom with
  | some dom => .ok { u with container := some container, dom := dom, rendered := true }
  | none => .unmodelled

/-- The first statement of `render($container)`:
`$container = !!$container ? $container : !!this.containerSelector
? $(this.containerSelector) : null`; an omitted or `null` container is `none`. -/
def resolveContainer (env : Env) (container : Option JQ) (u : State) : Option JQ × State :=
  match container with
  | some c => (some c, u)
  | none =>
    if prop u "containerSelector" ≠ [] then
      let found := jQuery (env.select u.dom (prop u "containerSelector")) u
      (some found.1, found.2)
    else (none, u)

/-- The statements of `render($container)` after the first, `container` being the value
of the variable `$container` then. -/
def renderInto (env : Env) (fns : Nat → Observable.Handler) (fuel : Nat)
    (container : Option JQ) (u : State) : Res State :=
  match Template.render u.template u.props with
  | .typeError => .typeError
  | .notLiteral => .unmodelled
  | .ok html =>
    let containerExists : Bool :=
      match container with
      | some c => decide (c.elems.length > 0)
      | none => false
    let built := build env html u
    let u1 : State := { built.2 with html := some built.1 }
    let u2 : State := { u1 with dom := addClass (prop u1 "cssClass") built.1.elems u1.dom }
    match containerExists, container with
    | true, some c =>
      (insertInto c u2).bind (fun u3 =>
        fireEvent fns fuel "render" [u3.self, built.1.val, c.val] u3)
    | _, _ => .ok u2

/-- Source `render($container)` of `demo.ui.Component`. -/
def render (env : Env) (fns : Nat → Observable.Handler) (fuel : Nat)
    (container : Option JQ) (u : State) : Res State :=
  renderInto env fns fuel (resolveContainer env container u).1
    (resolveContainer env container u).2

/-- The component after the statements `this.$html = $(html)` and
`this.$html.addClass(this.cssClass)` of `render`, for markup with the one top-level
element `r`. -/
def withNode (env : Env) (markup : Str) (r : Nat) (v : State) : State :=
  { v with
    html := some ⟨v.nextId, [r + v.dom.length]⟩,
    dom := addClass (prop v "cssClass") [r + v.dom.length]
      (v.dom ++ (env.parse markup).nodes.map (Node.shift v.dom.length)),
    nextId := v.nextId + 1 }

/-- The target of `render` in the words of the specification: the container given as
argument, else what the configured selector finds in the document, else none. -/
def target (env : Env) (container : Option JQ) (u : State) : Option JQ :=
  match container with
  | some c => some c
  | none =>
    if prop u "containerSelector" = [] then none
    else some ⟨u.nextId, env.select u.dom (prop u "containerSelector")⟩

/-- Source `getMaskContainer()` of `demo.ui.Component`. -/
def getMaskContainer (u : State) : Option JQ := u.html

end Component

/-! ### demo.ui.Panel -/

namespace Panel

/-- Source `render()` of `demo.ui.Panel`.  The function declares no parameter and calls
`this._super()` without an argument. -/
def render (env : Env) (fns : Nat → Observable.Handler) (fuel : Nat) (u : State) :
    Res State :=
  match Template.render u.titlebarTemplate u.props with
  | .typeError => .typeError
  | .notLiteral => .unmodelled
  | .ok titlebarHtml =>
    let u1 := setProp u "titlebarHtml" titlebarHtml
    match Template.render u1.bodyTemplate u1.props with
    | .typeError => .typeError
    | .notLiteral => .unmodelled
    | .ok bodyHtml =>
      let u2 := setProp u1 "bodyHtml" bodyHtml
      (Component.render env fns fuel none u2).bind (fun u3 =>
        match u3.html with
        | none => .typeError
        | some h =>
          let t := jQuery (childrenWithClass (prop u3 "titlebarClass") h.elems u3.dom) u3
          let u4 : State := { t.2 with titlebar := some t.1 }
          let b := jQuery (childrenWithClass (prop u4 "bodyClass") h.elems u4.dom) u4
          let u5 : State := { b.2 with body := some b.1 }
          let g := jQuery
            (childrenWithClass (prop u5 "collapseToolClass") t.1.elems u5.dom) u5
          let u6 : State := { g.2 with toggleButton := some g.1 }
          .ok { u6 with dom := onClick g.1.elems u6.dom })

/-- Source `getMaskContainer()` of `demo.ui.Panel`. -/
def getMaskContainer (u : State) : Option JQ := u.body

/-- Source `collapse()`. -/
def collapse (fns : Nat → Observable.Handler) (fuel : Nat) (u : State) : Res State :=
  match u.html with
  | none => .typeError
  | some h =>
    Component.fireEvent fns fuel "collapse" [u.self]
      { u with dom := addClass (prop u "collapsedClass") h.elems u.dom }

/-- Source `expand()`. -/
def expand (fns : Nat → Observable.Handler) (fuel : Nat) (u : State) : Res State :=
  match u.html with
  | none => .typeError
  | some h =>
    Component.fireEvent fns fuel "expand" [u.self]
      { u with dom := removeClass (prop u "collapsedClass") h.elems u.dom }

/-- Source `isCollapsed()`. -/
def isCollapsed (u : State) : Res Bool :=
  match u.html with
  | none => .typeError
  | some h => .ok (hasClass (prop u "collapsedClass") h.elems u.dom)

/-- Source `toggleCollapsed()`. -/
def toggleCollapsed (fns : Nat → Observable.Handler) (fuel : Nat) (u : State) :
    Res State :=
  (isCollapsed u).bind (fun collapsed =>
    if collapsed then expand fns fuel u else collapse fns fuel u)

end Panel

/-- The call `component.render($container)` on a component or a panel: the method of
the class of the object runs, and an argument that the method does not declare is
dropped. -/
def dispatchRender (env : Env) (fns : Nat → Observable.Handler) (fuel : Nat)
    (container : Option JQ) (u : State) : Res State :=
  if u.isPanel then Panel.render env fns fuel u
  else Component.render env fns fuel container u

/-- The call `this.getMaskContainer()`: the method of the class of the object. -/
def dispatchGetMaskContainer (u : State) : Option JQ :=
  if u.isPanel then Panel.getMaskContainer u else Component.getMaskContainer u

namespace Component

/-- The object `{cssClass: this.maskClass, messageClass: this.maskMessageClass,
message: message || ''}` that `createMask` gives to the mask template. -/
def maskValues (props : Str → Value) (message : Str) : Str → Value := fun k =>
  if k = "cssClass".toList then props "maskClass".toList
  else if k = "messageClass".toList then props "maskMessageClass".toList
  else if k = "message".toList then .str message
  else .undefined

/-- The statements of `createMask(message)` before the mask template is rendered: the
mask container gets `position: relative` unless its position is `absolute`, `relative`
or `fixed`. -/
def positioned (maskContainer : JQ) (u : State) : State :=
  let supportedPositioningContexts : List (Option Str) :=
    [some "absolute".toList, some "relative".toList, some "fixed".toList]
  let currentPositioning := cssPosition maskContainer.elems u.dom
  let shouldAddCustomPositioning : Bool :=
    decide (currentPositioning ∉ supportedPositioningContexts)
  if shouldAddCustomPositioning then
    { u with dom := setPosition "relative".toList maskContainer.elems u.dom }
  else u

/-- Source `createMask(message)`. -/
def createMask (env : Env) (message : Str) (u : State) : Res State :=
  match dispatchGetMaskContainer u with
  | none => .typeError
  | some maskContainer =>
    let u1 := positioned maskContainer u
    match Template.render u1.maskTemplate (maskValues u1.props message) with
    | .typeError => .typeError
    | .notLiteral => .unmodelled
    | .ok maskHtml =>
      let built := build env maskHtml u1
      let u2 : State := { built.2 with mask := some built.1 }
      let u3 : State := { u2 with dom := setHidden true built.1.elems u2.dom }
      match append maskContainer.elems built.1.elems u3.dom with
      | some dom => .ok { u3 with dom := dom }
      | none => .unmodelled

/-- Source `setMaskMessage(message)`. -/
def setMaskMessage (env : Env) (message : Str) (u : State) : Res State :=
  match u.mask with
  | none => .typeError
  | some m =>
    let messageHolders := find (prop u "maskMessageClass") m.elems u.dom
    .ok { u with dom := html env message messageHolders u.dom }

/-- The statement `message = message || this.defaultMaskMessage` of `mask`; an omitted
message is `undefined`. -/
def maskMessage (message : Value) (u : State) : Str :=
  if Template.valueText message ≠ [] then Template.valueText message
  else prop u "defaultMaskMessage"

/-- Source `mask(message)`. -/
def mask (env : Env) (message : Value) (u : State) : Res State :=
  let maskExists := u.mask.isSome
  let message := maskMessage message u
  (if maskExists then setMaskMessage env message u else createMask env message u).bind
    (fun u1 =>
      match u1.mask with
      | none => .typeError
      | some m => .ok { u1 with dom := setHidden false m.elems u1.dom })

end Component

/-- A panel that has its node: `$html` holds elements of the document, the bindings of
the panel are function objects, and the marker class is the default `collapsed`. -/
def Panel.Rendered (u : State) : Prop :=
  (∃ h, u.html = some h ∧ h.elems ≠ [] ∧ ∀ e ∈ h.elems, e < u.dom.length) ∧
    Observable.Callable u.obs ∧ prop u "collapsedClass" = "collapsed".toList

end UI

/-!
### A browser and two components for the examples
-/

namespace UI

open Observable (Val)
open Template (Str Value Arg)

/-- An element without children, text or listeners, shown and not positioned. -/
def element (classes : List String) (children : List Nat) (text : String) : Node :=
  ⟨classes.map String.toList, children, text.toList, false, "static".toList, 0⟩

/-- The markup of a component with the defaults of `demo.ui.Component`. -/
def componentMarkup : Str := "<div class=\"\">\n</div>".toList

/-- The markup of the titlebar of a panel with the defaults of `demo.ui.Panel`. -/
def titlebarMarkup : Str :=
  ("<div class=\"titlebar\">\n<h3>Panel</h3>\n" ++
    "<div class=collapse-tool title=\"Collapse or expand this panel\"></div>\n</div>").toList

/-- The markup of the body of a panel with the defaults of `demo.ui.Panel`. -/
def bodyMarkup : Str := "<div class=\"body\">\n</div>".toList

/-- The markup of a panel with the defaults of `demo.ui.Panel`. -/
def panelMarkup : Str :=
  ("<div class=\"panel\">\n<div class=\"titlebar\">\n<h3>Panel</h3>\n" ++
    "<div class=collapse-tool title=\"Collapse or expand this panel\"></div>\n</div>\n" ++
    "<div class=\"body\">\n</div>\n</div>").toList

/-- The markup of a mask with the default classes around the message. -/
def maskOpening : Str := "<div class=mask>\n<div class=message>\n<p>".toList

/-- The markup of a mask with the default classes behind the message; the two `<div>`
open elements that the end of the markup closes. -/
def maskClosing : Str := "</p>\n<div>\n<div>".toList

/-- The elements of the mask markup: the mask, in it the message holder, in it the
paragraph with the message and the two nested elements of the closing part. -/
def maskFragment (message : Str) : Fragment :=
  ⟨[element ["mask"] [1] "", element ["message"] [2, 3] "",
    ⟨[], [], message, false, "static".toList, 0⟩, element [] [4] "", element [] [] ""],
   [0], []⟩

/-- The elements of the markup of the default panel: the panel, in it the titlebar
with the title and the collapse tool, and the body. -/
def panelFragment : Fragment :=
  ⟨[element ["panel"] [1, 4] "", element ["titlebar"] [2, 3] "", element [] [] "Panel",
    element ["collapse-tool"] [] "", element ["body"] [] ""],
   [0], []⟩

/-- A parser for the markup of the examples: the default component, the default
panel, a mask with the default classes and a message without markup, and text without
markup; white space between elements is left out. -/
def exampleParse (markup : Str) : Fragment :=
  if markup = componentMarkup then ⟨[element [] [] ""], [0], []⟩
  else if markup = panelMarkup then panelFragment
  else if maskOpening.isPrefixOf markup && maskClosing.isSuffixOf markup then
    maskFragment ((markup.drop maskOpening.length).take
      (markup.length - maskOpening.length - maskClosing.length))
  else if '<' ∈ markup then ⟨[], [], []⟩
  else ⟨[], [], markup⟩

/-- A browser whose document has the element 0 with the id `app`. -/
def browser : Env :=
  ⟨exampleParse, fun dom selector =>
    if selector = "#app".toList ∧ 0 < dom.length then [0] else []⟩

/-- The defaults of `demo.ui.Component`. -/
def componentDefaults : Str → Value := fun k =>
  if k = "containerSelector".toList then .str []
  else if k = "cssClass".toList then .str []
  else if k = "maskClass".toList then .str "mask".toList
  else if k = "maskMessageClass".toList then .str "message".toList
  else if k = "defaultMaskMessage".toList then .str "Loading...".toList
  else .undefined

/-- The defaults of `demo.ui.Panel` over those of `demo.ui.Component`. -/
def panelDefaults : Str → Value := fun k =>
  if k = "collapsedClass".toList then .str "collapsed".toList
  else if k = "title".toList then .str "Panel".toList
  else if k = "titlebarClass".toList then .str "titlebar".toList
  else if k = "bodyClass".toList then .str "body".toList
  else if k = "collapseToolClass".toList then .str "collapse-tool".toList
  else if k = "collapseTooltip".toList then .str "Collapse or expand this panel".toList
  else if k = "cssClass".toList then .str "panel".toList
  else componentDefaults k

/-- The default `maskTemplate` of `demo.ui.Component`. -/
def defaultMaskTemplate : Str :=
  Template.init [.str "<div class={cssClass}>".toList, .str "<div class={messageClass}>".toList,
    .str "<p>{message}</p>".toList, .str "<div>".toList, .str "<div>".toList]

/-- A `demo.ui.Component` with the defaults, right after its construction, in a
document with one element; the function 2 is bound to its event `render`. -/
def defaultComponent : State :=
  { obs := Observable.onEvent "render" (.fn 2) (.obj 7)
      (Observable.addEvents ["show", "hide", "render"] Observable.fresh),
    self := .obj 7,
    isPanel := false,
    props := componentDefaults,
    template := Template.init [.str "<div class=\"{cssClass}\">".toList, .str "</div>".toList],
    maskTemplate := defaultMaskTemplate,
    titlebarTemplate := [],
    bodyTemplate := [],
    container := none, html := none, mask := none,
    titlebar := none, body := none, toggleButton := none,
    rendered := false,
    dom := [element [] [] ""],
    nextId := 8,
    fired := [] }

/-- A `demo.ui.Panel` with the defaults, right after its construction, in a document
with one element; the function 2 is bound to its events `render`, `collapse` and
`expand`. -/
def defaultPanel : State :=
  { obs := Observable.onEvent "expand" (.fn 2) (.obj 7)
      (Observable.onEvent "collapse" (.fn 2) (.obj 7)
        (Observable.onEvent "render" (.fn 2) (.obj 7)
          (Observable.addEvents ["collapse", "expand"] Observable.fresh))),
    self := .obj 7,
    isPanel := true,
    props := panelDefaults,
    template := Template.init [.str "<div class=\"{cssClass}\">".toList,
      .str "{titlebarHtml}".toList, .str "{bodyHtml}".toList, .str "</div>".toList],
    maskTemplate := defaultMaskTemplate,
    titlebarTemplate := Template.init [.str "<div class=\"{titlebarClass}\">".toList,
      .str "<h3>{title}</h3>".toList,
      .str "<div class={collapseToolClass} title=\"{collapseTooltip}\"></div>".toList,
      .str "</div>".toList],
    bodyTemplate := Template.init [.str "<div class=\"{bodyClass}\">".toList,
      .str "</div>".toList],
    container := none, html := none, mask := none,
    titlebar := none, body := none, toggleButton := none,
    rendered := false,
    dom := [element [] [] ""],
    nextId := 8,
    fired := [] }

/-- A component configured with the template `new demo.ui.Template('<div></div>')`,
which has no placeholder. -/
def staticComponent : State :=
  { defaultComponent with template := Template.init [.str "<div></div>".toList] }

/-- The default panel configured with `containerSelector: '#app'`. -/
def appPanel : State :=
  { defaultPanel with
    props := fun k => if k = "containerSelector".toList then .str "#app".toList
      else panelDefaults k }

/-- The jQuery object `$('#app')` made by the caller: the element 0 of the document. -/
def app : JQ := ⟨1, [0]⟩

/-- What the examples look at in a state: the flag `rendered`, the properties
`$container`, `$html`, `$mask` and `$body`, the events fired and the document. -/
structure View where
  rendered : Bool
  container : Option JQ
  html : Option JQ
  mask : Option JQ
  body : Option JQ
  fired : List (String × List Val)
  dom : List Node
  deriving DecidableEq, Repr

/-- The view of a state. -/
def State.view (u : State) : View :=
  ⟨u.rendered, u.container, u.html, u.mask, u.body, u.fired, u.dom⟩

/-- The default component after `render($('#app'))`. -/
def renderedComponent : State :=
  ((Component.render browser Observable.plainHandlers 1 (some app) defaultComponent).value?).getD
    defaultComponent

/-- The default component after `render($('#app'))`, configured with the mask template
`new demo.ui.Template('<div class="mask"></div>')`, which has no placeholder. -/
def staticMaskComponent : State :=
  { renderedComponent with
    maskTemplate := Template.init [.str "<div class=\"mask\"></div>".toList] }

/-- The panel configured with `containerSelector: '#app'` after `render()`. -/
def renderedPanel : State :=
  ((Panel.render browser Observable.plainHandlers 1 appPanel).value?).getD appPanel

end UI

namespace Observable

theorem lookup_setKey_self {α : Type} (o : List (String × α)) (k : String) (v : α) :
    (setKey o k v).lookup k = some v := by
  induction o with
  | nil => simp [setKey, List.lookup]
  | cons p rest ih =>
    obtain ⟨k', v'⟩ := p
    by_cases h : k' = k
    · simp [setKey, h, List.lookup]
    · have h' : (k == k') = false := by simpa using fun e => h e.symm
      simp [setKey, h, List.lookup, h', ih]

theorem lookup_setKey_ne {α : Type} (o : List (String × α)) (k t : String) (v : α)
    (hne : t ≠ k) : (setKey o k v).lookup t = o.lookup t := by
  induction o with
  | nil =>
    have h' : (t == k) = false := by simpa using hne
    simp [setKey, List.lookup, h']
  | cons p rest ih =>
    obtain ⟨k', v'⟩ := p
    by_cases h : k' = k
    · subst h
      have h' : (t == k') = false := by simpa using hne
      simp [setKey, List.lookup, h']
    · simp only [setKey, h, if_false, List.lookup]
      cases (t == k') <;> simp [ih]

theorem setKey_same {α : Type} (o : List (String × α)) (k : String) (v : α)
    (h : o.lookup k = some v) : setKey o k v = o := by
  induction o with
  | nil => simp [List.lookup] at h
  | cons p rest ih =>
    obtain ⟨k', v'⟩ := p
    by_cases hk : k' = k
    · subst hk
      simp [List.lookup] at h
      simp [setKey, h]
    · have h' : (k == k') = false := by simpa using fun e => hk e.symm
      simp [List.lookup, h'] at h
      simp [setKey, hk, ih h]

theorem deref_mem_or_nil (s : State) (r : Nat) : deref s r ∈ s.heap ∨ deref s r = [] := by
  unfold deref
  rw [List.getD_eq_getElem?_getD]
  cases h : s.heap[r]? with
  | none => right; rfl
  | some a => left; exact List.getElem?_mem h

theorem someSplice_subset (fn : Val) (l : List Binding) :
    ∀ b ∈ (someSplice fn l).1, b ∈ l := by
  induction l with
  | nil => simp [someSplice]
  | cons a rest ih =>
    intro b hb
    unfold someSplice at hb
    split at hb
    · exact List.mem_cons_of_mem _ hb
    · simp only [List.mem_cons] at hb ⊢
      rcases hb with h | h
      · exact Or.inl h
      · exact Or.inr (ih b h)

/-! ### What each operation leaves alone -/

theorem onEvent_log (type : String) (fn scope : Val) (s : State) :
    (onEvent type fn scope s).log = s.log ∧ (onEvent type fn scope s).result = s.result := by
  unfold onEvent; split <;> simp

theorem onEvent_callable (type : String) (fn scope : Val) (s : State)
    (hf : fn.isFn = true) (hs : Callable s) : Callable (onEvent type fn scope s) := by
  unfold onEvent; split
  · intro arr harr b hb
    rcases List.mem_or_eq_of_mem_set harr with h | h
    · exact hs arr h b hb
    · subst h
      rcases List.mem_append.1 hb with h1 | h1
      · rcases deref_mem_or_nil s _ with h2 | h2
        · exact hs _ h2 b h1
        · rw [h2] at h1; simp at h1
      · simp at h1; subst h1; exact hf
  · intro arr harr b hb
    rcases List.mem_append.1 harr with h | h
    · exact hs arr h b hb
    · simp at h; subst h; simp at hb; subst hb; exact hf

theorem removeAllEvents_log (type : String) (s : State) :
    (removeAllEvents type s).1.log = s.log ∧ (removeAllEvents type s).1.result = s.result := by
  simp [removeAllEvents]

theorem removeAllEvents_callable (type : String) (s : State) (hs : Callable s) :
    Callable (removeAllEvents type s).1 := by
  simp only [removeAllEvents]
  intro arr harr b hb
  rcases List.mem_append.1 harr with h | h
  · exact hs arr h b hb
  · simp at h; subst h; simp at hb

theorem off_log (type : String) (fn : Val) (s : State) :
    (off type fn s).1.log = s.log ∧ (off type fn s).1.result = s.result := by
  unfold off
  simp only
  split
  · exact removeAllEvents_log type s
  · split <;> simp

theorem off_callable (type : String) (fn : Val) (s : State) (hs : Callable s) :
    Callable (off type fn s).1 := by
  unfold off
  simp only
  split
  · exact removeAllEvents_callable type s hs
  · split
    · exact hs
    · intro arr harr b hb
      rcases List.mem_or_eq_of_mem_set harr with h | h
      · exact hs arr h b hb
      · subst h
        have := someSplice_subset fn _ b hb
        rcases deref_mem_or_nil s _ with h2 | h2
        · exact hs _ h2 b this
        · rw [h2] at this; simp at this

theorem addEvent_props (s : State) (t : String) :
    (addEvent s t).log = s.log ∧ (addEvent s t).result = s.result ∧
      (Callable s → Callable (addEvent s t)) := by
  unfold addEvent; split
  · exact ⟨rfl, rfl, fun h => h⟩
  · refine ⟨rfl, rfl, fun hs arr harr b hb => ?_⟩
    rcases List.mem_append.1 harr with h | h
    · exact hs arr h b hb
    · simp at h; subst h; simp at hb

theorem addEvents_props (types : List String) (s : State) :
    (addEvents types s).log = s.log ∧ (addEvents types s).result = s.result ∧
      (Callable s → Callable (addEvents types s)) := by
  unfold addEvents
  induction types generalizing s with
  | nil => exact ⟨rfl, rfl, fun h => h⟩
  | cons t rest ih =>
    simp only [List.foldl]
    obtain ⟨a1, a2, a4⟩ := addEvent_props s t
    obtain ⟨b1, b2, b4⟩ := ih (addEvent s t)
    exact ⟨b1.trans a1, b2.trans a2, fun h => b4 (a4 h)⟩

end Observable

namespace Observable

/-! ### The registry as seen through `bindingsOf` -/

theorem lookup_mem {α : Type} (o : List (String × α)) (k : String) (v : α)
    (h : o.lookup k = some v) : (k, v) ∈ o := by
  induction o with
  | nil => simp [List.lookup] at h
  | cons p rest ih =>
    obtain ⟨k', v'⟩ := p
    by_cases hk : k = k'
    · subst hk
      simp [List.lookup] at h
      simp [h]
    · have h' : (k == k') = false := by simpa using hk
      simp [List.lookup, h'] at h
      exact List.mem_cons_of_mem _ (ih h)

theorem WF.lt {s : State} (hwf : WF s) {t : String} {r : Nat}
    (h : s.events.lookup t = some r) : r < s.heap.length :=
  hwf.2 (t, r) (lookup_mem _ _ _ h)

theorem lookup_injective (o : List (String × Nat)) (hn : (o.map Prod.snd).Nodup)
    (t t' : String) (r : Nat) (h : o.lookup t = some r) (h' : o.lookup t' = some r) :
    t = t' := by
  induction o with
  | nil => simp [List.lookup] at h
  | cons p rest ih =>
    obtain ⟨k0, v0⟩ := p
    simp only [List.map_cons, List.nodup_cons] at hn
    by_cases e : t = k0
    · by_cases e' : t' = k0
      · rw [e, e']
      · exfalso
        have x' : (t' == k0) = false := by simpa using e'
        subst e
        simp [List.lookup] at h
        simp [List.lookup, x'] at h'
        subst h
        exact hn.1 (List.mem_map.2 ⟨_, lookup_mem _ _ _ h', rfl⟩)
    · have x : (t == k0) = false := by simpa using e
      simp [List.lookup, x] at h
      by_cases e' : t' = k0
      · exfalso
        subst e'
        simp [List.lookup] at h'
        subst h'
        exact hn.1 (List.mem_map.2 ⟨_, lookup_mem _ _ _ h, rfl⟩)
      · have x' : (t' == k0) = false := by simpa using e'
        simp [List.lookup, x'] at h'
        exact ih hn.2 h h'

theorem WF.noAlias {s : State} (hwf : WF s) {t t' : String} {r r' : Nat}
    (h : s.events.lookup t = some r) (h' : s.events.lookup t' = some r')
    (hne : t' ≠ t) : r' ≠ r := by
  intro e
  subst e
  exact hne (lookup_injective _ hwf.1 _ _ _ h' h)

theorem mem_setKey {α : Type} (o : List (String × α)) (k : String) (v : α)
    (p : String × α) (h : p ∈ setKey o k v) : p ∈ o ∨ p = (k, v) := by
  induction o with
  | nil => simp [setKey] at h; exact Or.inr h
  | cons q rest ih =>
    obtain ⟨k', v'⟩ := q
    unfold setKey at h
    split at h
    · rcases List.mem_cons.1 h with h | h
      · exact Or.inr h
      · exact Or.inl (List.mem_cons_of_mem _ h)
    · rcases List.mem_cons.1 h with h | h
      · exact Or.inl (by rw [h]; exact List.mem_cons_self _ _)
      · rcases ih h with h | h
        · exact Or.inl (List.mem_cons_of_mem _ h)
        · exact Or.inr h

theorem nodup_setKey (o : List (String × Nat)) (k : String) (v : Nat)
    (hn : (o.map Prod.snd).Nodup) (hv : v ∉ o.map Prod.snd) :
    ((setKey o k v).map Prod.snd).Nodup := by
  induction o with
  | nil => simp [setKey]
  | cons q rest ih =>
    obtain ⟨k', v'⟩ := q
    simp only [List.map_cons, List.nodup_cons, List.mem_cons, not_or] at hn hv
    unfold setKey
    split
    · simp only [List.map_cons, List.nodup_cons]
      exact ⟨hv.2, hn.2⟩
    · simp only [List.map_cons, List.nodup_cons]
      refine ⟨?_, ih hn.2 hv.2⟩
      intro hm
      obtain ⟨p, hp, e⟩ := List.mem_map.1 hm
      rcases mem_setKey rest k v p hp with h | h
      · exact hn.1 (List.mem_map.2 ⟨p, h, e⟩)
      · rw [h] at e; exact hv.1 e

/-- Allocating a new array for `k` keeps the registry well formed. -/
theorem WF.alloc {s : State} (hwf : WF s) (k : String) (x : List Binding) :
    WF { s with events := setKey s.events k s.heap.length, heap := s.heap ++ [x] } := by
  refine ⟨nodup_setKey _ _ _ hwf.1 ?_, ?_⟩
  · intro hm
    obtain ⟨p, hp, e⟩ := List.mem_map.1 hm
    have := hwf.2 p hp
    omega
  · intro p hp
    simp only [List.length_append, List.length_singleton]
    rcases mem_setKey _ _ _ p hp with h | h
    · have := hwf.2 p h; omega
    · rw [h]; simp

theorem bindingsOf_alloc_self (s : State) (k : String) (x : List Binding) :
    bindingsOf { s with events := setKey s.events k s.heap.length,
                        heap := s.heap ++ [x] } k = some x := by
  simp [bindingsOf, lookup_setKey_self, deref, List.getD_eq_getElem?_getD]

theorem bindingsOf_alloc_ne {s : State} (hwf : WF s) (k t : String) (x : List Binding)
    (hne : t ≠ k) :
    bindingsOf { s with events := setKey s.events k s.heap.length,
                        heap := s.heap ++ [x] } t = bindingsOf s t := by
  simp only [bindingsOf, lookup_setKey_ne _ _ _ _ hne]
  cases h : s.events.lookup t with
  | none => rfl
  | some r =>
    simp only [Option.map_some', deref]
    rw [List.getD_append _ _ _ _ (hwf.lt h)]

theorem addEvent_registered (s : State) (k : String) (r : Nat)
    (h : s.events.lookup k = some r) : addEvent s k = s := by
  unfold addEvent
  rw [h]
  simp only [setKey_same _ _ _ h]

theorem addEvent_WF {s : State} (hwf : WF s) (k : String) : WF (addEvent s k) := by
  unfold addEvent
  split
  · rename_i r h
    rw [setKey_same _ _ _ h]; exact hwf
  · exact hwf.alloc k []

theorem bindingsOf_addEvent_self {s : State} (k : String) :
    bindingsOf (addEvent s k) k = some ((bindingsOf s k).getD []) := by
  cases h : s.events.lookup k with
  | some r =>
    rw [addEvent_registered s k r h]
    simp [bindingsOf, h]
  | none =>
    unfold addEvent
    rw [h]
    simp only [bindingsOf_alloc_self]
    simp [bindingsOf, h]

theorem bindingsOf_addEvent_ne {s : State} (hwf : WF s) (k t : String) (hne : t ≠ k) :
    bindingsOf (addEvent s k) t = bindingsOf s t := by
  cases h : s.events.lookup k with
  | some r => rw [addEvent_registered s k r h]
  | none =>
    unfold addEvent
    rw [h]
    exact bindingsOf_alloc_ne hwf k t [] hne

theorem bindingsOf_addEvent_some {s : State} (hwf : WF s) (k t : String)
    (bs : List Binding) (h : bindingsOf s t = some bs) :
    bindingsOf (addEvent s k) t = some bs := by
  by_cases e : t = k
  · subst e
    rw [bindingsOf_addEvent_self t, h]; rfl
  · rw [bindingsOf_addEvent_ne hwf k t e, h]

theorem addEvents_WF (names : List String) {s : State} (hwf : WF s) :
    WF (addEvents names s) := by
  unfold addEvents
  induction names generalizing s with
  | nil => exact hwf
  | cons k rest ih => exact ih (addEvent_WF hwf k)

theorem bindingsOf_addEvents_some (names : List String) {s : State} (hwf : WF s)
    (t : String) (bs : List Binding) (h : bindingsOf s t = some bs) :
    bindingsOf (addEvents names s) t = some bs := by
  unfold addEvents
  induction names generalizing s with
  | nil => exact h
  | cons k rest ih =>
    exact ih (addEvent_WF hwf k) (bindingsOf_addEvent_some hwf k t bs h)

theorem bindingsOf_addEvents_not_mem (names : List String) {s : State} (hwf : WF s)
    (t : String) (h : t ∉ names) :
    bindingsOf (addEvents names s) t = bindingsOf s t := by
  unfold addEvents
  induction names generalizing s with
  | nil => rfl
  | cons k rest ih =>
    simp only [List.mem_cons, not_or] at h
    simp only [List.foldl]
    rw [ih (addEvent_WF hwf k) h.2, bindingsOf_addEvent_ne hwf k t h.1]

theorem bindingsOf_addEvents_mem (names : List String) {s : State} (hwf : WF s)
    (t : String) (h : t ∈ names) :
    bindingsOf (addEvents names s) t = some ((bindingsOf s t).getD []) := by
  induction names generalizing s with
  | nil => simp at h
  | cons k rest ih =>
    have hstep : addEvents (k :: rest) s = addEvents rest (addEvent s k) := rfl
    rw [hstep]
    by_cases e : t = k
    · subst e
      exact bindingsOf_addEvents_some rest (addEvent_WF hwf t) t _ (bindingsOf_addEvent_self t)
    · have hm : t ∈ rest := by
        rcases List.mem_cons.1 h with h | h
        · exact absurd h e
        · exact h
      rw [ih (addEvent_WF hwf k) hm, bindingsOf_addEvent_ne hwf k t e]

theorem addEvents_fixed (names : List String) (s : State)
    (h : ∀ n ∈ names, (s.events.lookup n).isSome = true) : addEvents names s = s := by
  unfold addEvents
  induction names with
  | nil => rfl
  | cons k rest ih =>
    simp only [List.foldl]
    obtain ⟨r, hr⟩ := Option.isSome_iff_exists.1 (h k (List.mem_cons_self _ _))
    rw [addEvent_registered s k r hr]
    exact ih (fun n hn => h n (List.mem_cons_of_mem _ hn))

theorem bindingsOf_isSome (s : State) (t : String) :
    (bindingsOf s t).isSome = (s.events.lookup t).isSome := by
  unfold bindingsOf
  cases s.events.lookup t <;> rfl

/-- C7: `addEvents(...names)` registers a binding array for every name, gives a name
that had none an empty array, keeps the bindings of every type that was registered
(named or not) as they were, leaves unnamed types alone, and a second
`addEvents(...names)` changes nothing at all. -/
theorem addEvents_idempotent (names : List String) (s : State) (hwf : WF s) :
    (∀ n ∈ names, bindingsOf (addEvents names s) n = some ((bindingsOf s n).getD [])) ∧
    (∀ t bs, bindingsOf s t = some bs → bindingsOf (addEvents names s) t = some bs) ∧
    (∀ t, t ∉ names → bindingsOf (addEvents names s) t = bindingsOf s t) ∧
    addEvents names (addEvents names s) = addEvents names s := by
  refine ⟨fun n hn => bindingsOf_addEvents_mem names hwf n hn,
    fun t bs h => bindingsOf_addEvents_some names hwf t bs h,
    fun t h => bindingsOf_addEvents_not_mem names hwf t h, ?_⟩
  apply addEvents_fixed
  intro n hn
  rw [← bindingsOf_isSome, bindingsOf_addEvents_mem names hwf n hn]
  rfl

theorem twoBound_WF : WF twoBound := by decide

/-- The theorem of C7 at an observable with two handlers bound to `"t"`, for the names
`"t"`, `"show"`, `"t"`. -/
theorem addEvents_idempotent_witness :
    WF twoBound ∧
    (∀ n ∈ ["t", "show", "t"],
      bindingsOf (addEvents ["t", "show", "t"] twoBound) n =
        some ((bindingsOf twoBound n).getD [])) ∧
    (∀ t bs, bindingsOf twoBound t = some bs →
      bindingsOf (addEvents ["t", "show", "t"] twoBound) t = some bs) ∧
    (∀ t, t ∉ ["t", "show", "t"] →
      bindingsOf (addEvents ["t", "show", "t"] twoBound) t = bindingsOf twoBound t) ∧
    addEvents ["t", "show", "t"] (addEvents ["t", "show", "t"] twoBound) =
      addEvents ["t", "show", "t"] twoBound :=
  ⟨twoBound_WF, addEvents_idempotent ["t", "show", "t"] twoBound twoBound_WF⟩

end Observable

namespace Observable

/-! ### The array that a dispatch iterates -/

theorem Owns.after_alloc {type : String} {a : Nat} {bs : List Binding} {s : State}
    (h : Owns type a bs s) (k : String) (x : List Binding) :
    Owns type a bs
      { s with events := setKey s.events k s.heap.length, heap := s.heap ++ [x] } := by
  obtain ⟨h1, ⟨t, h2⟩, h3⟩ := h
  refine ⟨by simp; omega, ⟨t, ?_⟩, ?_⟩
  · simp only [deref] at h2 ⊢
    rw [List.getD_append _ _ _ _ h1, h2]
  · intro t' r' hl hne
    simp only at hl
    by_cases e : t' = k
    · subst e
      rw [lookup_setKey_self] at hl
      simp only [Option.some.injEq] at hl
      omega
    · rw [lookup_setKey_ne _ _ _ _ e] at hl
      exact h3 t' r' hl hne

theorem Owns.set_ne {type : String} {a : Nat} {bs : List Binding} {s : State}
    (h : Owns type a bs s) (r : Nat) (x : List Binding) (hr : r ≠ a) :
    Owns type a bs { s with heap := s.heap.set r x } := by
  obtain ⟨h1, ⟨t, h2⟩, h3⟩ := h
  refine ⟨by simpa using h1, ⟨t, ?_⟩, h3⟩
  simp only [deref] at h2 ⊢
  rw [List.getD_eq_getElem?_getD, List.getElem?_set_ne hr, ← List.getD_eq_getElem?_getD, h2]

theorem Owns.push {type : String} {a : Nat} {bs : List Binding} {s : State}
    (h : Owns type a bs s) (x : List Binding) :
    Owns type a bs { s with heap := s.heap.set a (deref s a ++ x) } := by
  obtain ⟨h1, ⟨t, h2⟩, h3⟩ := h
  refine ⟨by simpa using h1, ⟨t ++ x, ?_⟩, h3⟩
  simp only [deref] at h2 ⊢
  rw [List.getD_eq_getElem?_getD, List.getElem?_set_self h1]
  simp only [Option.getD_some, h2, List.append_assoc]

theorem onEvent_owns {type : String} {a : Nat} {bs : List Binding} {s : State}
    (h : Owns type a bs s) (t : String) (fn scope : Val) :
    Owns type a bs (onEvent t fn scope s) := by
  unfold onEvent
  cases hl : s.events.lookup t with
  | some r =>
    simp only
    rw [setKey_same _ _ _ hl]
    by_cases e : r = a
    · subst e; exact h.push _
    · exact h.set_ne r _ e
  | none => exact h.after_alloc t _

theorem off_owns {type : String} {a : Nat} {bs : List Binding} {s : State}
    (h : Owns type a bs s) (t : String) (fn : Val)
    (hq : (Cmd.off t fn).splicesType type = false) :
    Owns type a bs (off t fn s).1 := by
  unfold off
  simp only
  split
  · exact h.after_alloc t []
  · rename_i htr
    simp only [Bool.not_eq_true, Bool.not_eq_false'] at htr
    simp only [Cmd.splicesType, htr, Bool.true_and, decide_eq_false_iff_not] at hq
    cases hl : s.events.lookup t with
    | none => exact h
    | some r => exact h.set_ne r _ (h.2.2 t r hl hq)

theorem addEvent_owns {type : String} {a : Nat} {bs : List Binding} {s : State}
    (h : Owns type a bs s) (t : String) : Owns type a bs (addEvent s t) := by
  unfold addEvent
  cases hl : s.events.lookup t with
  | some r =>
    simp only
    rw [setKey_same _ _ _ hl]
    exact h
  | none => exact h.after_alloc t []

theorem addEvents_owns {type : String} {a : Nat} {bs : List Binding} {s : State}
    (h : Owns type a bs s) (types : List String) : Owns type a bs (addEvents types s) := by
  unfold addEvents
  induction types generalizing s with
  | nil => exact h
  | cons t rest ih => exact ih (addEvent_owns h t)

/-! ### Handlers that do not dispatch -/

theorem runCmd_noFire (fire : String → List Val → State → Outcome (State × Bool))
    (c : Cmd) (s : State) (h : c.isFire = false) :
    ∃ s', runCmd fire c s = .ok s' ∧ s'.log = s.log ∧ s'.result = s.result ∧
      (c.registersFn = true → Callable s → Callable s') ∧
      (∀ type a bs, c.splicesType type = false → Owns type a bs s → Owns type a bs s') := by
  cases c with
  | onEvent type fn scope =>
    exact ⟨_, rfl, (onEvent_log type fn scope s).1, (onEvent_log type fn scope s).2,
      fun hf hs => onEvent_callable type fn scope s hf hs,
      fun _ _ _ _ ho => onEvent_owns ho type fn scope⟩
  | off type fn =>
    exact ⟨_, rfl, (off_log type fn s).1, (off_log type fn s).2,
      fun _ hs => off_callable type fn s hs,
      fun _ _ _ hq ho => off_owns ho type fn hq⟩
  | addEvents types =>
    obtain ⟨a1, a2, a4⟩ := addEvents_props types s
    exact ⟨_, rfl, a1, a2, fun _ => a4, fun _ _ _ _ ho => addEvents_owns ho types⟩
  | fireEvent type args => simp [Cmd.isFire] at h

theorem runBody_noFire (fire : String → List Val → State → Outcome (State × Bool))
    (body : List Cmd) (s : State) (h : ∀ c ∈ body, c.isFire = false) :
    ∃ s', runBody fire body s = .ok s' ∧ s'.log = s.log ∧ s'.result = s.result ∧
      ((∀ c ∈ body, c.registersFn = true) → Callable s → Callable s') ∧
      (∀ type a bs, (∀ c ∈ body, c.splicesType type = false) →
        Owns type a bs s → Owns type a bs s') := by
  induction body generalizing s with
  | nil => exact ⟨s, rfl, rfl, rfl, fun _ hs => hs, fun _ _ _ _ ho => ho⟩
  | cons c rest ih =>
    obtain ⟨s1, e1, l1, r1, c1, x1⟩ := runCmd_noFire fire c s (h c (List.mem_cons_self _ _))
    obtain ⟨s2, e2, l2, r2, c2, x2⟩ := ih s1 (fun d hd => h d (List.mem_cons_of_mem _ hd))
    refine ⟨s2, ?_, l2.trans l1, r2.trans r1, ?_, ?_⟩
    · simp only [runBody, e1, e2]
    · intro hr hs
      exact c2 (fun d hd => hr d (List.mem_cons_of_mem _ hd))
        (c1 (hr c (List.mem_cons_self _ _)) hs)
    · intro type a bs hr ho
      exact x2 type a bs (fun d hd => hr d (List.mem_cons_of_mem _ hd))
        (x1 type a bs (hr c (List.mem_cons_self _ _)) ho)

theorem applyBinding_noFire (fns : Nat → Handler)
    (fire : String → List Val → State → Outcome (State × Bool))
    (i : Nat) (scope : Val) (args : List Val) (s : State)
    (h : ∀ c ∈ (fns i).body, c.isFire = false) :
    ∃ s', applyBinding fns fire ⟨.fn i, scope⟩ args s = .ok (s', (fns i).ret scope args) ∧
      s'.log = s.log ++ [⟨i, scope, args, (fns i).ret scope args⟩] ∧
      s'.result = s.result ∧
      ((∀ c ∈ (fns i).body, c.registersFn = true) → Callable s → Callable s') ∧
      (∀ type a bs, (∀ c ∈ (fns i).body, c.splicesType type = false) →
        Owns type a bs s → Owns type a bs s') := by
  obtain ⟨s', e, l, r, c, x⟩ := runBody_noFire fire (fns i).body
    { s with log := s.log ++ [⟨i, scope, args, (fns i).ret scope args⟩] } h
  refine ⟨s', ?_, l, r, c, x⟩
  simp only [applyBinding, e]

theorem arrayOf_mem_callable (s : State) (r : Option Nat) (k : Nat) (b : Binding)
    (hs : Callable s) (hb : (arrayOf s r)[k]? = some b) : b.fn.isFn = true := by
  cases r with
  | none => simp [arrayOf] at hb
  | some a =>
    simp only [arrayOf] at hb
    have hm := List.getElem?_mem hb
    rcases deref_mem_or_nil s a with h | h
    · exact hs _ h b hm
    · rw [h] at hm; simp at hm

theorem isFn_eq (v : Val) (h : v.isFn = true) : ∃ i, v = .fn i := by
  cases v <;> simp [Val.isFn] at h
  exact ⟨_, rfl⟩

/-- The dispatch loop when no handler of the table dispatches: it ends normally, the
new log entries are the invocations it made, and the global `result` is the
conjunction of `fnResult !== false` over them. -/
theorem forEachLoop_noFire (fns : Nat → Handler)
    (fire : String → List Val → State → Outcome (State × Bool))
    (hq : ∀ i, ∀ c ∈ (fns i).body, c.isFire = false ∧ c.registersFn = true)
    (r : Option Nat) (args : List Val) (n k : Nat) (s : State) (hs : Callable s) :
    ∃ s' calls, forEachLoop fns fire r args n k s = .ok s' ∧ s'.log = s.log ++ calls ∧
      s'.result = (s.result && calls.all (fun c => decide (c.ret ≠ Val.bool false))) ∧
      (∀ c ∈ calls, c.args = args ∧ c.ret = (fns c.fn).ret c.thisArg args) ∧
      calls.length ≤ n := by
  induction n generalizing k s with
  | zero => exact ⟨s, [], rfl, by simp, by simp, by simp, by simp⟩
  | succ n ih =>
    cases hb : (arrayOf s r)[k]? with
    | none =>
      obtain ⟨s', calls, e, l, x, y, z⟩ := ih (k + 1) s hs
      exact ⟨s', calls, by simp only [forEachLoop, hb, e], l, x, y, by omega⟩
    | some b =>
      obtain ⟨i, hi⟩ := isFn_eq b.fn (arrayOf_mem_callable s r k b hs hb)
      obtain ⟨fn, scope⟩ := b
      simp only at hi
      subst hi
      obtain ⟨s1, e1, l1, r1, c1, -⟩ := applyBinding_noFire fns fire i scope args s
        (fun c hc => (hq i c hc).1)
      have hs1 : Callable s1 := c1 (fun c hc => (hq i c hc).2) hs
      obtain ⟨s', calls, e, l, x, y, z⟩ := ih (k + 1)
        { s1 with result := s1.result && decide ((fns i).ret scope args ≠ Val.bool false) } hs1
      refine ⟨s', ⟨i, scope, args, (fns i).ret scope args⟩ :: calls, ?_, ?_, ?_, ?_, ?_⟩
      · simp only [forEachLoop, hb, e1, e]
      · rw [l]; simp [l1]
      · rw [x]; simp [r1, Bool.and_assoc]
      · intro c hc
        rcases List.mem_cons.1 hc with h | h
        · subst h; exact ⟨rfl, rfl⟩
        · exact y c h
      · simp; omega

end Observable

namespace Observable

/-! ### Handlers that neither dispatch nor splice the iterated array -/

/-- The dispatch loop over the array `a` of `type`, which starts with `bs`, when the
handlers bound in `bs` neither dispatch nor call `off(type, f)` with a handler: the
indices `k … k+n-1` are the bindings of `bs` at these places, each invoked with its
scope and with `args`. -/
theorem forEachLoop_owned (fns : Nat → Handler)
    (fire : String → List Val → State → Outcome (State × Bool))
    (type : String) (a : Nat) (args : List Val) (bs : List Binding)
    (hq : ∀ b ∈ bs, ∃ i, b.fn = .fn i ∧
      ∀ c ∈ (fns i).body, c.isFire = false ∧ c.splicesType type = false)
    (n k : Nat) (s : State) (hk : k + n = bs.length) (hinv : Owns type a bs s) :
    ∃ s' calls, forEachLoop fns fire (some a) args n k s = .ok s' ∧
      s'.log = s.log ++ calls ∧
      calls.map (fun c => (Val.fn c.fn, c.thisArg)) =
        (bs.drop k).map (fun b => (b.fn, b.scope)) ∧
      (∀ c ∈ calls, c.args = args ∧ c.ret = (fns c.fn).ret c.thisArg args) ∧
      s'.result = (s.result && calls.all (fun c => decide (c.ret ≠ Val.bool false))) := by
  induction n generalizing k s with
  | zero =>
    refine ⟨s, [], rfl, by simp, ?_, by simp, by simp⟩
    have : bs.length ≤ k := by omega
    simp [List.drop_eq_nil_of_le this]
  | succ n ih =>
    have hlt : k < bs.length := by omega
    obtain ⟨t, ht⟩ := hinv.2.1
    have hb : (arrayOf s (some a))[k]? = some bs[k] := by
      simp only [arrayOf]
      rw [ht, List.getElem?_append_left hlt, List.getElem?_eq_getElem hlt]
    obtain ⟨i, hi, hbody⟩ := hq bs[k] (List.getElem_mem hlt)
    have hbk : bs[k] = ⟨.fn i, bs[k].scope⟩ := by
      cases hbk' : bs[k] with
      | mk fn scope => rw [hbk'] at hi; simp only at hi; rw [hi]
    obtain ⟨s1, e1, l1, r1, -, x1⟩ := applyBinding_noFire fns fire i bs[k].scope args s
      (fun c hc => (hbody c hc).1)
    have hx1 : Owns type a bs s1 := x1 type a bs (fun c hc => (hbody c hc).2) hinv
    obtain ⟨s', calls, e, l, m, y, x⟩ := ih (k + 1)
      { s1 with result := s1.result &&
          decide ((fns i).ret bs[k].scope args ≠ Val.bool false) }
      (by omega) hx1
    refine ⟨s', ⟨i, bs[k].scope, args, (fns i).ret bs[k].scope args⟩ :: calls,
      ?_, ?_, ?_, ?_, ?_⟩
    · rw [hbk] at hb
      simp only [forEachLoop, hb, e1, e]
    · rw [l]; simp [l1]
    · rw [List.drop_eq_getElem_cons hlt]
      simp only [List.map_cons, m]
      rw [← hi]
    · intro c hc
      rcases List.mem_cons.1 hc with h | h
      · subst h; exact ⟨rfl, rfl⟩
      · exact y c h
    · rw [x]; simp [r1, Bool.and_assoc]

theorem all_ne_false_iff (calls : List Call) :
    (calls.all (fun c => decide (c.ret ≠ Val.bool false)) = false) ↔
      ∃ c ∈ calls, c.ret = Val.bool false := by
  induction calls with
  | nil => simp
  | cons a rest ih =>
    simp only [List.all_cons, Bool.and_eq_false_iff, ih, List.mem_cons, exists_eq_or_imp]
    simp

theorem fireEvent_unfold (fns : Nat → Handler) (fuel : Nat) (type : String)
    (args : List Val) (s : State) :
    fireEvent fns (fuel + 1) type args s =
      match forEachLoop fns (fireEvent fns fuel) (s.events.lookup type) args
          (arrayOf s (s.events.lookup type)).length 0
          { s with eventType := s.events.lookup type, result := true } with
      | .ok s' => .ok (s', s'.result)
      | .typeError => .typeError
      | .outOfFuel => .outOfFuel := by
  rw [fireEvent]
  rfl

/-- A dispatch on a well-formed observable whose handlers for the type neither
dispatch nor call `off(type, f)` with a handler: the loop invokes the bindings
registered at the start, in order. -/
theorem fireEvent_owned (fns : Nat → Handler) (fuel : Nat) (type : String)
    (args : List Val) (s : State) (hwf : WF s)
    (hq : ∀ b ∈ (bindingsOf s type).getD [], ∃ i, b.fn = .fn i ∧
      ∀ c ∈ (fns i).body, c.isFire = false ∧ c.splicesType type = false) :
    ∃ s' calls, fireEvent fns (fuel + 1) type args s = .ok (s', s'.result) ∧
      s'.log = s.log ++ calls ∧
      calls.map (fun c => (Val.fn c.fn, c.thisArg)) =
        ((bindingsOf s type).getD []).map (fun b => (b.fn, b.scope)) ∧
      (∀ c ∈ calls, c.args = args ∧ c.ret = (fns c.fn).ret c.thisArg args) ∧
      s'.result = calls.all (fun c => decide (c.ret ≠ Val.bool false)) := by
  rw [fireEvent_unfold]
  cases hl : s.events.lookup type with
  | none =>
    refine ⟨{ s with eventType := none, result := true }, [], rfl, by simp, ?_, by simp, rfl⟩
    simp [bindingsOf, hl]
  | some a =>
    have hbs : (bindingsOf s type).getD [] = deref s a := by simp [bindingsOf, hl]
    rw [hbs] at hq ⊢
    have hown : Owns type a (deref s a)
        { s with eventType := some a, result := true } :=
      ⟨hwf.lt hl, ⟨[], by simp [deref]⟩, fun t' r' h' hne => hwf.noAlias hl h' hne⟩
    obtain ⟨s', calls, e, l, m, y, x⟩ := forEachLoop_owned fns (fireEvent fns fuel) type a
      args (deref s a) hq (deref s a).length 0
      { s with eventType := some a, result := true } (by simp) hown
    refine ⟨s', calls, ?_, l, by simpa using m, y, by simpa using x⟩
    simp only [arrayOf]
    rw [e]

end Observable

namespace Observable

/-! ### Dispatch -/

/-- C1: when no handler of the system calls `fireEvent` (and handlers are function
objects), `fireEvent(type, ...args)` returns, and it returns `false` if and only if one
of the handlers it invoked returned exactly `false`; in particular handlers returning
`undefined`, `0` or `""` leave the result `true`.  A type without bindings, absent
from the registry or registered with an empty array, gives `true` and invokes
nothing, whatever the handlers are. -/
theorem fireEvent_false_iff_handler_false (fns : Nat → Handler) (fuel : Nat)
    (type : String) (args : List Val) (s : State) :
    ((∀ i, ∀ c ∈ (fns i).body, c.isFire = false ∧ c.registersFn = true) → Callable s →
      ∃ s' r calls, fireEvent fns (fuel + 1) type args s = .ok (s', r) ∧
        s'.log = s.log ++ calls ∧
        (∀ c ∈ calls, c.args = args ∧ c.ret = (fns c.fn).ret c.thisArg args) ∧
        (r = false ↔ ∃ c ∈ calls, c.ret = Val.bool false) ∧
        ((∀ c ∈ calls, c.ret = .undefined ∨ c.ret = .num 0 ∨ c.ret = .str "") →
          r = true)) ∧
    ((bindingsOf s type = none ∨ bindingsOf s type = some []) →
      ∃ s', fireEvent fns (fuel + 1) type args s = .ok (s', true) ∧ s'.log = s.log) := by
  constructor
  · intro hq hs
    obtain ⟨s', calls, e, l, x, y, -⟩ := forEachLoop_noFire fns (fireEvent fns fuel) hq
      (s.events.lookup type) args (arrayOf s (s.events.lookup type)).length 0
      { s with eventType := s.events.lookup type, result := true } hs
    refine ⟨s', s'.result, calls, ?_, l, y, ?_, ?_⟩
    · rw [fireEvent_unfold, e]
    · rw [x]; simp only [Bool.true_and]; exact all_ne_false_iff calls
    · intro h
      rw [x]; simp only [Bool.true_and]
      rw [List.all_eq_true]
      intro c hc
      rcases h c hc with h | h | h <;> simp [h]
  · intro h
    have hlen : (arrayOf s (s.events.lookup type)).length = 0 := by
      rcases h with h | h
      · unfold bindingsOf at h
        cases hl : s.events.lookup type with
        | none => rfl
        | some a => rw [hl] at h; simp at h
      · unfold bindingsOf at h
        cases hl : s.events.lookup type with
        | none => rfl
        | some a => rw [hl] at h; simp at h; simp [arrayOf, h]
    refine ⟨{ s with eventType := s.events.lookup type, result := true }, ?_, rfl⟩
    rw [fireEvent_unfold, hlen]
    rfl

theorem plainHandlers_quiet :
    ∀ i, ∀ c ∈ (plainHandlers i).body, c.isFire = false ∧ c.registersFn = true := by
  intro i c hc
  simp [plainHandlers] at hc

theorem twoBound_callable : Callable twoBound := by
  unfold Callable; decide

/-- The theorem of C1 at a concrete observable: two plain handlers bound to `"t"`. -/
theorem fireEvent_false_iff_handler_false_witness :
    (∀ i, ∀ c ∈ (plainHandlers i).body, c.isFire = false ∧ c.registersFn = true) ∧
    Callable twoBound ∧
    ∃ s' r calls, fireEvent plainHandlers 1 "t" [.num 5] twoBound = .ok (s', r) ∧
        s'.log = twoBound.log ++ calls ∧
        (∀ c ∈ calls, c.args = [.num 5] ∧
          c.ret = (plainHandlers c.fn).ret c.thisArg [.num 5]) ∧
        (r = false ↔ ∃ c ∈ calls, c.ret = Val.bool false) ∧
        ((∀ c ∈ calls, c.ret = .undefined ∨ c.ret = .num 0 ∨ c.ret = .str "") →
          r = true) :=
  ⟨plainHandlers_quiet, twoBound_callable,
    (fireEvent_false_iff_handler_false plainHandlers 0 "t" [.num 5] twoBound).1
      plainHandlers_quiet twoBound_callable⟩

end Observable

namespace Observable

/-- C2, counterexample: `f0` and `f1` are bound to `"t"`, and `f0` unsubscribes itself
when it runs.  `fireEvent("t")` invokes `f0` only: the splice moves `f1` to index 0, which
`forEach` has already visited, so the registered binding `f1` is never invoked, and
the invocations are not the registered bindings in order. -/
theorem fireEvent_skips_after_self_removal :
    bindingsOf twoBound "t" = some [⟨.fn 0, .obj 7⟩, ⟨.fn 1, .obj 8⟩] ∧
    (fireEvent onceHandlers 1 "t" [] twoBound).value?.map
        (fun p => (p.2, p.1.log, bindingsOf p.1 "t")) =
      some (true, [⟨0, .obj 7, [], .undefined⟩], some [⟨.fn 1, .obj 8⟩]) ∧
    ¬ ∃ s' r calls, fireEvent onceHandlers 1 "t" [] twoBound = .ok (s', r) ∧
      s'.log = twoBound.log ++ calls ∧
      calls.map (fun c => (Val.fn c.fn, c.thisArg, c.args)) =
        ((bindingsOf twoBound "t").getD []).map (fun b => (b.fn, b.scope, [])) := by
  refine ⟨by decide, by decide, ?_⟩
  rintro ⟨s', r, calls, e, l, m⟩
  have h : (fireEvent onceHandlers 1 "t" [] twoBound).value?.map (fun p => p.1.log) =
      some [⟨0, .obj 7, [], .undefined⟩] := by decide
  rw [e] at h
  simp only [Outcome.value?, Option.map_some', Option.some.injEq] at h
  have hl : twoBound.log = [] := by decide
  rw [h, hl, List.nil_append] at l
  rw [← l] at m
  revert m
  decide

/-- C2, amended: when the handlers bound to the type call neither `fireEvent` nor
`off(type, f)` with a handler for this type, `fireEvent(type, ...args)` returns after
invoking every binding registered for the type exactly once, in registration order,
each with its own scope as `this` and with exactly `args`; a handler returning `false`
does not stop the later ones, and the value returned is `false` exactly when one of
them returned `false`. -/
theorem fireEvent_invokes_all_in_order (fns : Nat → Handler) (fuel : Nat)
    (type : String) (args : List Val) (s : State) (hwf : WF s)
    (hq : ∀ b ∈ (bindingsOf s type).getD [], ∃ i, b.fn = .fn i ∧
      ∀ c ∈ (fns i).body, c.isFire = false ∧ c.splicesType type = false) :
    ∃ s' r calls, fireEvent fns (fuel + 1) type args s = .ok (s', r) ∧
      s'.log = s.log ++ calls ∧
      calls.map (fun c => (Val.fn c.fn, c.thisArg, c.args)) =
        ((bindingsOf s type).getD []).map (fun b => (b.fn, b.scope, args)) ∧
      (∀ c ∈ calls, c.ret = (fns c.fn).ret c.thisArg args) ∧
      (r = false ↔ ∃ c ∈ calls, c.ret = Val.bool false) := by
  obtain ⟨s', calls, e, l, m, y, x⟩ := fireEvent_owned fns fuel type args s hwf hq
  refine ⟨s', s'.result, calls, e, l, ?_, fun c hc => (y c hc).2, ?_⟩
  · have h1 : calls.map (fun c => (Val.fn c.fn, c.thisArg, c.args)) =
        calls.map (fun c => (Val.fn c.fn, c.thisArg, args)) :=
      List.map_congr_left (fun c hc => by rw [(y c hc).1])
    rw [h1]
    have h2 := congrArg (List.map (fun p : Val × Val => (p.1, p.2, args))) m
    simpa [List.map_map, Function.comp_def] using h2
  · rw [x]; exact all_ne_false_iff calls

theorem twoBound_bindings :
    (bindingsOf twoBound "t").getD [] = [⟨.fn 0, .obj 7⟩, ⟨.fn 1, .obj 8⟩] := by
  decide

theorem plainHandlers_bound :
    ∀ b ∈ (bindingsOf twoBound "t").getD [], ∃ i, b.fn = .fn i ∧
      ∀ c ∈ (plainHandlers i).body, c.isFire = false ∧ c.splicesType "t" = false := by
  intro b hb
  rw [twoBound_bindings] at hb
  simp only [List.mem_cons, List.mem_singleton, List.not_mem_nil, or_false] at hb
  rcases hb with h | h <;> subst h
  · exact ⟨0, rfl, fun c hc => by simp [plainHandlers] at hc⟩
  · exact ⟨1, rfl, fun c hc => by simp [plainHandlers] at hc⟩

/-- The amended C2 at a concrete observable: `f0`, which returns `false`, and then `f1`
are invoked, and the call returns `false`. -/
theorem fireEvent_invokes_all_in_order_witness :
    WF twoBound ∧
    (∀ b ∈ (bindingsOf twoBound "t").getD [], ∃ i, b.fn = .fn i ∧
      ∀ c ∈ (plainHandlers i).body, c.isFire = false ∧ c.splicesType "t" = false) ∧
    ∃ s' r calls, fireEvent plainHandlers 1 "t" [.str "a"] twoBound = .ok (s', r) ∧
      s'.log = twoBound.log ++ calls ∧
      calls.map (fun c => (Val.fn c.fn, c.thisArg, c.args)) =
        ((bindingsOf twoBound "t").getD []).map (fun b => (b.fn, b.scope, [.str "a"])) ∧
      (∀ c ∈ calls, c.ret = (plainHandlers c.fn).ret c.thisArg [.str "a"]) ∧
      (r = false ↔ ∃ c ∈ calls, c.ret = Val.bool false) :=
  ⟨by decide, plainHandlers_bound,
    fireEvent_invokes_all_in_order plainHandlers 0 "t" [.str "a"] twoBound (by decide)
      plainHandlers_bound⟩

/-- C3, the code at two failing inputs.  First, `f0`, which returns `false`, and then
`f1`, which dispatches `"u"` (a type without bindings) and returns `undefined`, are
bound to `"t"`: both are invoked, `f0` did return `false`, and yet `fireEvent("t")`
returns `true`, because the nested call assigned `true` to the global `result`.
Second, only `f1` is bound to `"t"` and `f0` is bound to `"u"`: the handler of the outer
call returns `undefined`, and yet `fireEvent("t")` returns `false`, the result that the
nested call left in the global. -/
theorem fireEvent_nested_overwrites_result :
    (fireEvent nestedHandlers 2 "t" [] twoBound).value?.map (fun p => (p.2, p.1.log)) =
      some (true, [⟨0, .obj 7, [], .bool false⟩, ⟨1, .obj 8, [], .undefined⟩]) ∧
    bindingsOf nestedBound "t" = some [⟨.fn 1, .obj 8⟩] ∧
    (fireEvent nestedHandlers 2 "t" [] nestedBound).value?.map (fun p => (p.2, p.1.log)) =
      some (false, [⟨1, .obj 8, [], .undefined⟩, ⟨0, .obj 7, [], .bool false⟩]) := by
  decide

/-- C4, counterexample: `f0` and `f1` are bound to `"t"`; `f0` calls `on("t", f2)` and
then `off("t", f0)`.  The in-flight `fireEvent("t")` invokes `f0` and then `f2`: the
binding `f1`, registered when the call started, is skipped, and `f2`, added during the
call, is invoked; the handlers invoked are not the bindings registered at the start. -/
theorem fireEvent_sees_mutation :
    bindingsOf twoBound "t" = some [⟨.fn 0, .obj 7⟩, ⟨.fn 1, .obj 8⟩] ∧
    (fireEvent swapHandlers 1 "t" [] twoBound).value?.map
        (fun p => (p.2, p.1.log.map Call.fn)) = some (true, [0, 2]) ∧
    ¬ ∃ s' r calls, fireEvent swapHandlers 1 "t" [] twoBound = .ok (s', r) ∧
      s'.log = twoBound.log ++ calls ∧
      calls.map (fun c => Val.fn c.fn) =
        ((bindingsOf twoBound "t").getD []).map Binding.fn := by
  refine ⟨by decide, by decide, ?_⟩
  rintro ⟨s', r, calls, e, l, m⟩
  have h : (fireEvent swapHandlers 1 "t" [] twoBound).value?.map (fun p => p.1.log) =
      some [⟨0, .obj 7, [], .undefined⟩, ⟨2, .undefined, [], .undefined⟩] := by decide
  rw [e] at h
  simp only [Outcome.value?, Option.map_some', Option.some.injEq] at h
  have hl : twoBound.log = [] := by decide
  rw [h, hl, List.nil_append] at l
  rw [← l] at m
  revert m
  decide

theorem onOrOffAll_quiet (type : String) (c : Cmd) (h : c.isOnOrOffAll = true) :
    c.isFire = false ∧ c.splicesType type = false := by
  cases c with
  | onEvent t fn scope => exact ⟨rfl, rfl⟩
  | off t fn =>
    simp only [Cmd.isOnOrOffAll, Bool.not_eq_true'] at h
    exact ⟨rfl, by simp [Cmd.splicesType, h]⟩
  | addEvents types => simp [Cmd.isOnOrOffAll] at h
  | fireEvent t args => simp [Cmd.isOnOrOffAll] at h

/-- C4, amended: `fireEvent` iterates the live array with the length read at the start.
When the handlers bound to the type only call `on(…)`, which pushes behind that length,
and `off(…)` without a handler, which installs a new array and leaves the iterated one
alone, the in-flight call returns after invoking exactly the bindings that were
registered when it started, each once and in order. -/
theorem fireEvent_unaffected_by_on_and_offAll (fns : Nat → Handler) (fuel : Nat)
    (type : String) (args : List Val) (s : State) (hwf : WF s)
    (hq : ∀ b ∈ (bindingsOf s type).getD [], ∃ i, b.fn = .fn i ∧
      ∀ c ∈ (fns i).body, c.isOnOrOffAll = true) :
    ∃ s' r calls, fireEvent fns (fuel + 1) type args s = .ok (s', r) ∧
      s'.log = s.log ++ calls ∧
      calls.length = ((bindingsOf s type).getD []).length ∧
      calls.map (fun c => Val.fn c.fn) = ((bindingsOf s type).getD []).map Binding.fn := by
  obtain ⟨s', calls, e, l, m, -, -⟩ := fireEvent_owned fns fuel type args s hwf
    (fun b hb => by
      obtain ⟨i, hi, hc⟩ := hq b hb
      exact ⟨i, hi, fun c hcm => onOrOffAll_quiet type c (hc c hcm)⟩)
  have h2 := congrArg (List.map (fun p : Val × Val => p.1)) m
  simp only [List.map_map, Function.comp_def] at h2
  refine ⟨s', s'.result, calls, e, l, ?_, h2⟩
  simpa using congrArg List.length m

theorem resetHandlers_bound :
    ∀ b ∈ (bindingsOf twoBound "t").getD [], ∃ i, b.fn = .fn i ∧
      ∀ c ∈ (resetHandlers i).body, c.isOnOrOffAll = true := by
  intro b hb
  rw [twoBound_bindings] at hb
  simp only [List.mem_cons, List.mem_singleton, List.not_mem_nil, or_false] at hb
  rcases hb with h | h <;> subst h
  · exact ⟨0, rfl, by decide⟩
  · exact ⟨1, rfl, by decide⟩

/-- The amended C4 at a concrete observable: `f0` calls `on("t", f2)` and `off("t")`
during the dispatch, and the in-flight call still invokes `f0` and `f1`. -/
theorem fireEvent_unaffected_by_on_and_offAll_witness :
    WF twoBound ∧
    (∀ b ∈ (bindingsOf twoBound "t").getD [], ∃ i, b.fn = .fn i ∧
      ∀ c ∈ (resetHandlers i).body, c.isOnOrOffAll = true) ∧
    ∃ s' r calls, fireEvent resetHandlers 1 "t" [] twoBound = .ok (s', r) ∧
      s'.log = twoBound.log ++ calls ∧
      calls.length = ((bindingsOf twoBound "t").getD []).length ∧
      calls.map (fun c => Val.fn c.fn) =
        ((bindingsOf twoBound "t").getD []).map Binding.fn :=
  ⟨by decide, resetHandlers_bound,
    fireEvent_unaffected_by_on_and_offAll resetHandlers 0 "t" [] twoBound (by decide)
      resetHandlers_bound⟩

end Observable

namespace Observable

/-! ### `on` and `off` through `bindingsOf` -/

theorem someSplice_fst (f : Val) (l : List Binding) :
    (someSplice f l).1 = l.eraseP (fun b => decide (f = b.fn)) := by
  induction l with
  | nil => rfl
  | cons b rest ih =>
    unfold someSplice
    by_cases h : f = b.fn
    · simp [h]
    · simp [h, ih, List.eraseP_cons]

theorem someSplice_snd (f : Val) (l : List Binding) :
    (someSplice f l).2 = l.any (fun b => decide (f = b.fn)) := by
  induction l with
  | nil => rfl
  | cons b rest ih =>
    unfold someSplice
    by_cases h : f = b.fn
    · simp [h]
    · simp [h, ih]

theorem someSplice_no_match (f : Val) (l : List Binding) (h : (someSplice f l).2 = false) :
    (someSplice f l).1 = l := by
  induction l with
  | nil => rfl
  | cons b rest ih =>
    unfold someSplice at h ⊢
    by_cases e : f = b.fn
    · simp [e] at h
    · simp only [e, if_false] at h ⊢
      rw [ih h]

theorem deref_set_self (s : State) (r : Nat) (x : List Binding) (hr : r < s.heap.length) :
    deref { s with heap := s.heap.set r x } r = x := by
  simp [deref, List.getD_eq_getElem?_getD, List.getElem?_set_self hr]

theorem deref_set_ne (s : State) (r q : Nat) (x : List Binding) (hne : q ≠ r) :
    deref { s with heap := s.heap.set r x } q = deref s q := by
  simp [deref, List.getD_eq_getElem?_getD, List.getElem?_set_ne (Ne.symm hne)]

theorem set_deref_self (s : State) (r : Nat) : s.heap.set r (deref s r) = s.heap := by
  apply List.ext_getElem?
  intro j
  rw [List.getElem?_set]
  by_cases e : r = j
  · subst e
    by_cases hr : r < s.heap.length
    · simp [hr, deref, List.getD_eq_getElem _ _ hr]
    · simp [hr, List.getElem?_eq_none (not_lt.1 hr)]
  · simp [e]

theorem bindingsOf_onEvent_self {s : State} (hwf : WF s) (t : String) (f sc : Val) :
    bindingsOf (onEvent t f sc s) t = some ((bindingsOf s t).getD [] ++ [⟨f, sc⟩]) := by
  unfold onEvent
  cases h : s.events.lookup t with
  | some r =>
    simp only [bindingsOf, lookup_setKey_self, Option.map_some', h, Option.getD_some]
    exact congrArg some (deref_set_self s r _ (hwf.lt h))
  | none =>
    simp only [bindingsOf_alloc_self]
    simp [bindingsOf, h]

theorem bindingsOf_onEvent_ne {s : State} (hwf : WF s) (t t' : String) (f sc : Val)
    (hne : t' ≠ t) : bindingsOf (onEvent t f sc s) t' = bindingsOf s t' := by
  unfold onEvent
  cases h : s.events.lookup t with
  | some r =>
    simp only [bindingsOf, lookup_setKey_ne _ _ _ _ hne]
    cases h' : s.events.lookup t' with
    | none => rfl
    | some r' =>
      simp only [Option.map_some']
      exact congrArg some (deref_set_ne s r r' _ (hwf.noAlias h h' hne))
  | none => exact bindingsOf_alloc_ne hwf t t' _ hne

theorem onEvent_WF {s : State} (hwf : WF s) (t : String) (f sc : Val) :
    WF (onEvent t f sc s) := by
  unfold onEvent
  cases h : s.events.lookup t with
  | some r =>
    simp only
    rw [setKey_same _ _ _ h]
    exact ⟨hwf.1, fun p hp => by simpa using hwf.2 p hp⟩
  | none => exact hwf.alloc t _

theorem off_handler_eq (type : String) (f : Val) (s : State) (hf : truthy f = true) :
    off type f s =
      match s.events.lookup type with
      | none => (s, false)
      | some r =>
        ({ s with heap := s.heap.set r (someSplice f (deref s r)).1 },
         (someSplice f (deref s r)).2) := by
  unfold off
  simp [hf]

theorem bindingsOf_off_self {s : State} (hwf : WF s) (type : String) (f : Val)
    (hf : truthy f = true) :
    bindingsOf (off type f s).1 type =
      (bindingsOf s type).map (List.eraseP (fun b => decide (f = b.fn))) := by
  rw [off_handler_eq type f s hf]
  cases h : s.events.lookup type with
  | none => simp [bindingsOf, h]
  | some r =>
    simp only [bindingsOf, h, Option.map_some']
    rw [deref_set_self s r _ (hwf.lt h), someSplice_fst]

theorem bindingsOf_off_ne {s : State} (hwf : WF s) (type t : String) (f : Val)
    (hf : truthy f = true) (hne : t ≠ type) :
    bindingsOf (off type f s).1 t = bindingsOf s t := by
  rw [off_handler_eq type f s hf]
  cases h : s.events.lookup type with
  | none => rfl
  | some r =>
    simp only [bindingsOf]
    cases h' : s.events.lookup t with
    | none => rfl
    | some r' =>
      simp only [Option.map_some']
      rw [deref_set_ne s r r' _ (hwf.noAlias h h' hne)]

theorem off_result {s : State} (type : String) (f : Val) (hf : truthy f = true) :
    (off type f s).2 = ((bindingsOf s type).getD []).any (fun b => decide (f = b.fn)) := by
  rw [off_handler_eq type f s hf]
  cases h : s.events.lookup type with
  | none => simp [bindingsOf, h]
  | some r => simp [bindingsOf, h, someSplice_snd]

theorem off_false_unchanged {s : State} (type : String) (f : Val) (hf : truthy f = true)
    (h : (off type f s).2 = false) : (off type f s).1 = s := by
  rw [off_handler_eq type f s hf] at h ⊢
  cases hl : s.events.lookup type with
  | none => rfl
  | some r =>
    simp only [hl] at h ⊢
    rw [someSplice_no_match f _ h, set_deref_self]

theorem off_WF {s : State} (hwf : WF s) (type : String) (f : Val) (hf : truthy f = true) :
    WF (off type f s).1 := by
  rw [off_handler_eq type f s hf]
  cases h : s.events.lookup type with
  | none => exact hwf
  | some r => exact ⟨hwf.1, fun p hp => by simpa using hwf.2 p hp⟩

theorem countP_eraseP_of_mem (p : Binding → Bool) (l : List Binding)
    (h : ∃ b ∈ l, p b = true) : (l.eraseP p).countP p + 1 = l.countP p := by
  induction l with
  | nil => simp at h
  | cons a rest ih =>
    by_cases ha : p a = true
    · simp [List.eraseP_cons, ha, List.countP_cons]
    · have hr : ∃ b ∈ rest, p b = true := by
        obtain ⟨b, hb, hp⟩ := h
        rcases List.mem_cons.1 hb with e | e
        · subst e; exact absurd hp ha
        · exact ⟨b, e, hp⟩
      simp only [Bool.not_eq_true] at ha
      simp [List.eraseP_cons, ha, List.countP_cons, ih hr]

/-- C5: for a handler `f` (any truthy value), `off(type, f)` removes the first binding
of the type whose `fn` is identical to `f` and keeps the others in their order, leaves
every other type alone, returns `true` exactly when such a binding existed, and
returns `false` with the whole state unchanged otherwise (no match, or type not
registered).  After two `on(type, f)`, one `off(type, f)` succeeds and leaves one
binding for `f` more than before the subscriptions, and a second `off(type, f)`
succeeds and removes that one. -/
theorem off_removes_first_match (type : String) (f : Val) (s : State)
    (hf : truthy f = true) (hwf : WF s) :
    bindingsOf (off type f s).1 type =
      (bindingsOf s type).map (List.eraseP (fun b => decide (f = b.fn))) ∧
    (∀ t, t ≠ type → bindingsOf (off type f s).1 t = bindingsOf s t) ∧
    ((off type f s).2 = true ↔ ∃ b ∈ (bindingsOf s type).getD [], b.fn = f) ∧
    ((off type f s).2 = false → (off type f s).1 = s) ∧
    (bindingsOf s type = none → (off type f s).2 = false) ∧
    (∀ sc1 sc2 : Val,
      (off type f (onEvent type f sc2 (onEvent type f sc1 s))).2 = true ∧
      ((bindingsOf (off type f (onEvent type f sc2 (onEvent type f sc1 s))).1 type).getD
          []).countP (fun b => decide (f = b.fn)) =
        ((bindingsOf s type).getD []).countP (fun b => decide (f = b.fn)) + 1 ∧
      (off type f (off type f (onEvent type f sc2 (onEvent type f sc1 s))).1).2 = true ∧
      ((bindingsOf (off type f
          (off type f (onEvent type f sc2 (onEvent type f sc1 s))).1).1 type).getD
          []).countP (fun b => decide (f = b.fn)) =
        ((bindingsOf s type).getD []).countP (fun b => decide (f = b.fn))) := by
  refine ⟨bindingsOf_off_self hwf type f hf, fun t ht => bindingsOf_off_ne hwf type t f hf ht,
    ?_, off_false_unchanged type f hf, ?_, ?_⟩
  · rw [off_result type f hf, List.any_eq_true]
    constructor
    · rintro ⟨b, hb, e⟩
      exact ⟨b, hb, (of_decide_eq_true e).symm⟩
    · rintro ⟨b, hb, e⟩
      exact ⟨b, hb, decide_eq_true e.symm⟩
  · intro h
    rw [off_result type f hf, h]; rfl
  · intro sc1 sc2
    have w1 := onEvent_WF hwf type f sc1
    have w2 := onEvent_WF w1 type f sc2
    have w3 := off_WF w2 type f hf
    have b1 := bindingsOf_onEvent_self hwf type f sc1
    have b2 := bindingsOf_onEvent_self w1 type f sc2
    rw [b1] at b2
    simp only [Option.getD_some] at b2
    have b3 := bindingsOf_off_self w2 type f hf
    rw [b2] at b3
    simp only [Option.map_some'] at b3
    have b4 := bindingsOf_off_self w3 type f hf
    rw [b3] at b4
    simp only [Option.map_some'] at b4
    have r3 := @off_result (onEvent type f sc2 (onEvent type f sc1 s)) type f hf
    rw [b2] at r3
    have r4 := @off_result (off type f (onEvent type f sc2 (onEvent type f sc1 s))).1
      type f hf
    rw [b3] at r4
    generalize (bindingsOf s type).getD [] = bs at *
    have m2 : ∃ b ∈ (bs ++ [(⟨f, sc1⟩ : Binding)]) ++ [(⟨f, sc2⟩ : Binding)],
        (fun b : Binding => decide (f = b.fn)) b = true :=
      ⟨⟨f, sc2⟩, by simp, by simp⟩
    have c3 := countP_eraseP_of_mem (fun b => decide (f = b.fn)) _ m2
    have hc2 : ((bs ++ [(⟨f, sc1⟩ : Binding)]) ++ [(⟨f, sc2⟩ : Binding)]).countP
        (fun b => decide (f = b.fn)) = bs.countP (fun b => decide (f = b.fn)) + 2 := by
      simp [List.countP_append]
    have m3 : ∃ b ∈ (((bs ++ [(⟨f, sc1⟩ : Binding)]) ++ [(⟨f, sc2⟩ : Binding)]).eraseP
        (fun b => decide (f = b.fn))), (fun b : Binding => decide (f = b.fn)) b = true := by
      by_contra hcon
      have hz : (((bs ++ [(⟨f, sc1⟩ : Binding)]) ++ [(⟨f, sc2⟩ : Binding)]).eraseP
          (fun b => decide (f = b.fn))).countP (fun b => decide (f = b.fn)) = 0 := by
        rw [List.countP_eq_zero]
        intro b hb hp
        exact hcon ⟨b, hb, hp⟩
      omega
    have c4 := countP_eraseP_of_mem (fun b => decide (f = b.fn)) _ m3
    refine ⟨?_, ?_, ?_, ?_⟩
    · rw [r3, List.any_eq_true]; exact m2
    · rw [b3]; simp only [Option.getD_some]; omega
    · rw [r4, List.any_eq_true]; exact m3
    · rw [b4]; simp only [Option.getD_some]; omega

/-- The theorem of C5 at an observable with two handlers bound to `"t"`, removing `f1`. -/
theorem off_removes_first_match_witness :
    truthy (.fn 1) = true ∧ WF twoBound ∧
    bindingsOf (off "t" (.fn 1) twoBound).1 "t" =
      (bindingsOf twoBound "t").map (List.eraseP (fun b => decide (Val.fn 1 = b.fn))) ∧
    (∀ t, t ≠ "t" → bindingsOf (off "t" (.fn 1) twoBound).1 t = bindingsOf twoBound t) :=
  ⟨rfl, twoBound_WF,
    (off_removes_first_match "t" (.fn 1) twoBound rfl twoBound_WF).1,
    (off_removes_first_match "t" (.fn 1) twoBound rfl twoBound_WF).2.1⟩

end Observable

namespace Observable

/-! ### `off` without a handler, and the initial configuration -/

theorem off_undefined (type : String) (s : State) :
    off type .undefined s = removeAllEvents type s := by
  unfold off
  simp [truthy]

/-- C6: `off(type)` with the handler omitted returns `true` exactly when the type had at
least one binding (so `false` for a type that is not registered; no case throws),
leaves an empty array registered under the type, after which `on(type, g)` makes the
bindings exactly `[g]`, and leaves the other types alone. -/
theorem off_without_handler_clears (type : String) (s : State) (hwf : WF s) :
    ((off type .undefined s).2 = true ↔ (bindingsOf s type).getD [] ≠ []) ∧
    (bindingsOf s type = none → (off type .undefined s).2 = false) ∧
    bindingsOf (off type .undefined s).1 type = some [] ∧
    (∀ t, t ≠ type → bindingsOf (off type .undefined s).1 t = bindingsOf s t) ∧
    (∀ g sc : Val,
      bindingsOf (onEvent type g sc (off type .undefined s).1) type = some [⟨g, sc⟩]) := by
  rw [off_undefined]
  have hb : (bindingsOf s type).getD [] = arrayOf s (s.events.lookup type) := by
    unfold bindingsOf arrayOf
    cases s.events.lookup type <;> rfl
  have hw : WF (removeAllEvents type s).1 := hwf.alloc type []
  have hc : bindingsOf (removeAllEvents type s).1 type = some [] :=
    bindingsOf_alloc_self s type []
  refine ⟨?_, ?_, hc, fun t ht => bindingsOf_alloc_ne hwf type t [] ht, ?_⟩
  · rw [hb]
    simp only [removeAllEvents, decide_eq_true_eq]
    exact ⟨fun h => List.ne_nil_of_length_pos h, fun h => List.length_pos.2 h⟩
  · intro h
    have : (bindingsOf s type).getD [] = [] := by rw [h]; rfl
    rw [hb] at this
    simp [removeAllEvents, this]
  · intro g sc
    rw [bindingsOf_onEvent_self hw type g sc, hc]
    rfl

/-- The theorem of C6 at an observable with two handlers bound to `"t"`. -/
theorem off_without_handler_clears_witness :
    WF twoBound ∧
    ((off "t" .undefined twoBound).2 = true ↔ (bindingsOf twoBound "t").getD [] ≠ []) ∧
    bindingsOf (off "t" .undefined twoBound).1 "t" = some [] :=
  ⟨twoBound_WF, (off_without_handler_clears "t" twoBound twoBound_WF).1,
    (off_without_handler_clears "t" twoBound twoBound_WF).2.2.1⟩

theorem normalizeEntry_WF (scope : Val) {s : State} (hwf : WF s) (p : String × Val) :
    WF (normalizeEntry scope s p) := by
  unfold normalizeEntry
  split
  · exact hwf.alloc _ _
  · exact hwf

theorem bindingsOf_normalizeEntry_ne (scope : Val) {s : State} (hwf : WF s)
    (p : String × Val) (k : String) (h : k ≠ p.1 ∨ k = "scope") :
    bindingsOf (normalizeEntry scope s p) k = bindingsOf s k := by
  unfold normalizeEntry
  split
  · rename_i hp
    apply bindingsOf_alloc_ne hwf
    rcases h with h | h
    · exact h
    · rw [h]; exact fun e => hp e.symm
  · rfl

theorem foldl_normalizeEntry_WF (scope : Val) (l : List (String × Val)) {s : State}
    (hwf : WF s) : WF (l.foldl (normalizeEntry scope) s) := by
  induction l generalizing s with
  | nil => exact hwf
  | cons p rest ih => exact ih (normalizeEntry_WF scope hwf p)

theorem bindingsOf_foldl_normalizeEntry_other (scope : Val) (l : List (String × Val))
    {s : State} (hwf : WF s) (k : String) (h : k ∉ l.map Prod.fst ∨ k = "scope") :
    bindingsOf (l.foldl (normalizeEntry scope) s) k = bindingsOf s k := by
  induction l generalizing s with
  | nil => rfl
  | cons p rest ih =>
    simp only [List.foldl]
    have h1 : k ∉ rest.map Prod.fst ∨ k = "scope" := by
      rcases h with h | h
      · left; intro hm; exact h (by simp only [List.map_cons]; exact List.mem_cons_of_mem _ hm)
      · exact Or.inr h
    have h2 : k ≠ p.1 ∨ k = "scope" := by
      rcases h with h | h
      · left; intro e; exact h (by simp [e])
      · exact Or.inr h
    rw [ih (normalizeEntry_WF scope hwf p) h1, bindingsOf_normalizeEntry_ne scope hwf p k h2]

theorem bindingsOf_foldl_normalizeEntry_mem (scope : Val) (l : List (String × Val))
    {s : State} (hwf : WF s) (hn : (l.map Prod.fst).Nodup) (k : String) (fn : Val)
    (hm : (k, fn) ∈ l) (hk : k ≠ "scope") :
    bindingsOf (l.foldl (normalizeEntry scope) s) k = some [⟨fn, scope⟩] := by
  induction l generalizing s with
  | nil => simp at hm
  | cons p rest ih =>
    simp only [List.map_cons, List.nodup_cons] at hn
    simp only [List.foldl]
    rcases List.mem_cons.1 hm with e | e
    · subst e
      rw [bindingsOf_foldl_normalizeEntry_other scope rest (normalizeEntry_WF scope hwf _) k
        (Or.inl hn.1)]
      unfold normalizeEntry
      simp only [hk, ne_eq, not_false_eq_true, if_true]
      exact bindingsOf_alloc_self s k _
    · exact ih (normalizeEntry_WF scope hwf p) hn.2 e

theorem normalizeEvents_eq (cfg : List (String × Val)) (s : State) :
    normalizeEvents cfg s =
      (jqExtend cfg).foldl
        (normalizeEntry (jsOr ((cfg.lookup "scope").getD Val.undefined) window))
        { s with events := [] } := by
  unfold normalizeEvents
  cases cfg with
  | nil => rfl
  | cons p rest => simp [jqIsEmptyObject]

/-- C8: for a configuration object (distinct keys) whose entries other than `scope` are
handlers (function objects), `normalizeEvents` registers under every key other than
`scope` an array of exactly one binding, the configured handler with the scope
`cfg.scope || window`: the scope entry of the configuration when there is one (an
object, or any truthy value), the default scope `window` when there is none.  No type
`scope` and no type that is not a key is registered, and an empty configuration gives
an empty registry. -/
theorem normalizeEvents_one_binding_per_key (cfg : List (String × Val)) (s : State)
    (hkeys : (cfg.map Prod.fst).Nodup)
    (hfn : ∀ p ∈ cfg, p.1 ≠ "scope" → p.2.isFn = true) :
    (∀ k fn, (k, fn) ∈ cfg → k ≠ "scope" →
      bindingsOf (normalizeEvents cfg s) k =
        some [⟨fn, jsOr ((cfg.lookup "scope").getD Val.undefined) window⟩]) ∧
    (∀ sc, cfg.lookup "scope" = some sc → truthy sc = true →
      ∀ k fn, (k, fn) ∈ cfg → k ≠ "scope" →
        bindingsOf (normalizeEvents cfg s) k = some [⟨fn, sc⟩]) ∧
    (cfg.lookup "scope" = none →
      ∀ k fn, (k, fn) ∈ cfg → k ≠ "scope" →
        bindingsOf (normalizeEvents cfg s) k = some [⟨fn, window⟩]) ∧
    bindingsOf (normalizeEvents cfg s) "scope" = none ∧
    (∀ k, k ∉ cfg.map Prod.fst → bindingsOf (normalizeEvents cfg s) k = none) ∧
    (cfg = [] → (normalizeEvents cfg s).events = []) := by
  have hwf0 : WF { s with events := [] } := ⟨by simp, by simp⟩
  have hsub : ((jqExtend cfg).map Prod.fst).Sublist (cfg.map Prod.fst) :=
    List.Sublist.map _ (List.filter_sublist cfg)
  have main : ∀ k fn, (k, fn) ∈ cfg → k ≠ "scope" →
      bindingsOf (normalizeEvents cfg s) k =
        some [⟨fn, jsOr ((cfg.lookup "scope").getD Val.undefined) window⟩] := by
    intro k fn hm hk
    rw [normalizeEvents_eq]
    apply bindingsOf_foldl_normalizeEntry_mem _ _ hwf0 (hkeys.sublist hsub) k fn _ hk
    unfold jqExtend
    rw [List.mem_filter]
    have hf := hfn (k, fn) hm hk
    refine ⟨hm, ?_⟩
    simp only [ne_eq, decide_not, Bool.not_eq_true', decide_eq_false_iff_not]
    intro e
    simp only at hf
    rw [e] at hf
    simp [Val.isFn] at hf
  refine ⟨main, ?_, ?_, ?_, ?_, ?_⟩
  · intro sc hsc ht k fn hm hk
    rw [main k fn hm hk, hsc]
    simp [jsOr, ht]
  · intro hsc k fn hm hk
    rw [main k fn hm hk, hsc]
    simp [jsOr, truthy]
  · rw [normalizeEvents_eq,
      bindingsOf_foldl_normalizeEntry_other _ _ hwf0 "scope" (Or.inr rfl)]
    rfl
  · intro k hk
    rw [normalizeEvents_eq,
      bindingsOf_foldl_normalizeEntry_other _ _ hwf0 k (Or.inl (fun h => hk (hsub.subset h)))]
    rfl
  · intro h
    subst h
    rfl

/-- The theorem of C8 at the configuration of the class documentation. -/
theorem normalizeEvents_one_binding_per_key_witness :
    (docCfg.map Prod.fst).Nodup ∧
    (∀ p ∈ docCfg, p.1 ≠ "scope" → p.2.isFn = true) ∧
    (∀ k fn, (k, fn) ∈ docCfg → k ≠ "scope" →
      bindingsOf (normalizeEvents docCfg fresh) k = some [⟨fn, .obj 9⟩]) ∧
    bindingsOf (normalizeEvents docCfg fresh) "scope" = none :=
  ⟨by decide, by decide,
    (normalizeEvents_one_binding_per_key docCfg fresh (by decide) (by decide)).2.1
      (.obj 9) (by decide) (by decide),
    (normalizeEvents_one_binding_per_key docCfg fresh (by decide) (by decide)).2.2.2.1⟩

end Observable

namespace Observable

/-- Well-formedness is kept by every operation of the observable, so it holds for every
observable built from `fresh` or from `normalizeEvents`. -/
theorem WF_operations (s : State) (hwf : WF s) :
    (∀ t fn scope, WF (onEvent t fn scope s)) ∧ (∀ t fn, WF (off t fn s).1) ∧
    (∀ t, WF (removeAllEvents t s).1) ∧ (∀ types, WF (addEvents types s)) ∧
    (∀ cfg, WF (normalizeEvents cfg s)) := by
  refine ⟨fun t fn scope => onEvent_WF hwf t fn scope, fun t fn => ?_,
    fun t => hwf.alloc t [], fun types => addEvents_WF types hwf, fun cfg => ?_⟩
  · cases hf : truthy fn with
    | true => exact off_WF hwf t fn hf
    | false =>
      have : off t fn s = removeAllEvents t s := by unfold off; simp [hf]
      rw [this]
      exact hwf.alloc t []
  · rw [normalizeEvents_eq]
    exact foldl_normalizeEntry_WF _ _ ⟨by simp, by simp⟩

end Observable

namespace Template

/-! ### The scan of a template -/

theorem lazyBody_some {s u : Str} (h : lazyBody s = some u) :
    ∃ after, s = u ++ '}' :: after ∧ ∀ c ∈ u, c ≠ '}' ∧ isLineTerminator c = false := by
  induction s generalizing u with
  | nil => simp [lazyBody] at h
  | cons c rest ih =>
    unfold lazyBody at h
    by_cases h1 : c = '}'
    · simp only [h1, if_true, Option.some.injEq] at h
      subst h
      exact ⟨rest, by simp [h1], by simp⟩
    · by_cases h2 : isLineTerminator c = true
      · simp [h1, h2] at h
      · simp only [h1, h2, if_false] at h
        cases hi : lazyBody rest with
        | none => rw [hi] at h; simp at h
        | some inner =>
        rw [hi] at h
        simp at h
        obtain ⟨after, ha, hc⟩ := ih hi
        subst h
        refine ⟨after, by simp [ha], ?_⟩
        intro d hd
        rcases List.mem_cons.1 hd with e | e
        · subst e; exact ⟨h1, by simpa using h2⟩
        · exact hc d e

theorem lazyBody_append (u after : Str)
    (h : ∀ c ∈ u, c ≠ '}' ∧ isLineTerminator c = false) :
    lazyBody (u ++ '}' :: after) = some u := by
  induction u with
  | nil => simp [lazyBody]
  | cons c rest ih =>
    have hc := h c (List.mem_cons_self _ _)
    have hr := ih (fun d hd => h d (List.mem_cons_of_mem _ hd))
    simp [lazyBody, hc.1, hc.2, hr]

theorem matchesFrom_succ (skip : Nat) (c : Char) (rest : Str) :
    matchesFrom (skip + 1) (c :: rest) = matchesFrom skip rest := rfl

theorem matchesFrom_zero (c : Char) (rest : Str) :
    matchesFrom 0 (c :: rest) =
      if c = '{' then
        match lazyBody rest with
        | some inner => ('{' :: (inner ++ ['}'])) :: matchesFrom (inner.length + 1) rest
        | none => matchesFrom 0 rest
      else matchesFrom 0 rest := rfl

theorem substituteFrom_succ (values : Str → Value) (chosen : Str → Bool) (skip : Nat)
    (c : Char) (rest : Str) :
    substituteFrom values chosen (skip + 1) (c :: rest) =
      substituteFrom values chosen skip rest := rfl

theorem substituteFrom_zero (values : Str → Value) (chosen : Str → Bool) (c : Char)
    (rest : Str) :
    substituteFrom values chosen 0 (c :: rest) =
      if c = '{' then
        match lazyBody rest with
        | some inner =>
          (if chosen inner then valueText (values inner) else '{' :: (inner ++ ['}'])) ++
            substituteFrom values chosen (inner.length + 1) rest
        | none => c :: substituteFrom values chosen 0 rest
      else c :: substituteFrom values chosen 0 rest := rfl

theorem replaceFrom_succ (pattern value : Str) (skip : Nat) (before : Str) (c : Char)
    (rest : Str) :
    replaceFrom pattern value (skip + 1) before (c :: rest) =
      replaceFrom pattern value skip (before ++ [c]) rest := rfl

theorem replaceFrom_zero (pattern value : Str) (before : Str) (c : Char) (rest : Str) :
    replaceFrom pattern value 0 before (c :: rest) =
      if pattern.isPrefixOf (c :: rest) then
        getSubstitution pattern before ((c :: rest).drop pattern.length) value ++
          replaceFrom pattern value (pattern.length - 1) (before ++ [c]) rest
      else c :: replaceFrom pattern value 0 (before ++ [c]) rest := rfl

theorem matchesFrom_skip (w rest : Str) :
    matchesFrom w.length (w ++ rest) = matchesFrom 0 rest := by
  induction w with
  | nil => rfl
  | cons c w ih =>
    rw [List.length_cons, List.cons_append, matchesFrom_succ]; exact ih

theorem substituteFrom_skip (values : Str → Value) (chosen : Str → Bool) (w rest : Str) :
    substituteFrom values chosen w.length (w ++ rest) =
      substituteFrom values chosen 0 rest := by
  induction w with
  | nil => rfl
  | cons c w ih =>
    rw [List.length_cons, List.cons_append, substituteFrom_succ]; exact ih

theorem replaceFrom_skip (pattern value : Str) (w before rest : Str) :
    replaceFrom pattern value w.length before (w ++ rest) =
      replaceFrom pattern value 0 (before ++ w) rest := by
  induction w generalizing before with
  | nil => simp
  | cons c w ih =>
    rw [List.length_cons, List.cons_append, replaceFrom_succ, ih]
    simp

/-- Induction along the scan for placeholders: a template is empty, or starts with a
character at which no placeholder starts, or starts with a placeholder. -/
theorem scan_induction (P : Str → Prop) (hnil : P [])
    (hchar : ∀ c rest, (c ≠ '{' ∨ lazyBody rest = none) → P rest → P (c :: rest))
    (hph : ∀ u after, (∀ c ∈ u, c ≠ '}' ∧ isLineTerminator c = false) → P after →
      P ('{' :: (u ++ '}' :: after))) :
    ∀ t, P t := by
  suffices h : ∀ n, ∀ t : Str, t.length = n → P t from fun t => h _ t rfl
  intro n
  induction n using Nat.strong_induction_on with
  | _ n ih =>
    intro t hn
    cases t with
    | nil => exact hnil
    | cons c rest =>
      by_cases hc : c = '{'
      · cases hl : lazyBody rest with
        | none =>
          exact hchar c rest (Or.inr hl) (ih rest.length (by simp at hn; omega) rest rfl)
        | some u =>
          obtain ⟨after, ha, hu⟩ := lazyBody_some hl
          subst hc
          rw [ha]
          refine hph u after hu (ih after.length ?_ after rfl)
          rw [← hn, ha]; simp; omega
      · exact hchar c rest (Or.inl hc) (ih rest.length (by simp at hn; omega) rest rfl)

theorem matchesFrom_char (c : Char) (rest : Str) (h : c ≠ '{' ∨ lazyBody rest = none) :
    matchesFrom 0 (c :: rest) = matchesFrom 0 rest := by
  rw [matchesFrom_zero]
  rcases h with h | h
  · simp [h]
  · simp [h]

theorem matchesFrom_placeholder (u after : Str)
    (h : ∀ c ∈ u, c ≠ '}' ∧ isLineTerminator c = false) :
    matchesFrom 0 ('{' :: (u ++ '}' :: after)) =
      ('{' :: (u ++ ['}'])) :: matchesFrom 0 after := by
  rw [matchesFrom_zero]
  simp only [if_true, lazyBody_append u after h]
  have := matchesFrom_skip (u ++ ['}']) after
  simp only [List.length_append, List.length_singleton, List.append_assoc,
    List.singleton_append] at this
  rw [this]

theorem substituteFrom_char (values : Str → Value) (chosen : Str → Bool) (c : Char)
    (rest : Str) (h : c ≠ '{' ∨ lazyBody rest = none) :
    substituteFrom values chosen 0 (c :: rest) = c :: substituteFrom values chosen 0 rest := by
  rw [substituteFrom_zero]
  rcases h with h | h
  · simp [h]
  · by_cases hc : c = '{' <;> simp [h, hc]

theorem substituteFrom_placeholder (values : Str → Value) (chosen : Str → Bool)
    (u after : Str) (h : ∀ c ∈ u, c ≠ '}' ∧ isLineTerminator c = false) :
    substituteFrom values chosen 0 ('{' :: (u ++ '}' :: after)) =
      (if chosen u then valueText (values u) else '{' :: (u ++ ['}'])) ++
        substituteFrom values chosen 0 after := by
  rw [substituteFrom_zero]
  simp only [if_true, lazyBody_append u after h]
  have := substituteFrom_skip values chosen (u ++ ['}']) after
  simp only [List.length_append, List.length_singleton, List.append_assoc,
    List.singleton_append] at this
  rw [this]

/-- Substituting no placeholder gives the template back. -/
theorem substituteFrom_none (values : Str → Value) (t : Str) :
    substituteFrom values (fun _ => false) 0 t = t := by
  induction t using scan_induction with
  | hnil => rfl
  | hchar c rest h ih => rw [substituteFrom_char values _ c rest h, ih]
  | hph u after h ih =>
    rw [substituteFrom_placeholder values _ u after h, ih]
    simp

/-- Only the placeholders of the template are ever asked for. -/
theorem substituteFrom_congr (values : Str → Value) (chosen chosen' : Str → Bool) (t : Str)
    (h : ∀ u, ('{' :: (u ++ ['}'])) ∈ matchesFrom 0 t → chosen u = chosen' u) :
    substituteFrom values chosen 0 t = substituteFrom values chosen' 0 t := by
  induction t using scan_induction with
  | hnil => rfl
  | hchar c rest hc ih =>
    rw [substituteFrom_char values _ c rest hc, substituteFrom_char values _ c rest hc, ih]
    intro u hu
    exact h u (by rw [matchesFrom_char c rest hc]; exact hu)
  | hph u after hu ih =>
    rw [substituteFrom_placeholder values _ u after hu,
      substituteFrom_placeholder values _ u after hu, ih]
    · rw [h u (by rw [matchesFrom_placeholder u after hu]; exact List.mem_cons_self _ _)]
    · intro v hv
      exact h v (by rw [matchesFrom_placeholder u after hu]; exact List.mem_cons_of_mem _ hv)

end Template

namespace Template

/-! ### One pass of `replace` -/

theorem isPrefixOf_brace_ne (p : Str) (c : Char) (rest : Str) (h : c ≠ '{') :
    ('{' :: p).isPrefixOf (c :: rest) = false := by
  simp [List.isPrefixOf, Ne.symm h]

theorem isPrefixOf_self_append (p rest : Str) : p.isPrefixOf (p ++ rest) = true := by
  induction p with
  | nil => simp [List.isPrefixOf]
  | cons c p ih => simp [List.isPrefixOf, ih]

theorem isPrefixOf_split (p s : Str) (h : p.isPrefixOf s = true) : ∃ z, s = p ++ z := by
  induction p generalizing s with
  | nil => exact ⟨s, rfl⟩
  | cons c p ih =>
    cases s with
    | nil => simp [List.isPrefixOf] at h
    | cons d s =>
      simp only [List.isPrefixOf, Bool.and_eq_true, beq_iff_eq] at h
      obtain ⟨z, hz⟩ := ih s h.2
      exact ⟨z, by rw [h.1, hz]; rfl⟩

theorem closing_brace_unique (u y a b : Str) (hu : '}' ∉ u) (hy : '}' ∉ y)
    (h : u ++ '}' :: a = y ++ '}' :: b) : u = y := by
  induction u generalizing y with
  | nil =>
    cases y with
    | nil => rfl
    | cons d y =>
      simp only [List.nil_append, List.cons_append, List.cons.injEq] at h
      exact absurd (List.mem_cons_self _ _) (h.1 ▸ hy)
  | cons c u ih =>
    cases y with
    | nil =>
      simp only [List.nil_append, List.cons_append, List.cons.injEq] at h
      exact absurd (List.mem_cons_self _ _) (h.1 ▸ hu)
    | cons d y =>
      simp only [List.cons_append, List.cons.injEq] at h
      rw [h.1, ih y (fun hm => hu (List.mem_cons_of_mem _ hm))
        (fun hm => hy (List.mem_cons_of_mem _ hm)) h.2]

/-- Text without `{` passes a replacement of a pattern that starts with `{`. -/
theorem replaceFrom_pass (p value : Str) (w before rest : Str) (hw : '{' ∉ w) :
    replaceFrom ('{' :: p) value 0 before (w ++ rest) =
      w ++ replaceFrom ('{' :: p) value 0 (before ++ w) rest := by
  induction w generalizing before with
  | nil => simp
  | cons c w ih =>
    have hc : c ≠ '{' := fun e => hw (e ▸ List.mem_cons_self _ _)
    rw [List.cons_append, replaceFrom_zero, isPrefixOf_brace_ne p c _ hc]
    simp only [Bool.false_eq_true, if_false, List.cons_append]
    rw [ih _ (fun hm => hw (List.mem_cons_of_mem _ hm))]
    simp

theorem getSubstitution_plain (matched before after : Str) (v : Str)
    (hv : ∀ c ∈ v, c ≠ '$') : getSubstitution matched before after v = v := by
  induction v with
  | nil => rfl
  | cons c tail ih =>
    cases tail with
    | nil => rfl
    | cons d rest =>
      have hc : c ≠ '$' := hv c (List.mem_cons_self _ _)
      rw [getSubstitution]
      simp only [hc, if_false]
      rw [ih (fun x hx => hv x (List.mem_cons_of_mem _ hx))]

/-- A `{` at which no placeholder starts is not the start of an occurrence of `{y}` in a
partly substituted template either. -/
theorem no_stray_match (values : Str → Value) (chosen : Str → Bool) (rest : Str) :
    ∀ y z : Str, (∀ c ∈ y, c ≠ '{' ∧ c ≠ '}' ∧ isLineTerminator c = false) →
      substituteFrom values chosen 0 rest = y ++ '}' :: z → lazyBody rest ≠ none := by
  induction rest using scan_induction with
  | hnil =>
    intro y z _ h
    cases y <;> simp [substituteFrom] at h
  | hchar c rest hc ih =>
    intro y z hy h
    rw [substituteFrom_char values chosen c rest hc] at h
    cases y with
    | nil =>
      simp only [List.nil_append, List.cons.injEq] at h
      simp [lazyBody, h.1]
    | cons d y =>
      simp only [List.cons_append, List.cons.injEq] at h
      have hd := hy d (List.mem_cons_self _ _)
      have hrest := ih y z (fun x hx => hy x (List.mem_cons_of_mem _ hx)) h.2
      rw [h.1]
      cases hl : lazyBody rest with
      | none => exact absurd hl hrest
      | some inner => simp [lazyBody, hd.2.1, hd.2.2, hl]
  | hph u after hu _ =>
    intro y z _ _
    have : lazyBody (('{' :: u) ++ '}' :: after) = some ('{' :: u) := by
      apply lazyBody_append
      intro c hc
      rcases List.mem_cons.1 hc with e | e
      · subst e; exact ⟨by decide, by decide⟩
      · exact hu c e
    simp only [List.cons_append] at this
    rw [this]; simp

/-- One step of `render` on a partly substituted template: replacing the literal `{y}`
by a plain value substitutes exactly the placeholders `{y}` that were left. -/
theorem replaceFrom_substituteFrom (values : Str → Value) (chosen : Str → Bool) (y : Str)
    (hy : ∀ c ∈ y, c ≠ '{' ∧ c ≠ '}' ∧ isLineTerminator c = false)
    (hvals : ∀ u, ∀ c ∈ valueText (values u), c ≠ '{' ∧ c ≠ '$') (t : Str) :
    (∀ u, ('{' :: (u ++ ['}'])) ∈ matchesFrom 0 t → '{' ∉ u) →
    ∀ before, replaceFrom ('{' :: (y ++ ['}'])) (valueText (values y)) 0 before
        (substituteFrom values chosen 0 t) =
      substituteFrom values (fun u => chosen u || decide (u = y)) 0 t := by
  induction t using scan_induction with
  | hnil => intro _ before; rfl
  | hchar c rest hc ih =>
    intro hm before
    have hm' : ∀ u, ('{' :: (u ++ ['}'])) ∈ matchesFrom 0 rest → '{' ∉ u := by
      intro u hu
      exact hm u (by rw [matchesFrom_char c rest hc]; exact hu)
    rw [substituteFrom_char values _ c rest hc, substituteFrom_char values _ c rest hc,
      replaceFrom_zero]
    have hnp : ('{' :: (y ++ ['}'])).isPrefixOf
        (c :: substituteFrom values chosen 0 rest) = false := by
      by_cases e : c = '{'
      · rcases hc with hc | hc
        · exact absurd e hc
        · cases hp : ('{' :: (y ++ ['}'])).isPrefixOf
              (c :: substituteFrom values chosen 0 rest) with
          | false => rfl
          | true =>
            exfalso
            obtain ⟨z, hz⟩ := isPrefixOf_split _ _ hp
            simp only [List.cons_append, List.cons.injEq, List.append_assoc,
              List.singleton_append] at hz
            exact no_stray_match values chosen rest y z hy hz.2 hc
      · exact isPrefixOf_brace_ne _ c _ e
    rw [hnp]
    simp only [Bool.false_eq_true, if_false]
    rw [ih hm']
  | hph u after hu ih =>
    intro hm before
    have hmatch := matchesFrom_placeholder u after hu
    have hub : '{' ∉ u := hm u (by rw [hmatch]; exact List.mem_cons_self _ _)
    have hm' : ∀ v, ('{' :: (v ++ ['}'])) ∈ matchesFrom 0 after → '{' ∉ v := by
      intro v hv
      exact hm v (by rw [hmatch]; exact List.mem_cons_of_mem _ hv)
    rw [substituteFrom_placeholder values _ u after hu,
      substituteFrom_placeholder values _ u after hu]
    cases hch : chosen u with
    | true =>
      simp only [if_true, Bool.true_or]
      rw [replaceFrom_pass _ _ _ _ _ (fun h => (hvals u _ h).1 rfl), ih hm']
    | false =>
      by_cases e : u = y
      · subst e
        simp only [Bool.false_eq_true, if_false, Bool.false_or, decide_True, if_true,
          List.cons_append, List.append_assoc, List.singleton_append, List.nil_append]
        rw [replaceFrom_zero]
        have hp : ('{' :: (u ++ ['}'])).isPrefixOf
            ('{' :: (u ++ '}' :: substituteFrom values chosen 0 after)) = true := by
          have := isPrefixOf_self_append ('{' :: (u ++ ['}']))
            (substituteFrom values chosen 0 after)
          simp only [List.cons_append, List.append_assoc, List.singleton_append] at this
          exact this
        rw [hp]
        simp only [if_true]
        rw [getSubstitution_plain _ _ _ _ (fun c hc => (hvals u c hc).2)]
        have hs := replaceFrom_skip ('{' :: (u ++ ['}'])) (valueText (values u))
          (u ++ ['}']) (before ++ ['{']) (substituteFrom values chosen 0 after)
        simp only [List.length_append, List.length_singleton, List.append_assoc,
          List.singleton_append] at hs
        simp only [List.length_cons, List.length_append, List.length_singleton,
          List.length_nil, Nat.zero_add, Nat.add_sub_cancel]
        rw [hs, ih hm']
      · simp only [Bool.false_eq_true, if_false, Bool.false_or, e, decide_False,
          List.cons_append, List.append_assoc, List.singleton_append, List.nil_append]
        rw [replaceFrom_zero]
        have hnp : ('{' :: (y ++ ['}'])).isPrefixOf
            ('{' :: (u ++ '}' :: substituteFrom values chosen 0 after)) = false := by
          cases hp : ('{' :: (y ++ ['}'])).isPrefixOf
              ('{' :: (u ++ '}' :: substituteFrom values chosen 0 after)) with
          | false => rfl
          | true =>
            exfalso
            obtain ⟨z, hz⟩ := isPrefixOf_split _ _ hp
            simp only [List.cons_append, List.cons.injEq, List.append_assoc,
              List.singleton_append, true_and] at hz
            exact e (closing_brace_unique u y _ _ (fun h => (hu _ h).1 rfl)
              (fun h => (hy _ h).2.1 rfl) hz)
        rw [hnp]
        simp only [Bool.false_eq_true, if_false]
        have hpass := replaceFrom_pass (y ++ ['}']) (valueText (values y)) (u ++ ['}'])
          (before ++ ['{']) (substituteFrom values chosen 0 after)
          (by
            intro h
            rcases List.mem_append.1 h with h | h
            · exact hub h
            · simp at h)
        simp only [List.append_assoc, List.singleton_append] at hpass
        rw [hpass, ih hm']

end Template

namespace Template

/-! ### Identifiers -/

theorem isLineTerminator_cases (c : Char) (h : isLineTerminator c = true) :
    c = '\n' ∨ c = '\r' ∨ c = Char.ofNat 0x2028 ∨ c = Char.ofNat 0x2029 := by
  simpa [isLineTerminator, or_assoc] using h

theorem isIdentChar_plain (c : Char) (h : isIdentChar c = true) :
    c ≠ '{' ∧ c ≠ '}' ∧ isLineTerminator c = false ∧ regexSpecials.contains c = false := by
  refine ⟨?_, ?_, ?_, ?_⟩
  · intro e; subst e; revert h; decide
  · intro e; subst e; revert h; decide
  · cases hl : isLineTerminator c with
    | false => rfl
    | true =>
      exfalso
      rcases isLineTerminator_cases c hl with e | e | e | e <;> subst e <;> revert h <;> decide
  · cases hl : regexSpecials.contains c with
    | false => rfl
    | true =>
      exfalso
      have hm : c ∈ regexSpecials := by simpa using hl
      simp only [regexSpecials, List.mem_cons, List.mem_singleton, List.not_mem_nil,
        or_false] at hm
      rcases hm with e | e | e | e | e | e | e | e | e | e | e | e | e | e <;>
        subst e <;> revert h <;> decide

theorem isLetter_not_digit (c : Char) (h : isLetter c = true) : isDigit c = false := by
  simp only [isLetter, Bool.or_eq_true, Bool.and_eq_true, decide_eq_true_eq] at h
  cases hd : isDigit c with
  | false => rfl
  | true =>
    simp only [isDigit, Bool.and_eq_true, decide_eq_true_eq] at hd
    omega

theorem isIdentifier_chars (y : Str) (h : isIdentifier y = true) :
    ∀ c ∈ y, isIdentChar c = true := by
  cases y with
  | nil => simp [isIdentifier] at h
  | cons d rest =>
    simp only [isIdentifier, Bool.and_eq_true, List.all_eq_true] at h
    intro c hc
    rcases List.mem_cons.1 hc with e | e
    · subst e; simp [isIdentChar, h.1]
    · exact h.2 c e

theorem isIdentifier_plain (y : Str) (h : isIdentifier y = true) :
    ∀ c ∈ y, c ≠ '{' ∧ c ≠ '}' ∧ isLineTerminator c = false := by
  intro c hc
  have := isIdentChar_plain c (isIdentifier_chars y h c hc)
  exact ⟨this.1, this.2.1, this.2.2.1⟩

theorem stripBraces_placeholder (y : Str) (h : ∀ c ∈ y, c ≠ '{' ∧ c ≠ '}') :
    stripBraces ('{' :: (y ++ ['}'])) = y := by
  unfold stripBraces
  have hy : y.filter (fun c => !(decide (c = '{') || decide (c = '}'))) = y := by
    rw [List.filter_eq_self]
    intro c hc
    simp [(h c hc).1, (h c hc).2]
  simp only [List.filter_cons, List.filter_append, hy]
  simp

theorem inner_of_placeholder (y : Str) : (('{' :: (y ++ ['}'])).drop 1).dropLast = y := by
  simp [List.dropLast_concat]

theorem isLiteralPattern_identifier (y : Str) (h : isIdentifier y = true) :
    isLiteralPattern ('{' :: (y ++ ['}'])) = true := by
  unfold isLiteralPattern
  rw [inner_of_placeholder]
  simp only [Bool.and_eq_true, List.all_eq_true, Bool.not_eq_true']
  refine ⟨fun c hc => (isIdentChar_plain c (isIdentifier_chars y h c hc)).2.2.2, ?_⟩
  cases y with
  | nil => simp [isIdentifier] at h
  | cons d rest =>
    simp only [isIdentifier, Bool.and_eq_true] at h
    simp [quantifierShaped, List.takeWhile, isLetter_not_digit d h.1]

/-! ### `render` -/

theorem placeholder_inj (u y : Str) (h : '{' :: (u ++ ['}']) = '{' :: (y ++ ['}'])) :
    u = y := by
  simp only [List.cons.injEq, true_and] at h
  exact List.append_cancel_right h

/-- The loop of `render` over placeholders that are identifiers, started on a partly
substituted template: it substitutes the placeholders it is given. -/
theorem foldl_renderStep (values : Str → Value)
    (hvals : ∀ u, ∀ c ∈ valueText (values u), c ≠ '{' ∧ c ≠ '$') (t : Str)
    (ht : ∀ u, ('{' :: (u ++ ['}'])) ∈ matchesFrom 0 t → '{' ∉ u) (ps : List Str)
    (hps : ∀ p ∈ ps, ∃ y, p = '{' :: (y ++ ['}']) ∧ isIdentifier y = true) :
    ∀ chosen : Str → Bool, ∃ chosen' : Str → Bool,
      ps.foldl (renderStep values) (.ok (substituteFrom values chosen 0 t)) =
        .ok (substituteFrom values chosen' 0 t) ∧
      (∀ u, chosen u = true → chosen' u = true) ∧
      (∀ u, ('{' :: (u ++ ['}'])) ∈ ps → chosen' u = true) := by
  induction ps with
  | nil =>
    intro chosen
    exact ⟨chosen, rfl, fun _ h => h, fun _ h => by simp at h⟩
  | cons p ps ih =>
    intro chosen
    obtain ⟨y, hp, hy⟩ := hps p (List.mem_cons_self _ _)
    have hplain := isIdentifier_plain y hy
    have hstep : renderStep values (.ok (substituteFrom values chosen 0 t)) p =
        .ok (substituteFrom values (fun u => chosen u || decide (u = y)) 0 t) := by
      subst hp
      simp only [renderStep, isLiteralPattern_identifier y hy, if_true]
      rw [stripBraces_placeholder y (fun c hc => ⟨(hplain c hc).1, (hplain c hc).2.1⟩),
        replaceFrom_substituteFrom values chosen y hplain hvals t ht]
    obtain ⟨chosen', e, h1, h2⟩ := ih (fun q hq => hps q (List.mem_cons_of_mem _ hq))
      (fun u => chosen u || decide (u = y))
    refine ⟨chosen', ?_, ?_, ?_⟩
    · rw [List.foldl_cons, hstep, e]
    · intro u hu
      exact h1 u (by simp [hu])
    · intro u hu
      rcases List.mem_cons.1 hu with e' | e'
      · have : u = y := placeholder_inj u y (e'.trans hp)
        exact h1 u (by simp [this])
      · exact h2 u e'

theorem matchRegex_none (t : Str) (h : matchesFrom 0 t = []) : matchRegex t = none := by
  unfold matchRegex; rw [h]

theorem matchRegex_some (t : Str) (h : matchesFrom 0 t ≠ []) :
    matchRegex t = some (matchesFrom 0 t) := by
  unfold matchRegex
  cases hm : matchesFrom 0 t with
  | nil => exact absurd hm h
  | cons m ms => rfl

/-- A template whose placeholders are identifiers, rendered with plain values: when it has
a placeholder, `render` returns the simultaneous substitution. -/
theorem render_eq_substitute (template : Str) (values : Str → Value)
    (hid : ∀ p ∈ matchesFrom 0 template,
      ∃ id, p = '{' :: (id ++ ['}']) ∧ isIdentifier id = true)
    (hvals : ∀ k s, values k = .str s → isPlainText s = true)
    (hne : matchesFrom 0 template ≠ []) :
    render template values = .ok (substitute values template) := by
  have hvals' : ∀ u, ∀ c ∈ valueText (values u), c ≠ '{' ∧ c ≠ '$' := by
    intro u c hc
    cases hv : values u with
    | undefined => rw [hv] at hc; simp [valueText, emptyValue] at hc
    | null => rw [hv] at hc; simp [valueText, emptyValue] at hc
    | str s =>
      rw [hv] at hc
      have := hvals u s hv
      simp only [isPlainText, List.all_eq_true] at this
      have hc' := this c hc
      simp only [Bool.not_eq_true', Bool.or_eq_false_iff, decide_eq_false_iff_not] at hc'
      exact ⟨hc'.1.1, hc'.2⟩
  have ht : ∀ u, ('{' :: (u ++ ['}'])) ∈ matchesFrom 0 template → '{' ∉ u := by
    intro u hu hm
    obtain ⟨id, e, hi⟩ := hid _ hu
    rw [placeholder_inj u id e] at hm
    exact (isIdentifier_plain id hi _ hm).1 rfl
  obtain ⟨chosen', e, -, h2⟩ := foldl_renderStep values hvals' template ht
    (matchesFrom 0 template) hid (fun _ => false)
  unfold render
  rw [matchRegex_some template hne]
  simp only
  rw [substituteFrom_none] at e
  rw [e]
  unfold substitute
  rw [substituteFrom_congr values chosen' (fun _ => true) template (fun u hu => h2 u hu)]

end Template

namespace Template

/-- C9: for a template whose placeholders are `{identifier}` and a value source of
strings without `{`, `}` and `$`, `render` returns the template with every occurrence of
every placeholder replaced by its value (the empty string for a missing, `null` or
`undefined` value) and the other text unchanged, provided the template has at least
one placeholder; with none, `render` throws a TypeError instead of returning the
template.  The two examples of the claim hold, and `"<p>static</p>"`, a template
without placeholder, is the failing input. -/
theorem render_substitutes_placeholders :
    (∀ (template : Str) (values : Str → Value),
      (∀ p ∈ matchesFrom 0 template,
        ∃ id, p = '{' :: (id ++ ['}']) ∧ isIdentifier id = true) →
      (∀ k s, values k = .str s → isPlainText s = true) →
      (matchesFrom 0 template ≠ [] →
        render template values = .ok (substitute values template)) ∧
      (matchesFrom 0 template = [] → render template values = .typeError)) ∧
    render "<a>{x}</a>{x}".toList xIsZ = .ok "<a>Z</a>Z".toList ∧
    render "{missing}".toList noValues = .ok "".toList ∧
    render "<p>static</p>".toList xIsZ = .typeError := by
  refine ⟨fun template values hid hvals => ⟨?_, ?_⟩, by decide, by decide, by decide⟩
  · exact render_eq_substitute template values hid hvals
  · intro h
    unfold render
    rw [matchRegex_none template h]

theorem xIsZ_plain : ∀ k s, xIsZ k = .str s → isPlainText s = true := by
  intro k s h
  unfold xIsZ at h
  split at h
  · simp only [Value.str.injEq] at h
    subst h
    decide
  · simp at h

theorem twoPlaceholders_identifiers :
    ∀ p ∈ matchesFrom 0 "<b>{x}</b>{y}{x}".toList,
      ∃ id, p = '{' :: (id ++ ['}']) ∧ isIdentifier id = true := by
  have h : matchesFrom 0 "<b>{x}</b>{y}{x}".toList =
      ["{x}".toList, "{y}".toList, "{x}".toList] := by decide
  rw [h]
  intro p hp
  simp only [List.mem_cons, List.mem_singleton, List.not_mem_nil, or_false] at hp
  rcases hp with e | e | e
  · exact ⟨"x".toList, e, by decide⟩
  · exact ⟨"y".toList, e, by decide⟩
  · exact ⟨"x".toList, e, by decide⟩

/-- The theorem of C9 at the template `"<b>{x}</b>{y}{x}"` with the values `{x: "Z"}`. -/
theorem render_substitutes_placeholders_witness :
    (∀ p ∈ matchesFrom 0 "<b>{x}</b>{y}{x}".toList,
      ∃ id, p = '{' :: (id ++ ['}']) ∧ isIdentifier id = true) ∧
    (∀ k s, xIsZ k = .str s → isPlainText s = true) ∧
    matchesFrom 0 "<b>{x}</b>{y}{x}".toList ≠ [] ∧
    render "<b>{x}</b>{y}{x}".toList xIsZ =
      .ok (substitute xIsZ "<b>{x}</b>{y}{x}".toList) ∧
    substitute xIsZ "<b>{x}</b>{y}{x}".toList = "<b>Z</b>Z".toList :=
  ⟨twoPlaceholders_identifiers, xIsZ_plain, by decide,
    (render_substitutes_placeholders.1 "<b>{x}</b>{y}{x}".toList xIsZ
      twoPlaceholders_identifiers xIsZ_plain).1 (by decide),
    by decide⟩

/-- C10, the code on the failing inputs: for a template without placeholder, the empty
template included, `this.template.match(this.regex)` is `null` and `render` throws a
TypeError at `placeholders.forEach`; it does not return the template. -/
theorem render_without_placeholder_throws (template : Str) (values : Str → Value)
    (h : matchesFrom 0 template = []) : render template values = .typeError := by
  unfold render
  rw [matchRegex_none template h]

/-- The theorem of C10 at the template `"hello"` and at the empty template. -/
theorem render_without_placeholder_throws_witness :
    matchesFrom 0 "hello".toList = [] ∧
    render "hello".toList noValues = .typeError ∧
    render [] noValues = .typeError :=
  ⟨by decide, render_without_placeholder_throws "hello".toList noValues (by decide),
    render_without_placeholder_throws [] noValues rfl⟩

end Template

namespace Template

/-! ### The constructor -/

theorem join_eq_intercalate (separator : Str) (xs : List Str) :
    join separator xs = separator.intercalate xs := by
  induction xs with
  | nil => rfl
  | cons x rest ih =>
    cases rest with
    | nil => simp [join, List.intercalate]
    | cons y rest =>
      rw [join, ih]
      simp [List.intercalate, List.intersperse]

theorem map_argText_str (frags : List Str) : (frags.map Arg.str).map argText = frags := by
  induction frags with
  | nil => rfl
  | cons f rest ih => simp [argText, ih]

/-- C11: for the argument list made of the string fragments `frags`, followed or not by
a plain object, the compiled template is the fragments joined with one line feed between
consecutive fragments, and the plain object adds nothing to it.  No argument and a
plain object alone give the empty template, one fragment gives that fragment, with or
without a plain object behind it. -/
theorem init_joins_fragments (frags : List Str) (cfg : Bool) :
    init (frags.map Arg.str ++ (if cfg then [Arg.plainObject] else [])) =
      ['\n'].intercalate frags ∧
    init [] = [] ∧ init [Arg.plainObject] = [] ∧
    (∀ f : Str, init [Arg.str f] = f ∧ init [Arg.str f, Arg.plainObject] = f) := by
  refine ⟨?_, rfl, rfl, fun f => ⟨rfl, by simp [init, isPlainObject, join, argText]⟩⟩
  cases cfg with
  | false =>
    simp only [Bool.false_eq_true, if_false, List.append_nil]
    have hlast : isPlainObject (frags.map Arg.str).getLast? = false := by
      cases h : (frags.map Arg.str).getLast? with
      | none => rfl
      | some a =>
        have hm := List.mem_of_getLast?_eq_some h
        obtain ⟨s, -, e⟩ := List.mem_map.1 hm
        rw [← e]; rfl
    unfold init
    simp only [hlast, Bool.false_eq_true, if_false, map_argText_str]
    cases frags with
    | nil => rfl
    | cons f rest =>
      cases rest with
      | nil => simp [List.intercalate]
      | cons g rest =>
        simp only [List.map_cons, List.length_cons]
        rw [if_neg (by omega), if_neg (by omega)]
        exact join_eq_intercalate _ _
  | true =>
    simp only [if_true]
    unfold init
    simp only [List.getLast?_concat, isPlainObject, if_true, List.dropLast_concat,
      map_argText_str, List.length_append, List.length_map, List.length_singleton]
    cases frags with
    | nil => rfl
    | cons f rest =>
      simp only [List.length_cons]
      rw [if_neg (by omega), if_neg (by omega)]
      exact join_eq_intercalate _ _

end Template

namespace Template

/-- C18, the code on failing inputs: the text that `render` inserts for a placeholder is
scanned again when the next placeholder is replaced, and `replace` expands the `$`
sequences of a value.  For the template `{x}{y}` with `{x: "{y}", y: "Q"}` the code
gives `QQ` where the substitution of all placeholders at once gives `{y}Q`; with
`{x: "$&", y: "a$$b"}` the code gives `{x}a$b` for `{x}{y}` and `{x}` for `{x}`, where
the values inserted verbatim give `$&a$$b` and `$&`. -/
theorem render_reinterprets_inserted_text :
    render "{x}{y}".toList xNamesY = .ok "QQ".toList ∧
    substitute xNamesY "{x}{y}".toList = "{y}Q".toList ∧
    render "{x}{y}".toList dollarValues = .ok "{x}a$b".toList ∧
    substitute dollarValues "{x}{y}".toList = "$&a$$b".toList ∧
    render "{x}".toList dollarValues = .ok "{x}".toList ∧
    substitute dollarValues "{x}".toList = "$&".toList := by
  decide

end Template

/-!
## demo.Util: proofs
-/

namespace Util

open Observable (Val)

theorem innerLoop_unfold (a : List Val) (i j : Nat) :
    innerLoop a i j =
      if j < a.length then
        if a[i]? = a[j]? then innerLoop (a.eraseIdx j) i j else innerLoop a i (j + 1)
      else a := by
  rw [innerLoop]

theorem outerLoop_unfold (a : List Val) (i : Nat) :
    outerLoop a i = if i < a.length then outerLoop (innerLoop a i (i + 1)) (i + 1) else a := by
  rw [outerLoop]

/-- The inner loop keeps everything in front of `j` and drops behind it what equals
`a[i]`. -/
theorem innerLoop_spec (x : Val) (i : Nat) :
    ∀ (n : Nat) (a : List Val) (j : Nat), a.length - j ≤ n → i < j → a[i]? = some x →
      innerLoop a i j = a.take j ++ (a.drop j).filter (fun y => decide (y ≠ x)) := by
  intro n
  induction n with
  | zero =>
    intro a j hn hij hx
    rw [innerLoop_unfold, if_neg (by omega)]
    rw [List.drop_of_length_le (by omega), List.take_of_length_le (by omega)]
    simp
  | succ n ih =>
    intro a j hn hij hx
    rw [innerLoop_unfold]
    by_cases hj : j < a.length
    · rw [if_pos hj]
      have hdrop : a.drop j = a[j] :: a.drop (j + 1) := List.drop_eq_getElem_cons hj
      have hget : a[j]? = some a[j] := List.getElem?_eq_getElem hj
      by_cases heq : a[i]? = a[j]?
      · rw [if_pos heq]
        have hxj : a[j] = x := by
          rw [hx, hget] at heq
          exact (Option.some.inj heq).symm
        have hlen : (a.eraseIdx j).length = a.length - 1 := by
          rw [List.length_eraseIdx]; simp [hj]
        have hi : (a.eraseIdx j)[i]? = some x := by
          rw [List.getElem?_eraseIdx, if_pos hij]; exact hx
        rw [ih (a.eraseIdx j) j (by omega) hij hi]
        rw [List.eraseIdx_eq_take_drop_succ]
        have htl : (a.take j).length = j := by
          rw [List.length_take]; omega
        rw [List.take_append_eq_append_take, List.drop_append_eq_append_drop, htl]
        simp only [Nat.sub_self, List.take_zero, List.append_nil, List.drop_zero]
        rw [List.take_take, Nat.min_self, List.drop_take, Nat.sub_self, List.take_zero,
          List.nil_append, hdrop, List.filter_cons, hxj]
        simp
      · rw [if_neg heq]
        have hxj : a[j] ≠ x := by
          intro h
          apply heq
          rw [hx, hget, h]
        rw [ih a (j + 1) (by omega) (by omega) hx]
        have ht : a.take (j + 1) = a.take j ++ [a[j]] := by
          rw [List.take_succ, hget]; rfl
        rw [hdrop, List.filter_cons, if_pos (by simpa using hxj), ht, List.append_assoc]
        rfl
    · rw [if_neg hj]
      rw [List.drop_of_length_le (by omega), List.take_of_length_le (by omega)]
      simp

theorem firstOccurrences_filter (p : Val → Bool) :
    ∀ l : List Val, firstOccurrences (l.filter p) = (firstOccurrences l).filter p
  | [] => rfl
  | x :: rest => by
    rw [List.filter_cons]
    by_cases hp : p x = true
    · rw [if_pos hp]
      simp only [firstOccurrences]
      rw [List.filter_cons, if_pos hp, firstOccurrences_filter p rest, List.filter_filter,
        List.filter_filter]
      congr 1
      apply List.filter_congr
      intro y _
      exact Bool.and_comm _ _
    · rw [if_neg hp, firstOccurrences_filter p rest]
      simp only [firstOccurrences]
      rw [List.filter_cons, if_neg hp, List.filter_filter]
      apply List.filter_congr
      intro y _
      by_cases hy : y = x
      · subst hy
        simp [hp]
      · simp [hy]

/-- The outer loop leaves the first `i` elements alone and reduces the rest to the
first occurrences. -/
theorem outerLoop_spec :
    ∀ (n : Nat) (a : List Val) (i : Nat), a.length - i ≤ n →
      outerLoop a i = a.take i ++ firstOccurrences (a.drop i) := by
  intro n
  induction n with
  | zero =>
    intro a i hn
    rw [outerLoop_unfold, if_neg (by omega), List.drop_of_length_le (by omega),
      List.take_of_length_le (by omega)]
    simp [firstOccurrences]
  | succ n ih =>
    intro a i hn
    rw [outerLoop_unfold]
    by_cases hi : i < a.length
    · rw [if_pos hi]
      have hget : a[i]? = some a[i] := List.getElem?_eq_getElem hi
      have hdrop : a.drop i = a[i] :: a.drop (i + 1) := List.drop_eq_getElem_cons hi
      have hin := innerLoop_spec a[i] i (a.length - (i + 1)) a (i + 1) (Nat.le_refl _)
        (by omega) hget
      have htl : (a.take (i + 1)).length = i + 1 := by
        rw [List.length_take]; omega
      have hlen : (innerLoop a i (i + 1)).length ≤ a.length := by
        rw [hin, List.length_append, htl]
        have h1 := List.length_filter_le (fun y => decide (y ≠ a[i])) (a.drop (i + 1))
        rw [List.length_drop] at h1
        omega
      rw [ih _ (i + 1) (by omega), hin]
      rw [List.take_append_eq_append_take, List.drop_append_eq_append_drop, htl]
      simp only [Nat.sub_self, List.take_zero, List.append_nil, List.drop_zero]
      rw [List.take_take, Nat.min_self, List.drop_take, Nat.sub_self, List.take_zero,
        List.nil_append, firstOccurrences_filter, hdrop]
      have ht : a.take (i + 1) = a.take i ++ [a[i]] := by
        rw [List.take_succ, hget]; rfl
      rw [ht, List.append_assoc]
      rfl
    · rw [if_neg hi, List.drop_of_length_le (by omega), List.take_of_length_le (by omega)]
      simp [firstOccurrences]

theorem getUnique_eq_firstOccurrences (array : List Val) :
    getUnique array = firstOccurrences array := by
  unfold getUnique
  rw [outerLoop_spec _ _ 0 (Nat.le_refl _)]
  simp

theorem mem_firstOccurrences : ∀ (l : List Val) (x : Val), x ∈ firstOccurrences l ↔ x ∈ l
  | [], x => by simp [firstOccurrences]
  | y :: rest, x => by
    simp only [firstOccurrences, List.mem_cons, List.mem_filter, mem_firstOccurrences rest x]
    by_cases h : x = y
    · simp [h]
    · simp [h]

theorem firstOccurrences_nodup : ∀ l : List Val, (firstOccurrences l).Nodup
  | [] => List.nodup_nil
  | x :: rest => by
    simp only [firstOccurrences]
    rw [List.nodup_cons]
    refine ⟨?_, (firstOccurrences_nodup rest).filter _⟩
    simp [List.mem_filter]

theorem firstOccurrences_sublist : ∀ l : List Val, (firstOccurrences l).Sublist l
  | [] => List.Sublist.slnil
  | x :: rest => by
    simp only [firstOccurrences]
    exact ((List.filter_sublist _).trans (firstOccurrences_sublist rest)).cons₂ x

/-- C17: `getUnique(a)` returns a new array (a reference that was not in the store
before, so none of the arrays of the store is it) whose elements are those of `a` in the
order of their first occurrence: it is `firstOccurrences a`, a sublist of `a` that begins
with the first element of `a`, no two of its elements are strictly equal, and a value is
in it exactly when it is in `a`; every array that was in the store, the input among them,
has the elements it had. -/
theorem getUnique_first_occurrences (store : List (List Val)) (array : Nat) :
    (getUniqueRef store array).2 = store.length ∧
    (getUniqueRef store array).1.getD (getUniqueRef store array).2 [] =
      getUnique (store.getD array []) ∧
    (∀ r, r < store.length → (getUniqueRef store array).1.getD r [] = store.getD r []) ∧
    getUnique (store.getD array []) = firstOccurrences (store.getD array []) ∧
    (getUnique (store.getD array [])).Nodup ∧
    (∀ x, x ∈ getUnique (store.getD array []) ↔ x ∈ store.getD array []) ∧
    (getUnique (store.getD array [])).Sublist (store.getD array []) ∧
    (getUnique (store.getD array [])).head? = (store.getD array []).head? := by
  have hspec := getUnique_eq_firstOccurrences (store.getD array [])
  refine ⟨rfl, ?_, ?_, hspec, ?_, ?_, ?_, ?_⟩
  · simp [getUniqueRef, getUnique, List.getD_eq_getElem?_getD, List.getElem?_set]
  · intro r hr
    simp only [getUniqueRef, List.getD_eq_getElem?_getD]
    rw [List.getElem?_set_ne (by omega), List.getElem?_append_left hr]
  · rw [hspec]; exact firstOccurrences_nodup _
  · intro x; rw [hspec]; exact mem_firstOccurrences _ x
  · rw [hspec]; exact firstOccurrences_sublist _
  · rw [hspec]
    cases store.getD array [] <;> simp [firstOccurrences]

end Util

namespace Observable

/-- With handlers that do not dispatch and register function objects only, the loop
of a dispatch returns and every binding is still a function object. -/
theorem forEachLoop_quiet (fns : Nat → Handler)
    (fire : String → List Val → State → Outcome (State × Bool))
    (hq : ∀ i, ∀ c ∈ (fns i).body, c.isFire = false ∧ c.registersFn = true)
    (r : Option Nat) (args : List Val) (n k : Nat) (s : State) (hs : Callable s) :
    ∃ s', forEachLoop fns fire r args n k s = .ok s' ∧ Callable s' := by
  induction n generalizing k s with
  | zero => exact ⟨s, rfl, hs⟩
  | succ n ih =>
    cases hb : (arrayOf s r)[k]? with
    | none =>
      obtain ⟨s', e, c⟩ := ih (k + 1) s hs
      exact ⟨s', by simp only [forEachLoop, hb, e], c⟩
    | some b =>
      obtain ⟨i, hi⟩ := isFn_eq b.fn (arrayOf_mem_callable s r k b hs hb)
      obtain ⟨fn, scope⟩ := b
      simp only at hi
      subst hi
      obtain ⟨s1, e1, -, -, c1, -⟩ := applyBinding_noFire fns fire i scope args s
        (fun c hc => (hq i c hc).1)
      have hs1 : Callable s1 := c1 (fun c hc => (hq i c hc).2) hs
      obtain ⟨s', e, c⟩ := ih (k + 1)
        { s1 with result := s1.result && decide ((fns i).ret scope args ≠ Val.bool false) } hs1
      exact ⟨s', by simp only [forEachLoop, hb, e1, e], c⟩

/-- With handlers that do not dispatch and register function objects only, a dispatch
returns and every binding is still a function object. -/
theorem fireEvent_quiet (fns : Nat → Handler)
    (hq : ∀ i, ∀ c ∈ (fns i).body, c.isFire = false ∧ c.registersFn = true)
    (fuel : Nat) (type : String) (args : List Val) (s : State) (hs : Callable s) :
    ∃ s' r, fireEvent fns (fuel + 1) type args s = .ok (s', r) ∧ Callable s' := by
  obtain ⟨s', e, c⟩ := forEachLoop_quiet fns (fireEvent fns fuel) hq
    (s.events.lookup type) args (arrayOf s (s.events.lookup type)).length 0
    { s with eventType := s.events.lookup type, result := true } hs
  exact ⟨s', s'.result, by rw [fireEvent_unfold, e], c⟩

end Observable

/-!
## demo.ui.Component and demo.ui.Panel: proofs
-/

namespace UI

open Observable (Val)
open Template (Str Value)

/-! ### The document -/

theorem length_mapAt (f : Node → Node) (elems : List Nat) :
    ∀ (dom : List Node) (i : Nat), (mapAt f elems i dom).length = dom.length
  | [], _ => rfl
  | _ :: rest, i => by simp [mapAt, length_mapAt f elems rest (i + 1)]

theorem getElem?_mapAt (f : Node → Node) (elems : List Nat) :
    ∀ (dom : List Node) (i j : Nat),
      (mapAt f elems i dom)[j]? =
        (dom[j]?).map (fun nd => if i + j ∈ elems then f nd else nd)
  | [], _, _ => by simp [mapAt]
  | nd :: rest, i, 0 => by simp [mapAt]
  | nd :: rest, i, j + 1 => by
    simp only [mapAt, List.getElem?_cons_succ]
    rw [getElem?_mapAt f elems rest (i + 1) j]
    have : i + 1 + j = i + (j + 1) := by omega
    rw [this]

theorem childList_mapAt_same (f : Node → Node) (hf : ∀ nd, (f nd).children = nd.children)
    (elems : List Nat) (dom : List Node) (j : Nat) :
    childList (mapAt f elems 0 dom) j = childList dom j := by
  unfold childList
  rw [getElem?_mapAt]
  cases dom[j]? with
  | none => rfl
  | some nd =>
    simp only [Option.map_some', Nat.zero_add]
    split <;> simp [hf]

theorem classList_mapAt_same (f : Node → Node) (hf : ∀ nd, (f nd).classes = nd.classes)
    (elems : List Nat) (dom : List Node) (j : Nat) :
    classList (mapAt f elems 0 dom) j = classList dom j := by
  unfold classList
  rw [getElem?_mapAt]
  cases dom[j]? with
  | none => rfl
  | some nd =>
    simp only [Option.map_some', Nat.zero_add]
    split <;> simp [hf]

/-- The children after `append` into one element: the target has the content behind
what it had, every element has lost the content it had. -/
theorem childList_append (t : Nat) (content : List Nat) (dom : List Node) (j : Nat)
    (hj : j < dom.length) :
    ∃ d, append [t] content dom = some d ∧ d.length = dom.length ∧
      childList d j =
        (childList dom j).filter (fun c => decide (c ∉ content)) ++
          (if j = t then content else []) := by
  refine ⟨_, rfl, by simp [length_mapAt], ?_⟩
  unfold childList
  rw [getElem?_mapAt, List.getElem?_map, List.getElem?_eq_getElem hj]
  simp only [Option.map_some', Nat.zero_add, List.mem_singleton]
  split <;> simp

/-- An element that was in the store before `append` is in it afterwards, and only
its children may differ. -/
theorem getElem?_append (targets content : List Nat) (dom d : List Node)
    (h : append targets content dom = some d) (j : Nat) :
    d.length = dom.length ∧
      (d[j]?).map (fun nd => (nd.classes, nd.text, nd.hidden, nd.position)) =
        (dom[j]?).map (fun nd => (nd.classes, nd.text, nd.hidden, nd.position)) := by
  match targets, h with
  | [], h =>
    simp only [append, Option.some.injEq] at h
    subst h
    exact ⟨rfl, rfl⟩
  | [t], h =>
    simp only [append, Option.some.injEq] at h
    subst h
    refine ⟨by simp [length_mapAt], ?_⟩
    rw [getElem?_mapAt, List.getElem?_map]
    cases dom[j]? with
    | none => rfl
    | some nd =>
      simp only [Option.map_some', Nat.zero_add, List.mem_singleton]
      split <;> rfl

/-! ### Events -/

/-- With handlers that do not dispatch, `fireEvent` of a component returns: the event
is noted, the registry still holds function objects only, and nothing else of the
component has changed. -/
theorem Component.fireEvent_returns (fns : Nat → Observable.Handler)
    (hq : ∀ i, ∀ c ∈ (fns i).body, c.isFire = false ∧ c.registersFn = true)
    (fuel : Nat) (type : String) (args : List Val) (u : State)
    (hs : Observable.Callable u.obs) :
    ∃ s', Observable.Callable s' ∧
      Component.fireEvent fns (fuel + 1) type args u =
        .ok { u with obs := s', fired := u.fired ++ [(type, args)] } := by
  obtain ⟨s', r, e, c⟩ := Observable.fireEvent_quiet fns hq fuel type args u.obs hs
  exact ⟨s', c, by simp only [Component.fireEvent, e]⟩

end UI

namespace UI

open Observable (Val)
open Template (Str Value)

/-! ### render -/

theorem getElem?_addClass_ne (value : Str) (elems : List Nat) (dom : List Node) (j : Nat)
    (hj : j ∉ elems) : (addClass value elems dom)[j]? = dom[j]? := by
  unfold addClass
  rw [getElem?_mapAt]
  cases dom[j]? with
  | none => rfl
  | some nd => simp [hj]

theorem childList_addClass (value : Str) (elems : List Nat) (dom : List Node) (j : Nat) :
    childList (addClass value elems dom) j = childList dom j := by
  unfold addClass
  apply childList_mapAt_same
  intro nd
  rfl

theorem length_addClass (value : Str) (elems : List Nat) (dom : List Node) :
    (addClass value elems dom).length = dom.length := length_mapAt _ _ _ _

/-- The elements that were in the store before `render` built the node are as they
were. -/
theorem Component.withNode_frame (env : Env) (markup : Str) (r : Nat) (v : State) (j : Nat)
    (hj : j < v.dom.length) : (Component.withNode env markup r v).dom[j]? = v.dom[j]? := by
  unfold Component.withNode
  simp only
  rw [getElem?_addClass_ne _ _ _ _ (by simp; omega), List.getElem?_append_left hj]

/-- A target without element, or no target: `render` builds the node and returns. -/
theorem Component.renderInto_detached (env : Env) (fns : Nat → Observable.Handler)
    (fuel : Nat) (container : Option JQ) (v : State) (markup : Str) (r : Nat)
    (ht : Template.render v.template v.props = .ok markup)
    (hr : (env.parse markup).roots = [r])
    (hc : ∀ c, container = some c → c.elems = []) :
    Component.renderInto env fns fuel container v = .ok (Component.withNode env markup r v) := by
  unfold Component.renderInto
  rw [ht]
  cases container with
  | none =>
    simp only [build, jQuery, hr, Component.withNode, List.map_cons, List.map_nil]
    rfl
  | some c =>
    simp only [hc c rfl, build, jQuery, hr, Component.withNode, List.map_cons, List.map_nil,
      List.length_nil, gt_iff_lt, Nat.lt_irrefl, decide_False]
    rfl

/-- A target of one element: `render` builds the node, inserts it and fires
`render`. -/
theorem Component.renderInto_attached (env : Env) (fns : Nat → Observable.Handler)
    (hq : ∀ i, ∀ c ∈ (fns i).body, c.isFire = false ∧ c.registersFn = true)
    (fuel : Nat) (c : JQ) (t : Nat) (v : State) (markup : Str) (r : Nat)
    (hs : Observable.Callable v.obs)
    (ht : Template.render v.template v.props = .ok markup)
    (hr : (env.parse markup).roots = [r])
    (hc : c.elems = [t]) :
    ∃ s' d, Observable.Callable s' ∧
      append [t] [r + v.dom.length] (Component.withNode env markup r v).dom = some d ∧
      Component.renderInto env fns (fuel + 1) (some c) v =
        .ok { Component.withNode env markup r v with
              obs := s', container := some c, dom := d, rendered := true,
              fired := v.fired ++ [("render", [v.self, Val.obj v.nextId, c.val])] } := by
  obtain ⟨s', hs', e⟩ := Component.fireEvent_returns fns hq fuel "render"
    [v.self, Val.obj v.nextId, c.val]
    { Component.withNode env markup r v with
      container := some c,
      dom := mapAt (fun nd => { nd with children := nd.children ++ [r + v.dom.length] }) [t] 0
        ((Component.withNode env markup r v).dom.map (fun nd =>
          { nd with children :=
              nd.children.filter (fun x => decide (x ∉ [r + v.dom.length])) })),
      rendered := true } hs
  refine ⟨s', _, hs', rfl, ?_⟩
  unfold Component.renderInto
  rw [ht]
  simp only [hc, build, jQuery, hr, List.map_cons, List.map_nil, List.length_singleton,
    gt_iff_lt, Nat.lt_one_iff, Nat.zero_lt_one, decide_True, Component.insertInto, elemsOf,
    append, Res.bind, JQ.val]
  exact e

end UI

namespace UI

open Observable (Val)
open Template (Str Value)

/-- The first statement of `render` changes nothing of the component but the counter
of jQuery objects, and its result is the target of the specification. -/
theorem Component.resolveContainer_eq (env : Env) (container : Option JQ) (u : State) :
    (Component.resolveContainer env container u).1 = Component.target env container u ∧
    ∃ n, (Component.resolveContainer env container u).2 = { u with nextId := n } := by
  cases container with
  | some c => exact ⟨rfl, u.nextId, rfl⟩
  | none =>
    by_cases hsel : prop u "containerSelector" = []
    · refine ⟨?_, u.nextId, ?_⟩ <;> simp [Component.resolveContainer, Component.target, hsel]
    · refine ⟨?_, u.nextId + 1, ?_⟩ <;>
        simp [Component.resolveContainer, Component.target, hsel, jQuery]

theorem getLast?_childList_append (t n : Nat) (dom d : List Node) (ht : t < dom.length)
    (h : append [t] [n] dom = some d) : (childList d t).getLast? = some n := by
  obtain ⟨d', e, -, hc⟩ := childList_append t [n] dom t ht
  rw [e] at h
  cases h
  rw [hc]
  simp

/-- A component whose template has no placeholder: `render` throws the TypeError of
`Template.render`. -/
theorem Component.render_static_throws (env : Env) (fns : Nat → Observable.Handler)
    (fuel : Nat) (container : Option JQ) (v : State)
    (h : Template.matchesFrom 0 v.template = []) :
    Component.render env fns fuel container v = .typeError := by
  obtain ⟨-, n, hv⟩ := Component.resolveContainer_eq env container v
  unfold Component.render Component.renderInto
  rw [hv]
  simp only [Template.render, Template.matchRegex_none v.template h]

set_option maxRecDepth 100000 in
/-- C12: `render(container)` of a component whose template renders to the markup of one
element, with handlers that do not dispatch.  The target is the container given as
argument, else what the configured selector finds, else none.  When the target is one
element of the document, the call returns, the new node is the last child of the
target, `rendered` is true, `$container` is the target and the one event fired is
`render` with the component, the node and the container.  When there is no target or
the target has no element, the call returns with the node built, the elements of the
document as they were, and `rendered`, `$container` and the events fired unchanged.
The failing input: for a component whose template has no placeholder `render` throws a
TypeError, whatever the container; so it does for the component with the template
`<div></div>` and the container `#app`. -/
theorem Component.render_attaches_to_target (env : Env) (fns : Nat → Observable.Handler)
    (fuel : Nat) (container : Option JQ) (u : State) (markup : Str) (r : Nat)
    (hq : ∀ i, ∀ c ∈ (fns i).body, c.isFire = false ∧ c.registersFn = true)
    (hs : Observable.Callable u.obs)
    (ht : Template.render u.template u.props = .ok markup)
    (hr : (env.parse markup).roots = [r]) :
    (Component.resolveContainer env container u).1 = Component.target env container u ∧
    (∀ c t, Component.target env container u = some c → c.elems = [t] → t < u.dom.length →
      ∃ u' h, Component.render env fns (fuel + 1) container u = .ok u' ∧
        u'.html = some h ∧ h.elems = [r + u.dom.length] ∧
        (childList u'.dom t).getLast? = some (r + u.dom.length) ∧
        u'.rendered = true ∧ u'.container = some c ∧
        u'.fired = u.fired ++ [("render", [u.self, h.val, c.val])]) ∧
    ((∀ c, Component.target env container u = some c → c.elems = []) →
      ∃ u' h, Component.render env fns (fuel + 1) container u = .ok u' ∧
        u'.html = some h ∧ h.elems = [r + u.dom.length] ∧
        (∀ j, j < u.dom.length → u'.dom[j]? = u.dom[j]?) ∧
        u'.rendered = u.rendered ∧ u'.container = u.container ∧ u'.fired = u.fired) ∧
    (∀ (c : Option JQ) (v : State), Template.matchesFrom 0 v.template = [] →
      Component.render env fns fuel c v = .typeError) ∧
    Template.matchesFrom 0 staticComponent.template = [] ∧
    (Component.render browser Observable.plainHandlers 1 (some app) staticComponent).threw =
      true := by
  obtain ⟨htarget, n, hv⟩ := Component.resolveContainer_eq env container u
  refine ⟨htarget, ?_, ?_,
    fun c v h => Component.render_static_throws env fns fuel c v h, by decide, by decide⟩
  · intro c t hc he hlt
    obtain ⟨s', d, -, hd, e⟩ := Component.renderInto_attached env fns hq fuel c t
      { u with nextId := n } markup r hs ht hr he
    refine ⟨{ Component.withNode env markup r { u with nextId := n } with
        obs := s', container := some c, dom := d, rendered := true,
        fired := u.fired ++ [("render", [u.self, Val.obj n, c.val])] },
      ⟨n, [r + u.dom.length]⟩, ?_, rfl, rfl, ?_, rfl, rfl, rfl⟩
    · unfold Component.render
      rw [htarget, hc, hv]
      exact e
    · exact getLast?_childList_append t _ _ d
        (by simp only [Component.withNode, length_addClass, List.length_append]; omega) hd
  · intro hc
    refine ⟨Component.withNode env markup r { u with nextId := n }, ⟨n, [r + u.dom.length]⟩,
      ?_, rfl, rfl, ?_, rfl, rfl, rfl⟩
    · unfold Component.render
      rw [htarget, hv]
      exact Component.renderInto_detached env fns (fuel + 1) _ { u with nextId := n } markup r
        ht hr hc
    · intro j hj
      exact Component.withNode_frame env markup r { u with nextId := n } j hj

theorem defaultComponent_callable : Observable.Callable defaultComponent.obs := by
  unfold Observable.Callable; decide

/-- The theorem of C12 at the default component, rendered into the element `#app`
given as argument. -/
theorem Component.render_attaches_to_target_witness :
    (∀ i, ∀ c ∈ (Observable.plainHandlers i).body, c.isFire = false ∧ c.registersFn = true) ∧
    Observable.Callable defaultComponent.obs ∧
    Template.render defaultComponent.template defaultComponent.props = .ok componentMarkup ∧
    (browser.parse componentMarkup).roots = [0] ∧
    Component.target browser (some app) defaultComponent = some app ∧ app.elems = [0] ∧
    0 < defaultComponent.dom.length ∧
    ∃ u' h, Component.render browser Observable.plainHandlers 1 (some app) defaultComponent =
        .ok u' ∧
      u'.html = some h ∧ h.elems = [0 + defaultComponent.dom.length] ∧
      (childList u'.dom 0).getLast? = some (0 + defaultComponent.dom.length) ∧
      u'.rendered = true ∧ u'.container = some app ∧
      u'.fired = defaultComponent.fired ++
        [("render", [defaultComponent.self, h.val, app.val])] :=
  ⟨Observable.plainHandlers_quiet, defaultComponent_callable, by decide, by decide, rfl, rfl,
    by decide,
    (Component.render_attaches_to_target browser Observable.plainHandlers 0 (some app)
      defaultComponent componentMarkup 0 Observable.plainHandlers_quiet
      defaultComponent_callable (by decide) (by decide)).2.1 app 0 rfl rfl (by decide)⟩

end UI

namespace UI

open Observable (Val)
open Template (Str Value)

set_option maxRecDepth 100000 in
/-- C13, the code on the failing input: `render` of `demo.ui.Panel` declares no
parameter and calls `this._super()` without one, so the container given to
`panel.render(c)` never reaches `render` of `demo.ui.Component`: for every panel the
call with a container is the call without.  For the default panel, which has no
`containerSelector`, and the existing element `#app` as container, the call returns with
the node built (`$html` holds the new element 1) but `rendered` is false, `$container`
is `null`, no event is fired and `#app`, the element 0, has no child.  The same call on
the default component attaches the node: `rendered` is true, `$container` is the
container, `render` is fired with the component, the node and the container, and the
node is the child of `#app`. -/
theorem Panel.render_drops_container :
    (∀ (env : Env) (fns : Nat → Observable.Handler) (fuel : Nat) (c : JQ) (u : State),
      dispatchRender env fns fuel (some c) { u with isPanel := true } =
        dispatchRender env fns fuel none { u with isPanel := true }) ∧
    prop defaultPanel "containerSelector" = [] ∧
    (dispatchRender browser Observable.plainHandlers 1 (some app) defaultPanel).value?.map
        State.view =
      some ⟨false, none, some ⟨8, [1]⟩, none, some ⟨10, [5]⟩, [],
        [element [] [] "", element ["panel"] [2, 5] "", element ["titlebar"] [3, 4] "",
          element [] [] "Panel",
          ⟨["collapse-tool".toList], [], [], false, "static".toList, 1⟩,
          element ["body"] [] ""]⟩ ∧
    (dispatchRender browser Observable.plainHandlers 1 (some app) defaultComponent).value?.map
        State.view =
      some ⟨true, some app, some ⟨8, [1]⟩, none, none,
        [("render", [Val.obj 7, Val.obj 8, Val.obj 1])],
        [element [] [1] "", element [] [] ""]⟩ := by
  refine ⟨fun _ _ _ _ _ => rfl, by decide, by decide, by decide⟩

end UI

namespace UI

open Observable (Val)
open Template (Str Value)

/-! ### mask -/

/-- The statements of `createMask` before the template is rendered change the
position of elements only. -/
theorem Component.positioned_eq (mc : JQ) (u : State) :
    ∃ d : List Node, Component.positioned mc u = { u with dom := d } ∧
      d.length = u.dom.length ∧
      ∀ j : Nat, (d[j]?).map (fun nd => (nd.classes, nd.children, nd.text, nd.hidden)) =
        (u.dom[j]?).map (fun nd => (nd.classes, nd.children, nd.text, nd.hidden)) := by
  unfold Component.positioned
  simp only
  split
  · refine ⟨_, rfl, length_mapAt _ _ _ _, ?_⟩
    intro j
    unfold setPosition
    rw [getElem?_mapAt]
    cases u.dom[j]? with
    | none => rfl
    | some nd =>
      simp only [Option.map_some', Nat.zero_add]
      split <;> rfl
  · exact ⟨u.dom, rfl, rfl, fun _ => rfl⟩

/-- The document after the first `mask`: the elements of `dom`, with the overlay `o`
hidden by `hide()`, appended to `c` and shown by `show()`. -/
theorem getElem?_overlay (o c : Nat) (dom : List Node) (j : Nat) :
    (setHidden false [o]
      (mapAt (fun nd => { nd with children := nd.children ++ [o] }) [c] 0
        ((setHidden true [o] dom).map (fun nd =>
          { nd with children := nd.children.filter (fun x => decide (x ∉ [o])) }))))[j]? =
      (dom[j]?).map (fun nd =>
        { nd with
          children := nd.children.filter (fun x => decide (x ∉ [o])) ++
            (if j = c then [o] else []),
          hidden := if j = o then false else nd.hidden }) := by
  unfold setHidden
  rw [getElem?_mapAt, getElem?_mapAt, List.getElem?_map, getElem?_mapAt]
  cases dom[j]? with
  | none => rfl
  | some nd =>
    simp only [Option.map_some', Nat.zero_add, List.mem_singleton]
    by_cases h1 : j = o
    · subst h1
      by_cases h2 : j = c
      · subst h2; simp
      · simp [h2]
    · by_cases h2 : j = c
      · subst h2; simp [h1]
      · simp [h1, h2]

/-- The first `mask(message)` of a component whose mask container is the one element
`c` of the document, and whose mask template renders to markup with the one top-level
element `r`: the call returns, `$mask` is a new jQuery object with the new element
`o = r + dom.length`; the elements are those of the document and of the markup, `o`
taken out of every list of children and put behind the children of `c`, and `o` is
shown. -/
theorem Component.mask_first (env : Env) (message : Value) (u : State) (mc : JQ) (c : Nat)
    (markup : Str) (r : Nat)
    (hm : u.mask = none)
    (hc : dispatchGetMaskContainer u = some mc) (hce : mc.elems = [c])
    (ht : Template.render u.maskTemplate
      (Component.maskValues u.props (Component.maskMessage message u)) = .ok markup)
    (hr : (env.parse markup).roots = [r]) :
    ∃ d d1 : List Node, Component.positioned mc u = { u with dom := d } ∧
      d.length = u.dom.length ∧
      (∀ j : Nat, (d[j]?).map (fun nd => (nd.classes, nd.children, nd.text, nd.hidden)) =
        (u.dom[j]?).map (fun nd => (nd.classes, nd.children, nd.text, nd.hidden))) ∧
      Component.mask env message u =
        .ok { u with mask := some ⟨u.nextId, [r + u.dom.length]⟩, nextId := u.nextId + 1,
                     dom := d1 } ∧
      d1.length = u.dom.length + (env.parse markup).nodes.length ∧
      ∀ j : Nat, d1[j]? =
        ((d ++ (env.parse markup).nodes.map (Node.shift u.dom.length))[j]?).map (fun nd =>
          { nd with
            children := nd.children.filter (fun x => decide (x ∉ [r + u.dom.length])) ++
              (if j = c then [r + u.dom.length] else []),
            hidden := if j = r + u.dom.length then false else nd.hidden }) := by
  obtain ⟨d, hd, hlen, hsame⟩ := Component.positioned_eq mc u
  refine ⟨d, _, hd, hlen, hsame, ?_, ?_, fun j => getElem?_overlay (r + u.dom.length) c
    (d ++ (env.parse markup).nodes.map (Node.shift u.dom.length)) j⟩
  rotate_left
  · simp [setHidden, length_mapAt, hlen]
  unfold Component.mask Component.createMask
  simp only [hm, Option.isSome_none, Bool.false_eq_true, if_false, hc, hd, ht, build, jQuery,
    hr, hce, List.map_cons, List.map_nil, append, Res.bind, hlen]

end UI

namespace UI

open Observable (Val)
open Template (Str Value)

theorem childList_eq_of_getElem? (d d' : List Node) (j j' : Nat)
    (h : (d[j]?).map (fun nd => nd.children) = (d'[j']?).map (fun nd => nd.children)) :
    childList d j = childList d' j' := by
  unfold childList
  cases h1 : d[j]? <;> cases h2 : d'[j']? <;> simp_all

/-- The children of an element after the first `mask`, in terms of the document
before it: the overlay `o` is the last child of the mask container `c`, and it has been
taken out of the children of every element. -/
theorem childList_overlay (u : State) (d d1 : List Node) (nodes : List Node) (o c : Nat)
    (hlen : d.length = u.dom.length)
    (hd1 : ∀ j : Nat, d1[j]? =
      ((d ++ nodes)[j]?).map (fun nd =>
        { nd with
          children := nd.children.filter (fun x => decide (x ∉ [o])) ++
            (if j = c then [o] else []),
          hidden := if j = o then false else nd.hidden }))
    (hlt : c < u.dom.length) (j : Nat) :
    (o ∈ childList d1 j ↔ j = c) ∧ (childList d1 j).count o = (if j = c then 1 else 0) := by
  have hc : childList d1 j =
      (childList (d ++ nodes) j).filter (fun x => decide (x ∉ [o])) ++
        (if j = c then [o] else []) := by
    unfold childList
    rw [hd1 j]
    cases hj : (d ++ nodes)[j]? with
    | some nd => rfl
    | none =>
      have : (d ++ nodes).length ≤ j := List.getElem?_eq_none_iff.1 hj
      have hne : j ≠ c := by
        rw [List.length_append] at this
        omega
      simp [hne]
  rw [hc]
  have hnot : o ∉ (childList (d ++ nodes) j).filter (fun x => decide (x ∉ [o])) := by
    simp [List.mem_filter]
  have hzero := List.count_eq_zero_of_not_mem hnot
  by_cases hj : j = c
  · rw [if_pos hj, List.count_append, hzero]
    exact ⟨⟨fun _ => hj, fun _ => List.mem_append_right _ (List.mem_singleton_self o)⟩,
      by simp [hj]⟩
  · rw [if_neg hj, List.append_nil]
    exact ⟨⟨fun h => absurd h hnot, fun h => absurd h hj⟩, by rw [hzero, if_neg hj]⟩

/-- A component without mask whose mask template has no placeholder: `mask` throws the
TypeError of `Template.render`. -/
theorem Component.mask_static_throws (env : Env) (message : Value) (v : State) (mc : JQ)
    (hm : v.mask = none) (hc : dispatchGetMaskContainer v = some mc)
    (h : Template.matchesFrom 0 v.maskTemplate = []) :
    Component.mask env message v = .typeError := by
  obtain ⟨d, hd, -, -⟩ := Component.positioned_eq mc v
  unfold Component.mask Component.createMask
  simp only [hm, Option.isSome_none, Bool.false_eq_true, if_false, hc, hd, Template.render,
    Template.matchRegex_none v.maskTemplate h, Res.bind]

set_option maxRecDepth 100000 in
/-- C16: the first `mask()` of a component or panel that has no mask yet, whose mask
container is one element `c` of the document and whose mask template renders to the
markup of one element.  The mask container is `getMaskContainer()` of the class of the
object: `$html`, the own node, for a component and `$body` for a panel.  The call
returns, `$mask` holds the new element, and that element is a child of `c` and of no
other element: for a panel whose body is not its main node and not in its titlebar,
the overlay is not a child of the main node and not of the titlebar.  The failing
input: for a component whose mask template has no placeholder the first `mask()` throws
a TypeError and appends nothing; so it does for the rendered default component
configured with the mask template `<div class="mask"></div>`. -/
theorem Component.mask_appends_to_mask_container (env : Env) (message : Value) (u : State)
    (mc : JQ) (c : Nat) (markup : Str) (r : Nat)
    (hm : u.mask = none)
    (hc : dispatchGetMaskContainer u = some mc) (hce : mc.elems = [c])
    (hlt : c < u.dom.length)
    (ht : Template.render u.maskTemplate
      (Component.maskValues u.props (Component.maskMessage message u)) = .ok markup)
    (hr : (env.parse markup).roots = [r]) :
    dispatchGetMaskContainer u = (if u.isPanel then u.body else u.html) ∧
    (∃ u1 k, Component.mask env message u = .ok u1 ∧ u1.mask = some k ∧
      k.elems = [r + u.dom.length] ∧
      u1.html = u.html ∧ u1.body = u.body ∧ u1.titlebar = u.titlebar ∧
      (∀ j, r + u.dom.length ∈ childList u1.dom j ↔ j = c) ∧
      (u.isPanel = true →
        (∀ e ∈ elemsOf u.html, e ≠ c → r + u.dom.length ∉ childList u1.dom e) ∧
        (∀ e ∈ elemsOf u.titlebar, e ≠ c → r + u.dom.length ∉ childList u1.dom e))) ∧
    (∀ (v : State) (mc1 : JQ) (m : Value), v.mask = none →
      dispatchGetMaskContainer v = some mc1 → Template.matchesFrom 0 v.maskTemplate = [] →
      Component.mask env m v = .typeError) ∧
    staticMaskComponent.mask = none ∧
    dispatchGetMaskContainer staticMaskComponent = some ⟨8, [1]⟩ ∧
    Template.matchesFrom 0 staticMaskComponent.maskTemplate = [] ∧
    (Component.mask browser .undefined staticMaskComponent).threw = true := by
  obtain ⟨d, d1, -, hlen, -, e, -, hd1⟩ :=
    Component.mask_first env message u mc c markup r hm hc hce ht hr
  have hiff : ∀ j, r + u.dom.length ∈ childList d1 j ↔ j = c := fun j =>
    (childList_overlay u d d1 _ (r + u.dom.length) c hlen hd1 hlt j).1
  refine ⟨?_, ⟨_, ⟨u.nextId, [r + u.dom.length]⟩, e, rfl, rfl, rfl, rfl, rfl, hiff, ?_⟩,
    fun v mc1 m h1 h2 h3 => Component.mask_static_throws env m v mc1 h1 h2 h3,
    by decide, by decide, by decide, by decide⟩
  · unfold dispatchGetMaskContainer Panel.getMaskContainer Component.getMaskContainer
    rfl
  · intro _
    exact ⟨fun e _ hne h => hne ((hiff e).1 h), fun e _ hne h => hne ((hiff e).1 h)⟩

set_option maxRecDepth 100000 in
/-- The theorem of C16 at the default panel rendered into `#app`, masked with the
message `Loading`: the body is the element 5, the main node the element 1, the titlebar
the element 2, and the overlay is the new element 6. -/
theorem Component.mask_appends_to_mask_container_witness :
    renderedPanel.mask = none ∧
    dispatchGetMaskContainer renderedPanel = some ⟨11, [5]⟩ ∧
    5 < renderedPanel.dom.length ∧
    Template.render renderedPanel.maskTemplate
      (Component.maskValues renderedPanel.props
        (Component.maskMessage (.str "Loading".toList) renderedPanel)) =
      .ok (maskOpening ++ "Loading".toList ++ maskClosing) ∧
    (browser.parse (maskOpening ++ "Loading".toList ++ maskClosing)).roots = [0] ∧
    renderedPanel.isPanel = true ∧ renderedPanel.html = some ⟨9, [1]⟩ ∧
    renderedPanel.titlebar = some ⟨10, [2]⟩ ∧ renderedPanel.body = some ⟨11, [5]⟩ ∧
    ∃ u1 k, Component.mask browser (.str "Loading".toList) renderedPanel = .ok u1 ∧
      u1.mask = some k ∧ k.elems = [0 + renderedPanel.dom.length] ∧
      u1.html = renderedPanel.html ∧ u1.body = renderedPanel.body ∧
      u1.titlebar = renderedPanel.titlebar ∧
      (∀ j, 0 + renderedPanel.dom.length ∈ childList u1.dom j ↔ j = 5) ∧
      (renderedPanel.isPanel = true →
        (∀ e ∈ elemsOf renderedPanel.html, e ≠ 5 →
          0 + renderedPanel.dom.length ∉ childList u1.dom e) ∧
        (∀ e ∈ elemsOf renderedPanel.titlebar, e ≠ 5 →
          0 + renderedPanel.dom.length ∉ childList u1.dom e)) :=
  ⟨by decide, by decide, by decide, by decide, by decide, by decide, by decide, by decide,
    by decide,
    (Component.mask_appends_to_mask_container browser (.str "Loading".toList) renderedPanel
      ⟨11, [5]⟩ 5 (maskOpening ++ "Loading".toList ++ maskClosing) 0 (by decide) (by decide)
      rfl (by decide) (by decide) (by decide)).2.1⟩

end UI

namespace UI

open Observable (Val)
open Template (Str Value)

/-! ### The second mask -/

theorem length_setHtml (env : Env) (markup : Str) (dom : List Node) (e : Nat) :
    (setHtml env markup dom e).length = dom.length + (env.parse markup).nodes.length := by
  simp [setHtml, length_mapAt]

theorem getElem?_setHtml (env : Env) (markup : Str) (dom : List Node) (e j : Nat) :
    (setHtml env markup dom e)[j]? =
      ((dom ++ (env.parse markup).nodes.map (Node.shift dom.length))[j]?).map (fun nd =>
        if j = e then
          { nd with children := (env.parse markup).roots.map (fun c => c + dom.length),
                    text := (env.parse markup).text }
        else nd) := by
  unfold setHtml
  rw [getElem?_mapAt]
  simp only [Nat.zero_add, List.mem_singleton]

theorem childList_shift_ge (dom nodes : List Node) (j x : Nat) (hj : dom.length ≤ j)
    (hx : x ∈ childList (dom ++ nodes.map (Node.shift dom.length)) j) : dom.length ≤ x := by
  unfold childList at hx
  rw [List.getElem?_append_right hj, List.getElem?_map] at hx
  cases h : nodes[j - dom.length]? with
  | none => simp [h] at hx
  | some nd =>
    simp only [h, Option.map_some', Node.shift, List.mem_map] at hx
    obtain ⟨y, -, rfl⟩ := hx
    omega

/-- What `html(markup)` on a set does to the document: the elements outside the set
are as they were; an element of the set shows the text of the markup and has new
elements as children; the elements that were there keep `hidden`; the new elements
have new elements as children. -/
theorem html_spec (env : Env) (markup : Str) (elems : List Nat) :
    ∀ dom : List Node,
      dom.length ≤ (html env markup elems dom).length ∧
      (∀ j, j < dom.length → j ∉ elems → (html env markup elems dom)[j]? = dom[j]?) ∧
      (∀ j, j < dom.length → j ∈ elems →
        ((html env markup elems dom)[j]?).map (fun nd => nd.text) =
            some (env.parse markup).text ∧
          ∀ x ∈ childList (html env markup elems dom) j, dom.length ≤ x) ∧
      (∀ j, dom.length ≤ j → ∀ x ∈ childList (html env markup elems dom) j, dom.length ≤ x) ∧
      (∀ j, j < dom.length →
        ((html env markup elems dom)[j]?).map (fun nd => nd.hidden) =
          (dom[j]?).map (fun nd => nd.hidden)) := by
  induction elems with
  | nil =>
    intro dom
    refine ⟨Nat.le_refl _, fun _ _ _ => rfl, fun _ _ h => absurd h (List.not_mem_nil _), ?_,
      fun _ _ => rfl⟩
    intro j hj x hx
    simp [html, childList, List.getElem?_eq_none_iff.2 hj] at hx
  | cons e rest ih =>
    intro dom
    obtain ⟨h1, h2, h3, h4, h5⟩ := ih (setHtml env markup dom e)
    have hlen := length_setHtml env markup dom e
    have hstep : html env markup (e :: rest) dom = html env markup rest (setHtml env markup dom e) :=
      rfl
    rw [hstep]
    -- the children of an element of the intermediate document that is the target or new
    have hnew : ∀ j, (j = e ∨ dom.length ≤ j) →
        ∀ x ∈ childList (setHtml env markup dom e) j, dom.length ≤ x := by
      intro j hj x hx
      by_cases hje : j = e
      · subst hje
        unfold childList at hx
        rw [getElem?_setHtml] at hx
        cases h : (dom ++ (env.parse markup).nodes.map (Node.shift dom.length))[j]? with
        | none =>
          rw [h] at hx
          simp at hx
        | some nd =>
          rw [h] at hx
          simp only [Option.map_some', if_true, List.mem_map] at hx
          obtain ⟨y, -, rfl⟩ := hx
          omega
      · have hge : dom.length ≤ j := by
          rcases hj with h | h
          · exact absurd h hje
          · exact h
        apply childList_shift_ge dom (env.parse markup).nodes j x hge
        unfold childList at hx ⊢
        rw [getElem?_setHtml] at hx
        cases h : (dom ++ (env.parse markup).nodes.map (Node.shift dom.length))[j]? with
        | none => simp [h] at hx
        | some nd => simpa [h, hje] using hx
    have hold : ∀ j, j < dom.length → j ≠ e → (setHtml env markup dom e)[j]? = dom[j]? := by
      intro j hj hne
      rw [getElem?_setHtml, List.getElem?_append_left hj]
      cases dom[j]? with
      | none => rfl
      | some nd => simp [hne]
    refine ⟨by omega, ?_, ?_, ?_, ?_⟩
    · intro j hj hn
      rw [List.mem_cons, not_or] at hn
      rw [h2 j (by omega) hn.2, hold j hj hn.1]
    · intro j hj hm
      by_cases hr : j ∈ rest
      · obtain ⟨a, b⟩ := h3 j (by omega) hr
        exact ⟨a, fun x hx => by have := b x hx; omega⟩
      · have hje : j = e := by
          rcases List.mem_cons.1 hm with h | h
          · exact h
          · exact absurd h hr
        have hsame := h2 j (by omega) hr
        constructor
        · rw [hsame, getElem?_setHtml, List.getElem?_append_left hj,
            List.getElem?_eq_getElem hj]
          simp [hje]
        · intro x hx
          apply hnew j (Or.inl hje) x
          unfold childList at hx ⊢
          rw [hsame] at hx
          exact hx
    · intro j hj x hx
      by_cases hj1 : (setHtml env markup dom e).length ≤ j
      · have := h4 j hj1 x hx
        omega
      · by_cases hr : j ∈ rest
        · have := (h3 j (by omega) hr).2 x hx
          omega
        · apply hnew j (Or.inr hj) x
          unfold childList at hx ⊢
          rw [h2 j (by omega) hr] at hx
          exact hx
    · intro j hj
      rw [h5 j (by omega), getElem?_setHtml, List.getElem?_append_left hj]
      cases dom[j]? with
      | none => rfl
      | some nd =>
        simp only [Option.map_some', Option.some.injEq]
        split <;> rfl

end UI

namespace UI

open Observable (Val)
open Template (Str Value)

theorem getElem?_setHidden (hidden : Bool) (elems : List Nat) (dom : List Node) (j : Nat) :
    (setHidden hidden elems dom)[j]? =
      (dom[j]?).map (fun nd => if j ∈ elems then { nd with hidden := hidden } else nd) := by
  unfold setHidden
  rw [getElem?_mapAt]
  simp only [Nat.zero_add]

theorem childList_setHidden (hidden : Bool) (elems : List Nat) (dom : List Node) (j : Nat) :
    childList (setHidden hidden elems dom) j = childList dom j := by
  unfold setHidden
  apply childList_mapAt_same
  intro nd
  rfl

/-- A message that is not empty is the message shown; an omitted or empty message is
the default message, and `mask` with it is `mask` with the default message. -/
theorem Component.maskMessage_cases (env : Env) (v : State) (m : Value) :
    (Template.valueText m ≠ [] → Component.maskMessage m v = Template.valueText m) ∧
    (Template.valueText m = [] →
      Component.maskMessage m v = prop v "defaultMaskMessage" ∧
      Component.mask env m v =
        Component.mask env (.str (prop v "defaultMaskMessage")) v) := by
  have hdef : Component.maskMessage (.str (prop v "defaultMaskMessage")) v =
      prop v "defaultMaskMessage" := by
    unfold Component.maskMessage
    simp only [Template.valueText]
    split <;> rfl
  refine ⟨fun h => ?_, fun h => ?_⟩
  · unfold Component.maskMessage
    rw [if_pos h]
  · have h1 : Component.maskMessage m v = prop v "defaultMaskMessage" := by
      unfold Component.maskMessage
      rw [if_neg (not_not.2 h)]
    refine ⟨h1, ?_⟩
    unfold Component.mask
    rw [h1, hdef]

/-- A later `mask(message)`: the call returns, `$mask` is the same object, and the
document is the one that `html(message)` on the message holders and `show()` on the
overlay give. -/
theorem Component.mask_again (env : Env) (message : Value) (u : State) (k : JQ)
    (hm : u.mask = some k) :
    Component.mask env message u =
      .ok { u with
            dom := setHidden false k.elems
                    (html env (Component.maskMessage message u)
                      (find (prop u "maskMessageClass") k.elems u.dom) u.dom) } := by
  unfold Component.mask Component.setMaskMessage
  simp only [hm, Option.isSome_some, if_true, Res.bind]

/-- C14: `mask(m1)` and then `mask(m2)` on a component that has no mask yet, whose mask
container is one element `c` of the document and whose mask template renders, for the
first message, to the markup of one element.  Both calls return.  The first makes the
overlay, the new element `o`: it is a child of `c`, once, and of no other element, and
it is shown.  After the second `$mask` is the same object with the same element, which
is shown; every element that is not a message holder (a descendant of the overlay with
the message class) is as it was after the first call, so the overlay is still the child
of `c`, once, and of nothing else when `c` is no message holder; and every message
holder shows the text of the message of the second call.  On a component that has a
mask already both calls return and `$mask` stays the same object.  The message of a
call is the argument when that is not empty; an omitted or empty message is the
default mask message. -/
theorem Component.mask_twice_keeps_overlay (env : Env) (m1 m2 : Value) (u : State)
    (mc : JQ) (c : Nat) (markup : Str) (r : Nat)
    (hm : u.mask = none)
    (hc : dispatchGetMaskContainer u = some mc) (hce : mc.elems = [c])
    (hlt : c < u.dom.length)
    (ht : Template.render u.maskTemplate
      (Component.maskValues u.props (Component.maskMessage m1 u)) = .ok markup)
    (hr : (env.parse markup).roots = [r])
    (hrv : r < (env.parse markup).nodes.length) :
    (∃ u1 k, Component.mask env m1 u = .ok u1 ∧ u1.mask = some k ∧
      k.elems = [r + u.dom.length] ∧
      (∀ j, (r + u.dom.length ∈ childList u1.dom j ↔ j = c) ∧
        (childList u1.dom j).count (r + u.dom.length) = (if j = c then 1 else 0)) ∧
      (u1.dom[r + u.dom.length]?).map (fun nd => nd.hidden) = some false ∧
      ∃ u2, Component.mask env m2 u1 = .ok u2 ∧ u2.mask = some k ∧
        (u2.dom[r + u.dom.length]?).map (fun nd => nd.hidden) = some false ∧
        (∀ j, j < u1.dom.length →
          j ∉ find (prop u "maskMessageClass") [r + u.dom.length] u1.dom →
          u2.dom[j]? = u1.dom[j]?) ∧
        (∀ e ∈ find (prop u "maskMessageClass") [r + u.dom.length] u1.dom,
          e < u1.dom.length →
          (u2.dom[e]?).map (fun nd => nd.text) =
            some (env.parse (Component.maskMessage m2 u)).text) ∧
        (c ∉ find (prop u "maskMessageClass") [r + u.dom.length] u1.dom →
          ∀ j, (r + u.dom.length ∈ childList u2.dom j ↔ j = c) ∧
            (childList u2.dom j).count (r + u.dom.length) = (if j = c then 1 else 0))) ∧
    (∀ (w : State) (k : JQ), w.mask = some k →
      ∃ w1 w2, Component.mask env m1 w = .ok w1 ∧ w1.mask = some k ∧
        Component.mask env m2 w1 = .ok w2 ∧ w2.mask = some k) ∧
    (∀ (v : State) (m : Value),
      (Template.valueText m ≠ [] → Component.maskMessage m v = Template.valueText m) ∧
      (Template.valueText m = [] →
        Component.maskMessage m v = prop v "defaultMaskMessage" ∧
        Component.mask env m v =
          Component.mask env (.str (prop v "defaultMaskMessage")) v)) := by
  refine ⟨?_, ?_, fun v m => Component.maskMessage_cases env v m⟩
  swap
  · intro w k hk
    exact ⟨_, _, Component.mask_again env m1 w k hk, hk,
      Component.mask_again env m2 _ k hk, hk⟩
  obtain ⟨d, d1, -, hlen, -, e, hlen1, hd1⟩ :=
    Component.mask_first env m1 u mc c markup r hm hc hce ht hr
  have hfirst := fun j => childList_overlay u d d1 _ (r + u.dom.length) c hlen hd1 hlt j
  have ho : r + u.dom.length < d1.length := by omega
  have hshown : (d1[r + u.dom.length]?).map (fun nd => nd.hidden) = some false := by
    rw [hd1]
    have : r + u.dom.length <
        (d ++ (env.parse markup).nodes.map (Node.shift u.dom.length)).length := by
      simp only [List.length_append, List.length_map]
      omega
    rw [List.getElem?_eq_getElem this]
    simp
  -- the document that `html` makes in the second call
  obtain ⟨-, h2, h3, h4, h5⟩ := html_spec env (Component.maskMessage m2 u)
    (find (prop u "maskMessageClass") [r + u.dom.length] d1) d1
  have hagain := Component.mask_again env m2
    ({ u with mask := some ⟨u.nextId, [r + u.dom.length]⟩, nextId := u.nextId + 1,
              dom := d1 } : State) ⟨u.nextId, [r + u.dom.length]⟩ rfl
  change Component.mask env m2 _ = .ok
    { u with mask := some ⟨u.nextId, [r + u.dom.length]⟩, nextId := u.nextId + 1,
             dom := setHidden false [r + u.dom.length]
              (html env (Component.maskMessage m2 u)
                (find (prop u "maskMessageClass") [r + u.dom.length] d1) d1) } at hagain
  generalize html env (Component.maskMessage m2 u)
    (find (prop u "maskMessageClass") [r + u.dom.length] d1) d1 = X at h2 h3 h4 h5 hagain
  obtain ⟨holders, hh⟩ : ∃ l, l = find (prop u "maskMessageClass") [r + u.dom.length] d1 :=
    ⟨_, rfl⟩
  rw [← hh] at h2 h3
  have hgoal : (((setHidden false [r + u.dom.length] X)[r + u.dom.length]?).map
        (fun nd => nd.hidden) = some false) ∧
      (∀ j, j < d1.length → j ∉ holders →
        (setHidden false [r + u.dom.length] X)[j]? = d1[j]?) ∧
      (∀ x ∈ holders, x < d1.length →
        ((setHidden false [r + u.dom.length] X)[x]?).map (fun nd => nd.text) =
          some (env.parse (Component.maskMessage m2 u)).text) ∧
      (c ∉ holders →
        ∀ j, (r + u.dom.length ∈ childList (setHidden false [r + u.dom.length] X) j ↔ j = c) ∧
          (childList (setHidden false [r + u.dom.length] X) j).count (r + u.dom.length) =
            (if j = c then 1 else 0)) := by
    refine ⟨?_, ?_, ?_, ?_⟩
    · rw [getElem?_setHidden]
      have h := h5 (r + u.dom.length) ho
      rw [hshown] at h
      revert h
      cases X[r + u.dom.length]? with
      | none => intro h; simp at h
      | some nd => intro _; simp
    · intro j hj hn
      rw [getElem?_setHidden, h2 j hj hn]
      by_cases hjo : j = r + u.dom.length
      · subst hjo
        revert hshown
        cases d1[r + u.dom.length]? with
        | none => intro _; rfl
        | some nd =>
          intro hs
          simp only [Option.map_some', Option.some.injEq] at hs
          simp only [Option.map_some', List.mem_singleton, if_true, Option.some.injEq]
          cases nd
          simp_all
      · cases d1[j]? with
        | none => rfl
        | some nd => simp [hjo]
    · intro x hx hxl
      rw [getElem?_setHidden]
      have h := (h3 x hxl hx).1
      revert h
      cases X[x]? with
      | none => intro h; simp at h
      | some nd =>
        intro h
        simp only [Option.map_some', Option.some.injEq] at h ⊢
        split <;> exact h
    · intro hcn j
      rw [childList_setHidden]
      by_cases hold : j < d1.length ∧ j ∉ holders
      · have hsame : childList X j = childList d1 j := by
          unfold childList
          rw [h2 j hold.1 hold.2]
        rw [hsame]
        exact hfirst j
      · have hge : ∀ x ∈ childList X j, d1.length ≤ x := by
          by_cases hj : j < d1.length
          · have hin : j ∈ holders := by
              by_contra hcon
              exact hold ⟨hj, hcon⟩
            exact (h3 j hj hin).2
          · exact h4 j (by omega)
        have hnot : r + u.dom.length ∉ childList X j := by
          intro hmem
          have := hge _ hmem
          omega
        have hjc : j ≠ c := by
          intro hjc
          subst hjc
          apply hold
          exact ⟨by omega, hcn⟩
        rw [if_neg hjc]
        exact ⟨⟨fun h => absurd h hnot, fun h => absurd h hjc⟩,
          List.count_eq_zero_of_not_mem hnot⟩
  subst hh
  exact ⟨_, ⟨u.nextId, [r + u.dom.length]⟩, e, rfl, rfl, hfirst, hshown, _, hagain, rfl,
    hgoal.1, hgoal.2.1, hgoal.2.2.1, hgoal.2.2.2⟩

set_option maxRecDepth 100000 in
/-- C14, a call where the message shown is not the argument: after `mask("Loading")`
and then `mask("")` on the default component rendered into `#app`, the message holder
(the element 3) shows the default message `Loading...`, not the empty message, because
`mask` starts with `message = message || this.defaultMaskMessage`. -/
theorem Component.mask_empty_message_shows_default :
    (((Component.mask browser (.str "Loading".toList) renderedComponent).bind
        (Component.mask browser (.str []))).value?).map
        (fun u => (u.dom[3]?).map (fun nd => (nd.classes, nd.text))) =
      some (some (["message".toList], "Loading...".toList)) ∧
    Template.valueText (.str []) ≠ "Loading...".toList := by
  decide

set_option maxRecDepth 100000 in
/-- The theorem of C14 at the default component rendered into `#app`, for
`mask("Loading")` and then `mask("Saving")`: the node of the component is the element
1, the overlay the new element 2 and the message holder the element 3; after the two
calls the overlay is the only child of the node and the message holder shows
`Saving`. -/
theorem Component.mask_twice_keeps_overlay_witness :
    renderedComponent.mask = none ∧
    dispatchGetMaskContainer renderedComponent = some ⟨8, [1]⟩ ∧
    1 < renderedComponent.dom.length ∧
    Template.render renderedComponent.maskTemplate
      (Component.maskValues renderedComponent.props
        (Component.maskMessage (.str "Loading".toList) renderedComponent)) =
      .ok (maskOpening ++ "Loading".toList ++ maskClosing) ∧
    (browser.parse (maskOpening ++ "Loading".toList ++ maskClosing)).roots = [0] ∧
    0 < (browser.parse (maskOpening ++ "Loading".toList ++ maskClosing)).nodes.length ∧
    (∃ u1 k, Component.mask browser (.str "Loading".toList) renderedComponent = .ok u1 ∧
      u1.mask = some k ∧ k.elems = [0 + renderedComponent.dom.length] ∧
      (∀ j, (0 + renderedComponent.dom.length ∈ childList u1.dom j ↔ j = 1) ∧
        (childList u1.dom j).count (0 + renderedComponent.dom.length) =
          (if j = 1 then 1 else 0)) ∧
      (u1.dom[0 + renderedComponent.dom.length]?).map (fun nd => nd.hidden) = some false ∧
      ∃ u2, Component.mask browser (.str "Saving".toList) u1 = .ok u2 ∧ u2.mask = some k ∧
        (u2.dom[0 + renderedComponent.dom.length]?).map (fun nd => nd.hidden) = some false ∧
        (∀ j, j < u1.dom.length →
          j ∉ find (prop renderedComponent "maskMessageClass")
            [0 + renderedComponent.dom.length] u1.dom →
          u2.dom[j]? = u1.dom[j]?) ∧
        (∀ e ∈ find (prop renderedComponent "maskMessageClass")
            [0 + renderedComponent.dom.length] u1.dom,
          e < u1.dom.length →
          (u2.dom[e]?).map (fun nd => nd.text) =
            some (browser.parse
              (Component.maskMessage (.str "Saving".toList) renderedComponent)).text) ∧
        (1 ∉ find (prop renderedComponent "maskMessageClass")
            [0 + renderedComponent.dom.length] u1.dom →
          ∀ j, (0 + renderedComponent.dom.length ∈ childList u2.dom j ↔ j = 1) ∧
            (childList u2.dom j).count (0 + renderedComponent.dom.length) =
              (if j = 1 then 1 else 0))) ∧
    (((Component.mask browser (.str "Loading".toList) renderedComponent).bind
        (Component.mask browser (.str "Saving".toList))).value?).map State.view =
      some ⟨true, some app, some ⟨8, [1]⟩, some ⟨9, [2]⟩, none,
        [("render", [Val.obj 7, Val.obj 8, Val.obj 1])],
        [element [] [1] "", ⟨[], [2], [], false, "relative".toList, 0⟩,
          element ["mask"] [3] "", element ["message"] [] "Saving",
          element [] [] "Loading", element [] [6] "", element [] [] ""]⟩ :=
  ⟨by decide, by decide, by decide, by decide, by decide, by decide,
    (Component.mask_twice_keeps_overlay browser (.str "Loading".toList)
      (.str "Saving".toList) renderedComponent ⟨8, [1]⟩ 1
      (maskOpening ++ "Loading".toList ++ maskClosing) 0 (by decide) (by decide) rfl
      (by decide) (by decide) (by decide) (by decide)).1,
    by decide⟩

end UI

namespace UI

open Observable (Val)
open Template (Str Value)

/-! ### Collapsing a panel -/

theorem mem_addNames (x : Str) (names : List Str) :
    ∀ cls : List Str, x ∈ addNames names cls ↔ x ∈ names ∨ x ∈ cls := by
  unfold addNames
  induction names with
  | nil => intro cls; simp
  | cons n rest ih =>
    intro cls
    simp only [List.foldl_cons, List.mem_cons]
    rw [ih]
    by_cases h : n ∈ cls
    · simp only [h, if_true]
      constructor
      · rintro (h1 | h1)
        · exact Or.inl (Or.inr h1)
        · exact Or.inr h1
      · rintro ((h1 | h1) | h1)
        · subst h1; exact Or.inr h
        · exact Or.inl h1
        · exact Or.inr h1
    · simp only [h, if_false, List.mem_append, List.mem_singleton]
      constructor
      · rintro (h1 | h1 | h1)
        · exact Or.inl (Or.inr h1)
        · exact Or.inr h1
        · exact Or.inl (Or.inl h1)
      · rintro ((h1 | h1) | h1)
        · exact Or.inr (Or.inr h1)
        · exact Or.inl h1
        · exact Or.inr (Or.inl h1)

theorem mem_removeNames (x : Str) (names : List Str) :
    ∀ cls : List Str, x ∈ removeNames names cls ↔ x ∈ cls ∧ x ∉ names := by
  unfold removeNames
  induction names with
  | nil => intro cls; simp
  | cons n rest ih =>
    intro cls
    simp only [List.foldl_cons, List.mem_cons, not_or]
    rw [ih]
    simp only [List.mem_filter, decide_eq_true_eq]
    constructor
    · rintro ⟨⟨h1, h2⟩, h3⟩
      exact ⟨h1, h2, h3⟩
    · rintro ⟨h1, h2, h3⟩
      exact ⟨⟨h1, h2⟩, h3⟩

theorem classList_mapAt (f : Node → Node) (elems : List Nat) (dom : List Node) (j : Nat)
    (hj : j < dom.length) :
    classList (mapAt f elems 0 dom) j =
      if j ∈ elems then (f dom[j]).classes else classList dom j := by
  unfold classList
  rw [getElem?_mapAt, List.getElem?_eq_getElem hj]
  simp only [Option.map_some', Nat.zero_add]
  split <;> rfl

theorem classList_eq_getElem (dom : List Node) (j : Nat) (hj : j < dom.length) :
    classList dom j = dom[j].classes := by
  unfold classList
  rw [List.getElem?_eq_getElem hj]

/-- After `addClass(name)` with one class name on a set of elements of the document
that is not empty, `hasClass(name)` is true. -/
theorem hasClass_addClass (name : Str) (elems : List Nat) (dom : List Node)
    (hn : classNames name = [name]) (hne : elems ≠ [])
    (hv : ∀ e ∈ elems, e < dom.length) :
    hasClass name elems (addClass name elems dom) = true := by
  unfold hasClass
  rw [List.any_eq_true]
  obtain ⟨e, he⟩ := List.exists_mem_of_ne_nil elems hne
  refine ⟨e, he, ?_⟩
  rw [decide_eq_true_eq]
  unfold addClass
  rw [classList_mapAt _ _ _ _ (hv e he), if_pos he]
  simp only
  rw [mem_addNames, hn]
  exact Or.inl (List.mem_singleton_self _)

/-- After `removeClass(name)` with one class name on a set of elements, `hasClass(name)`
is false. -/
theorem hasClass_removeClass (name : Str) (elems : List Nat) (dom : List Node)
    (hn : classNames name = [name]) :
    hasClass name elems (removeClass name elems dom) = false := by
  unfold hasClass
  rw [List.any_eq_false]
  intro e he
  rw [decide_eq_true_eq]
  by_cases hv : e < dom.length
  · unfold removeClass
    rw [classList_mapAt _ _ _ _ hv, if_pos he]
    simp only
    rw [mem_removeNames, hn]
    exact fun h => h.2 (List.mem_singleton_self _)
  · unfold classList
    have : (removeClass name elems dom).length ≤ e := by
      unfold removeClass
      rw [length_mapAt]
      omega
    rw [List.getElem?_eq_none_iff.2 this]
    exact List.not_mem_nil _

theorem classNames_collapsed : classNames "collapsed".toList = ["collapsed".toList] := by
  decide

/-- The state of a panel after `collapse()`. -/
theorem Panel.collapse_spec (fns : Nat → Observable.Handler)
    (hq : ∀ i, ∀ c ∈ (fns i).body, c.isFire = false ∧ c.registersFn = true)
    (fuel : Nat) (u : State) (hu : Panel.Rendered u) :
    ∃ u1, Panel.collapse fns (fuel + 1) u = .ok u1 ∧ Panel.Rendered u1 ∧
      Panel.isCollapsed u1 = .ok true ∧ u1.self = u.self ∧
      u1.fired = u.fired ++ [("collapse", [u.self])] := by
  obtain ⟨⟨h, hh, hne, hv⟩, hs, hcc⟩ := hu
  obtain ⟨s', hs', e⟩ := Component.fireEvent_returns fns hq fuel "collapse" [u.self]
    { u with dom := addClass (prop u "collapsedClass") h.elems u.dom } hs
  refine ⟨{ u with
      obs := s',
      dom := addClass (prop u "collapsedClass") h.elems u.dom,
      fired := u.fired ++ [("collapse", [u.self])] },
    ?_, ⟨⟨h, hh, hne, ?_⟩, hs', hcc⟩, ?_, rfl, rfl⟩
  · unfold Panel.collapse
    rw [hh]
    rw [hh] at e
    exact e
  · intro x hx
    show x < (addClass (prop u "collapsedClass") h.elems u.dom).length
    rw [length_addClass]
    exact hv x hx
  · unfold Panel.isCollapsed
    simp only [hh]
    congr 1
    show hasClass (prop u "collapsedClass") h.elems
      (addClass (prop u "collapsedClass") h.elems u.dom) = true
    rw [hcc]
    exact hasClass_addClass _ _ _ classNames_collapsed hne hv

/-- The state of a panel after `expand()`. -/
theorem Panel.expand_spec (fns : Nat → Observable.Handler)
    (hq : ∀ i, ∀ c ∈ (fns i).body, c.isFire = false ∧ c.registersFn = true)
    (fuel : Nat) (u : State) (hu : Panel.Rendered u) :
    ∃ u1, Panel.expand fns (fuel + 1) u = .ok u1 ∧ Panel.Rendered u1 ∧
      Panel.isCollapsed u1 = .ok false ∧ u1.self = u.self ∧
      u1.fired = u.fired ++ [("expand", [u.self])] := by
  obtain ⟨⟨h, hh, hne, hv⟩, hs, hcc⟩ := hu
  obtain ⟨s', hs', e⟩ := Component.fireEvent_returns fns hq fuel "expand" [u.self]
    { u with dom := removeClass (prop u "collapsedClass") h.elems u.dom } hs
  refine ⟨{ u with
      obs := s',
      dom := removeClass (prop u "collapsedClass") h.elems u.dom,
      fired := u.fired ++ [("expand", [u.self])] },
    ?_, ⟨⟨h, hh, hne, ?_⟩, hs', hcc⟩, ?_, rfl, rfl⟩
  · unfold Panel.expand
    rw [hh]
    rw [hh] at e
    exact e
  · intro x hx
    show x < (removeClass (prop u "collapsedClass") h.elems u.dom).length
    unfold removeClass
    rw [length_mapAt]
    exact hv x hx
  · unfold Panel.isCollapsed
    simp only [hh]
    congr 1
    show hasClass (prop u "collapsedClass") h.elems
      (removeClass (prop u "collapsedClass") h.elems u.dom) = false
    rw [hcc]
    exact hasClass_removeClass _ _ _ classNames_collapsed

/-- The state of a panel after `toggleCollapsed()`. -/
theorem Panel.toggleCollapsed_spec (fns : Nat → Observable.Handler)
    (hq : ∀ i, ∀ c ∈ (fns i).body, c.isFire = false ∧ c.registersFn = true)
    (fuel : Nat) (u : State) (hu : Panel.Rendered u) :
    ∃ b u1, Panel.isCollapsed u = .ok b ∧ Panel.toggleCollapsed fns (fuel + 1) u = .ok u1 ∧
      Panel.Rendered u1 ∧ Panel.isCollapsed u1 = .ok (!b) ∧ u1.self = u.self ∧
      u1.fired = u.fired ++ [(if b then "expand" else "collapse", [u.self])] := by
  obtain ⟨h, hh, -, -⟩ := hu.1
  have hb : Panel.isCollapsed u = .ok (hasClass (prop u "collapsedClass") h.elems u.dom) := by
    unfold Panel.isCollapsed
    rw [hh]
  cases hc : hasClass (prop u "collapsedClass") h.elems u.dom with
  | true =>
    obtain ⟨u1, e, hr, hx, hself, hf⟩ := Panel.expand_spec fns hq fuel u hu
    refine ⟨true, u1, by rw [hb, hc], ?_, hr, hx, hself, hf⟩
    unfold Panel.toggleCollapsed
    rw [hb, hc]
    exact e
  | false =>
    obtain ⟨u1, e, hr, hx, hself, hf⟩ := Panel.collapse_spec fns hq fuel u hu
    refine ⟨false, u1, by rw [hb, hc], ?_, hr, hx, hself, hf⟩
    unfold Panel.toggleCollapsed
    rw [hb, hc]
    exact e

end UI

namespace UI

open Observable (Val)
open Template (Str Value)

/-! ### Rendering a panel -/

theorem prop_setProp_ne (u : State) (k k' : String) (v : Str) (h : k'.toList ≠ k.toList) :
    prop (setProp u k v) k' = prop u k' := by
  unfold prop setProp
  simp only [if_neg h]

theorem classList_of_getElem? (d d' : List Node) (j j' : Nat)
    (h : (d[j]?).map (fun nd => nd.classes) = (d'[j']?).map (fun nd => nd.classes)) :
    classList d j = classList d' j' := by
  unfold classList
  cases h1 : d[j]? <;> cases h2 : d'[j']? <;> simp_all

/-- The call `render()` of a component without argument, when the configured selector
finds at most one element: the call returns with the node built. -/
theorem Component.render_returns (env : Env) (fns : Nat → Observable.Handler)
    (hq : ∀ i, ∀ c ∈ (fns i).body, c.isFire = false ∧ c.registersFn = true)
    (fuel : Nat) (v : State) (markup : Str) (r : Nat)
    (hs : Observable.Callable v.obs)
    (ht : Template.render v.template v.props = .ok markup)
    (hr : (env.parse markup).roots = [r])
    (hsel : (env.select v.dom (prop v "containerSelector")).length ≤ 1) :
    ∃ u3 n, Component.render env fns (fuel + 1) none v = .ok u3 ∧
      u3.html = some ⟨n, [r + v.dom.length]⟩ ∧ u3.props = v.props ∧ u3.self = v.self ∧
      Observable.Callable u3.obs ∧
      u3.dom.length = v.dom.length + (env.parse markup).nodes.length ∧
      ∀ j, classList u3.dom j = classList (Component.withNode env markup r v).dom j := by
  obtain ⟨htarget, n, hv⟩ := Component.resolveContainer_eq env none v
  have hlen : (Component.withNode env markup r v).dom.length =
      v.dom.length + (env.parse markup).nodes.length := by
    simp [Component.withNode, length_addClass]
  have hdet : ∀ c : Option JQ, (∀ c', c = some c' → c'.elems = []) →
      Component.target env none v = c →
      ∃ u3 n, Component.render env fns (fuel + 1) none v = .ok u3 ∧
        u3.html = some ⟨n, [r + v.dom.length]⟩ ∧ u3.props = v.props ∧ u3.self = v.self ∧
        Observable.Callable u3.obs ∧
        u3.dom.length = v.dom.length + (env.parse markup).nodes.length ∧
        ∀ j, classList u3.dom j = classList (Component.withNode env markup r v).dom j := by
    intro c hc htc
    have e := Component.renderInto_detached env fns (fuel + 1) c { v with nextId := n }
      markup r ht hr hc
    refine ⟨Component.withNode env markup r { v with nextId := n }, n, ?_, rfl, rfl, rfl, hs,
      hlen, fun _ => rfl⟩
    unfold Component.render
    rw [htarget, htc, hv]
    exact e
  cases htc : Component.target env none v with
  | none => exact hdet none (fun _ h => by cases h) htc
  | some c =>
    have hce : c.elems = env.select v.dom (prop v "containerSelector") := by
      unfold Component.target at htc
      simp only at htc
      split at htc
      · cases htc
      · cases htc
        rfl
    cases hel : c.elems with
    | nil => exact hdet (some c) (fun c' h => by cases h; exact hel) htc
    | cons t rest =>
      have hrest : rest = [] := by
        rw [← hce, hel] at hsel
        cases rest with
        | nil => rfl
        | cons _ _ => simp at hsel
      subst hrest
      obtain ⟨s', d, hs', hd, e⟩ := Component.renderInto_attached env fns hq fuel c t
        { v with nextId := n } markup r hs ht hr hel
      obtain ⟨hdl, hdc⟩ := getElem?_append [t] [r + v.dom.length] _ d hd 0
      refine ⟨{ Component.withNode env markup r { v with nextId := n } with
          obs := s', container := some c, dom := d, rendered := true,
          fired := v.fired ++ [("render", [v.self, Val.obj n, c.val])] },
        n, ?_, rfl, rfl, rfl, hs', ?_, ?_⟩
      · unfold Component.render
        rw [htarget, htc, hv]
        exact e
      · show d.length = _
        rw [hdl]
        exact hlen
      · intro j
        show classList d j = _
        apply classList_of_getElem?
        have := (getElem?_append [t] [r + v.dom.length] _ d hd j).2
        have h1 := congrArg (Option.map (fun p : List Str × Str × Bool × Str => p.1)) this
        simpa [Option.map_map, Function.comp] using h1

end UI

namespace UI

open Observable (Val)
open Template (Str Value)

theorem classList_onClick (elems : List Nat) (dom : List Node) (j : Nat) :
    classList (onClick elems dom) j = classList dom j := by
  unfold onClick
  apply classList_mapAt_same
  intro nd
  rfl

/-- The call `render()` of a panel whose three templates render, the main one to the
markup of one element without the marker class, and whose selector finds at most one
element: the call returns, the panel has its node, and the node has not the marker
class. -/
theorem Panel.render_expanded (env : Env) (fns : Nat → Observable.Handler)
    (hq : ∀ i, ∀ c ∈ (fns i).body, c.isFire = false ∧ c.registersFn = true)
    (fuel : Nat) (p : State) (titlebarHtml bodyHtml markup : Str) (r : Nat)
    (hs : Observable.Callable p.obs)
    (hth : Template.render p.titlebarTemplate p.props = .ok titlebarHtml)
    (hbh : Template.render p.bodyTemplate (setProp p "titlebarHtml" titlebarHtml).props =
      .ok bodyHtml)
    (hmk : Template.render p.template
      (setProp (setProp p "titlebarHtml" titlebarHtml) "bodyHtml" bodyHtml).props = .ok markup)
    (hr : (env.parse markup).roots = [r])
    (hroot : ∃ nd, (env.parse markup).nodes[r]? = some nd ∧ "collapsed".toList ∉ nd.classes)
    (hcss : "collapsed".toList ∉ classNames (prop p "cssClass"))
    (hcc : prop p "collapsedClass" = "collapsed".toList)
    (hsel : (env.select p.dom (prop p "containerSelector")).length ≤ 1) :
    ∃ u, Panel.render env fns (fuel + 1) p = .ok u ∧ Panel.Rendered u ∧
      Panel.isCollapsed u = .ok false ∧ u.self = p.self := by
  obtain ⟨nd, hnd, hndc⟩ := hroot
  have hrv : r < (env.parse markup).nodes.length := by
    by_contra hcon
    rw [List.getElem?_eq_none_iff.2 (by omega)] at hnd
    cases hnd
  have hsel2 : (env.select (setProp (setProp p "titlebarHtml" titlebarHtml) "bodyHtml"
      bodyHtml).dom (prop (setProp (setProp p "titlebarHtml" titlebarHtml) "bodyHtml" bodyHtml)
        "containerSelector")).length ≤ 1 := by
    rw [prop_setProp_ne _ _ _ _ (by decide), prop_setProp_ne _ _ _ _ (by decide)]
    exact hsel
  obtain ⟨u3, n, e3, hh, hp, hself, hs3, hlen, hcl⟩ := Component.render_returns env fns hq fuel
    (setProp (setProp p "titlebarHtml" titlebarHtml) "bodyHtml" bodyHtml) markup r hs hmk hr
    hsel2
  have hprop : ∀ k : String, prop u3 k =
      prop (setProp (setProp p "titlebarHtml" titlebarHtml) "bodyHtml" bodyHtml) k := by
    intro k
    unfold prop
    rw [hp]
  have e : Panel.render env fns (fuel + 1) p =
      .ok { u3 with
            titlebar := some ⟨u3.nextId,
              childrenWithClass (prop u3 "titlebarClass") [r + p.dom.length] u3.dom⟩,
            body := some ⟨u3.nextId + 1,
              childrenWithClass (prop u3 "bodyClass") [r + p.dom.length] u3.dom⟩,
            toggleButton := some ⟨u3.nextId + 1 + 1,
              childrenWithClass (prop u3 "collapseToolClass")
                (childrenWithClass (prop u3 "titlebarClass") [r + p.dom.length] u3.dom) u3.dom⟩,
            nextId := u3.nextId + 1 + 1 + 1,
            dom := onClick (childrenWithClass (prop u3 "collapseToolClass")
                (childrenWithClass (prop u3 "titlebarClass") [r + p.dom.length] u3.dom) u3.dom)
              u3.dom } := by
    have hbh' : Template.render (setProp p "titlebarHtml" titlebarHtml).bodyTemplate
        (setProp p "titlebarHtml" titlebarHtml).props = .ok bodyHtml := hbh
    unfold Panel.render
    rw [hth]
    simp only
    rw [hbh']
    simp only
    rw [e3]
    simp only [Res.bind, hh, jQuery]
    rfl
  have ho : r + p.dom.length < u3.dom.length := by
    rw [hlen]
    show r + p.dom.length < p.dom.length + _
    omega
  refine ⟨_, e, ⟨⟨⟨n, [r + p.dom.length]⟩, hh, by simp, ?_⟩, hs3, ?_⟩, ?_, hself⟩
  · intro x hx
    rw [List.mem_singleton] at hx
    subst hx
    show r + p.dom.length < (onClick _ u3.dom).length
    unfold onClick
    rw [length_mapAt]
    exact ho
  · show prop u3 "collapsedClass" = _
    rw [hprop, prop_setProp_ne _ _ _ _ (by decide), prop_setProp_ne _ _ _ _ (by decide)]
    exact hcc
  · unfold Panel.isCollapsed
    simp only [hh]
    congr 1
    show hasClass (prop u3 "collapsedClass") [r + p.dom.length] (onClick _ u3.dom) = false
    have hcls : classList (onClick (childrenWithClass (prop u3 "collapseToolClass")
        (childrenWithClass (prop u3 "titlebarClass") [r + p.dom.length] u3.dom) u3.dom) u3.dom)
        (r + p.dom.length) =
        addNames (classNames (prop p "cssClass")) nd.classes := by
      rw [classList_onClick, hcl]
      unfold Component.withNode addClass
      simp only [show (setProp (setProp p "titlebarHtml" titlebarHtml) "bodyHtml" bodyHtml).dom
        = p.dom from rfl]
      have hlt : r + p.dom.length < (p.dom ++
          (env.parse markup).nodes.map (Node.shift p.dom.length)).length := by
        simp only [List.length_append, List.length_map]
        omega
      rw [classList_mapAt _ _ _ _ hlt, if_pos (List.mem_singleton_self _)]
      simp only
      have hget : (p.dom ++ (env.parse markup).nodes.map (Node.shift p.dom.length))[
          r + p.dom.length]? = some (Node.shift p.dom.length nd) := by
        rw [List.getElem?_append_right (by omega), List.getElem?_map, Nat.add_sub_cancel, hnd]
        rfl
      rw [List.getElem?_eq_getElem hlt, Option.some.injEq] at hget
      rw [hget]
      show addNames (classNames (prop (setProp (setProp p "titlebarHtml" titlebarHtml)
        "bodyHtml" bodyHtml) "cssClass")) nd.classes = _
      rw [prop_setProp_ne _ _ _ _ (by decide), prop_setProp_ne _ _ _ _ (by decide)]
    have hc2 : prop u3 "collapsedClass" = "collapsed".toList := by
      rw [hprop, prop_setProp_ne _ _ _ _ (by decide), prop_setProp_ne _ _ _ _ (by decide)]
      exact hcc
    unfold hasClass
    rw [hc2]
    simp only [List.any_cons, List.any_nil, Bool.or_false, decide_eq_false_iff_not]
    rw [hcls, mem_addNames]
    rintro (h | h)
    · exact hcss h
    · exact hndc h

end UI

namespace UI

open Observable (Val)
open Template (Str Value)

/-- C15: a panel with the default marker class `collapsed`, with handlers that do not
dispatch.  When its three templates render, the main one to the markup of one element
without the marker class, the css class of the panel has not the marker class, and the
configured selector finds at most one element, `render()` returns and right after it
`isCollapsed()` is false.  For every panel that has its node: `collapse()` returns,
`isCollapsed()` is true after it and stays true after a second `collapse()`, and the
event fired is `collapse` with the panel; `expand()` returns, `isCollapsed()` is false
after it and stays false after a second `expand()`, and the event fired is `expand` with
the panel; `toggleCollapsed()` returns, negates `isCollapsed()`, fires `expand` with the
panel when the panel was collapsed and `collapse` with the panel when it was not, and a
second `toggleCollapsed()` gives the first value of `isCollapsed()` back. -/
theorem Panel.collapsed_follows_last_transition (env : Env) (fns : Nat → Observable.Handler)
    (fuel : Nat) (p : State) (titlebarHtml bodyHtml markup : Str) (r : Nat)
    (hq : ∀ i, ∀ c ∈ (fns i).body, c.isFire = false ∧ c.registersFn = true)
    (hs : Observable.Callable p.obs)
    (hth : Template.render p.titlebarTemplate p.props = .ok titlebarHtml)
    (hbh : Template.render p.bodyTemplate (setProp p "titlebarHtml" titlebarHtml).props =
      .ok bodyHtml)
    (hmk : Template.render p.template
      (setProp (setProp p "titlebarHtml" titlebarHtml) "bodyHtml" bodyHtml).props = .ok markup)
    (hr : (env.parse markup).roots = [r])
    (hroot : ∃ nd, (env.parse markup).nodes[r]? = some nd ∧ "collapsed".toList ∉ nd.classes)
    (hcss : "collapsed".toList ∉ classNames (prop p "cssClass"))
    (hcc : prop p "collapsedClass" = "collapsed".toList)
    (hsel : (env.select p.dom (prop p "containerSelector")).length ≤ 1) :
    (∃ u, Panel.render env fns (fuel + 1) p = .ok u ∧ Panel.Rendered u ∧
      Panel.isCollapsed u = .ok false) ∧
    ∀ v, Panel.Rendered v →
      (∃ v1, Panel.collapse fns (fuel + 1) v = .ok v1 ∧ Panel.Rendered v1 ∧
        Panel.isCollapsed v1 = .ok true ∧
        v1.fired = v.fired ++ [("collapse", [v.self])] ∧
        ∃ v2, Panel.collapse fns (fuel + 1) v1 = .ok v2 ∧ Panel.isCollapsed v2 = .ok true) ∧
      (∃ v1, Panel.expand fns (fuel + 1) v = .ok v1 ∧ Panel.Rendered v1 ∧
        Panel.isCollapsed v1 = .ok false ∧
        v1.fired = v.fired ++ [("expand", [v.self])] ∧
        ∃ v2, Panel.expand fns (fuel + 1) v1 = .ok v2 ∧ Panel.isCollapsed v2 = .ok false) ∧
      (∃ b v1, Panel.isCollapsed v = .ok b ∧
        Panel.toggleCollapsed fns (fuel + 1) v = .ok v1 ∧ Panel.Rendered v1 ∧
        Panel.isCollapsed v1 = .ok (!b) ∧
        v1.fired = v.fired ++ [(if b then "expand" else "collapse", [v.self])] ∧
        ∃ v2, Panel.toggleCollapsed fns (fuel + 1) v1 = .ok v2 ∧
          Panel.isCollapsed v2 = .ok b) := by
  constructor
  · obtain ⟨u, e, hu, hx, -⟩ := Panel.render_expanded env fns hq fuel p titlebarHtml bodyHtml
      markup r hs hth hbh hmk hr hroot hcss hcc hsel
    exact ⟨u, e, hu, hx⟩
  · intro v hv
    refine ⟨?_, ?_, ?_⟩
    · obtain ⟨v1, e1, h1, x1, -, f1⟩ := Panel.collapse_spec fns hq fuel v hv
      obtain ⟨v2, e2, -, x2, -, -⟩ := Panel.collapse_spec fns hq fuel v1 h1
      exact ⟨v1, e1, h1, x1, f1, v2, e2, x2⟩
    · obtain ⟨v1, e1, h1, x1, -, f1⟩ := Panel.expand_spec fns hq fuel v hv
      obtain ⟨v2, e2, -, x2, -, -⟩ := Panel.expand_spec fns hq fuel v1 h1
      exact ⟨v1, e1, h1, x1, f1, v2, e2, x2⟩
    · obtain ⟨b, v1, hb, e1, h1, x1, -, f1⟩ := Panel.toggleCollapsed_spec fns hq fuel v hv
      obtain ⟨b', v2, hb', e2, -, x2, -, -⟩ := Panel.toggleCollapsed_spec fns hq fuel v1 h1
      rw [x1] at hb'
      cases hb'
      rw [Bool.not_not] at x2
      exact ⟨b, v1, hb, e1, h1, x1, f1, v2, e2, x2⟩

theorem appPanel_callable : Observable.Callable appPanel.obs := by
  unfold Observable.Callable; decide

set_option maxRecDepth 100000 in
/-- The theorem of C15 at the default panel configured with `containerSelector: '#app'`:
its templates render to the markup of the default panel, `render()` returns, and the
transitions hold for every panel that has its node; for the rendered panel,
`toggleCollapsed()` gives a collapsed panel and fires `collapse`, and a second
`toggleCollapsed()` gives an expanded panel and fires `expand`. -/
theorem Panel.collapsed_follows_last_transition_witness :
    (∀ i, ∀ c ∈ (Observable.plainHandlers i).body, c.isFire = false ∧ c.registersFn = true) ∧
    Observable.Callable appPanel.obs ∧
    Template.render appPanel.titlebarTemplate appPanel.props = .ok titlebarMarkup ∧
    Template.render appPanel.bodyTemplate (setProp appPanel "titlebarHtml" titlebarMarkup).props =
      .ok bodyMarkup ∧
    Template.render appPanel.template
      (setProp (setProp appPanel "titlebarHtml" titlebarMarkup) "bodyHtml" bodyMarkup).props =
      .ok panelMarkup ∧
    (browser.parse panelMarkup).roots = [0] ∧
    (∃ nd, (browser.parse panelMarkup).nodes[0]? = some nd ∧
      "collapsed".toList ∉ nd.classes) ∧
    "collapsed".toList ∉ classNames (prop appPanel "cssClass") ∧
    prop appPanel "collapsedClass" = "collapsed".toList ∧
    (browser.select appPanel.dom (prop appPanel "containerSelector")).length ≤ 1 ∧
    ((∃ u, Panel.render browser Observable.plainHandlers 1 appPanel = .ok u ∧
        Panel.Rendered u ∧ Panel.isCollapsed u = .ok false) ∧
      ∀ v, Panel.Rendered v →
        (∃ v1, Panel.collapse Observable.plainHandlers 1 v = .ok v1 ∧ Panel.Rendered v1 ∧
          Panel.isCollapsed v1 = .ok true ∧
          v1.fired = v.fired ++ [("collapse", [v.self])] ∧
          ∃ v2, Panel.collapse Observable.plainHandlers 1 v1 = .ok v2 ∧
            Panel.isCollapsed v2 = .ok true) ∧
        (∃ v1, Panel.expand Observable.plainHandlers 1 v = .ok v1 ∧ Panel.Rendered v1 ∧
          Panel.isCollapsed v1 = .ok false ∧
          v1.fired = v.fired ++ [("expand", [v.self])] ∧
          ∃ v2, Panel.expand Observable.plainHandlers 1 v1 = .ok v2 ∧
            Panel.isCollapsed v2 = .ok false) ∧
        (∃ b v1, Panel.isCollapsed v = .ok b ∧
          Panel.toggleCollapsed Observable.plainHandlers 1 v = .ok v1 ∧ Panel.Rendered v1 ∧
          Panel.isCollapsed v1 = .ok (!b) ∧
          v1.fired = v.fired ++ [(if b then "expand" else "collapse", [v.self])] ∧
          ∃ v2, Panel.toggleCollapsed Observable.plainHandlers 1 v1 = .ok v2 ∧
            Panel.isCollapsed v2 = .ok b)) ∧
    Panel.isCollapsed renderedPanel = .ok false ∧
    ((Panel.toggleCollapsed Observable.plainHandlers 1 renderedPanel).value?).map
        (fun u => ((Panel.isCollapsed u).value?, u.fired)) =
      some (some true, [("render", [Val.obj 7, Val.obj 9, Val.obj 8]),
        ("collapse", [Val.obj 7])]) ∧
    (((Panel.toggleCollapsed Observable.plainHandlers 1 renderedPanel).bind
        (Panel.toggleCollapsed Observable.plainHandlers 1)).value?).map
        (fun u => ((Panel.isCollapsed u).value?, u.fired)) =
      some (some false, [("render", [Val.obj 7, Val.obj 9, Val.obj 8]),
        ("collapse", [Val.obj 7]), ("expand", [Val.obj 7])]) :=
  ⟨Observable.plainHandlers_quiet, appPanel_callable, by decide, by decide, by decide,
    by decide, ⟨_, rfl, by decide⟩, by decide, by decide, by decide,
    Panel.collapsed_follows_last_transition browser Observable.plainHandlers 0 appPanel
      titlebarMarkup bodyMarkup panelMarkup 0 Observable.plainHandlers_quiet appPanel_callable
      (by decide) (by decide) (by decide) (by decide) ⟨_, rfl, by decide⟩ (by decide)
      (by decide) (by decide),
    by decide, by decide, by decide⟩

end UI
